import Mathlib

/-!
# Type erasure engine (src/ts_strip/ts_strip.c): embedding and properties

The development embeds the byte-range recorder, the output builder and the
CST visitor of `ts_strip.c`.  The external parser is a black box: a syntax
tree is an arbitrary value of `TSNode`, and the facts a parser guarantees
about it are stated as explicit well-formedness predicates.

Conventions of the embedding:
* a source byte is a `Nat` (`'\n'` is 10, `'\r'` is 13, `' '` is 32,
  `':'` is 58, `';'` is 59);
* byte offsets are `Nat`; the one `uint32_t` subtraction of the source that
  can wrap (`node_end - 1`) is written with an explicit `% 2^32`;
* the edit array of the source is an array of `int`: an offset is stored and
  read back unchanged exactly when it is below 2^31, so the theorems about
  whole sources are stated for sources shorter than 2^31 bytes;
* a null `TSNode` is `none`;
* the allocator is an oracle telling whether the k-th request succeeds.
-/

namespace TsStrip

/-! ## Syntax trees -/

/-- A node of the concrete syntax tree: its type tag (`ts_node_type`), the
field name under which its parent holds it, its byte range
(`ts_node_start_byte`, `ts_node_end_byte`) and its ordered children. -/
inductive TSNode where
  | mk (type : String) (field : Option String) (start_byte end_byte : Nat)
      (children : List TSNode) : TSNode
  deriving Repr

namespace TSNode

/-- Type tag of a node (`ts_node_type`). -/
def type : TSNode → String
  | mk t _ _ _ _ => t

/-- Field name of a node inside its parent. -/
def field : TSNode → Option String
  | mk _ f _ _ _ => f

/-- First byte of a node (`ts_node_start_byte`). -/
def start_byte : TSNode → Nat
  | mk _ _ s _ _ => s

/-- One past the last byte of a node (`ts_node_end_byte`). -/
def end_byte : TSNode → Nat
  | mk _ _ _ e _ => e

/-- Ordered children of a node (`ts_node_child` for `i < ts_node_child_count`). -/
def children : TSNode → List TSNode
  | mk _ _ _ _ cs => cs

mutual
/-- Height of a tree: a leaf has height 0. -/
def height : TSNode → Nat
  | mk _ _ _ _ cs => heightList cs
/-- One more than the largest height in a list of trees, 0 for the empty list. -/
def heightList : List TSNode → Nat
  | [] => 0
  | c :: cs => max (height c + 1) (heightList cs)
end

end TSNode

/-- Start byte of a possibly null node; the null node has all fields zero. -/
def ts_node_start_byte : Option TSNode → Nat
  | none => 0
  | some n => n.start_byte

/-- The test `is_type(n, t)`: the node is not null and its type tag is `t`. -/
def is_type (n : Option TSNode) (t : String) : Bool :=
  match n with
  | none => false
  | some m => m.type == t

/-- The lookup `get_child_by_field(n, f)`: the first child held under field `f`. -/
def get_child_by_field (n : TSNode) (f : String) : Option TSNode :=
  n.children.find? (fun c => c.field == some f)

/-- The lookup `find_child_type(n, t)`: the first child of type `t`. -/
def find_child_type (n : TSNode) (t : String) : Option TSNode :=
  n.children.find? (fun c => is_type (some c) t)

/-! ## Range recorder -/

/-- The two edit actions (`enum range_flag`). -/
inductive range_flag where
  | FLAG_BLANK
  | FLAG_REPLACE_WITH_SEMI
  deriving DecidableEq, Repr

open range_flag

/-- One recorded edit: three consecutive `int`s of the range array.  The
offsets are kept as `Nat`: they are the values the `int`s hold when they are
below 2^31. -/
structure Edit where
  flag : range_flag
  start : Nat
  stop : Nat
  deriving DecidableEq, Repr

/-- The growable edit array (`range_array_t`): `data` holds the recorded
triples, so the C field `size` is `3 * data.length`; `capacity` counts `int`s. -/
structure range_array_t where
  data : List Edit
  capacity : Nat
  deriving Repr

/-- Number of `int`s in use (`arr->size`). -/
def range_array_t.size (arr : range_array_t) : Nat := 3 * arr.data.length

/-- Allocator oracle (`ts_strip_allocator_t`): `grants k` tells whether the
k-th request made through the allocator returns a non-null pointer. -/
structure ts_strip_allocator_t where
  grants : Nat → Bool

/-- The allocator that never fails. -/
def default_alloc : ts_strip_allocator_t := ⟨fun _ => true⟩

/-- Visitor result (`enum visit_result`). -/
inductive visit_result where
  | VISIT_BLANKED
  | VISITED_JS
  deriving DecidableEq, Repr

open visit_result

/-- Traversal state (`parse_ctx_t`).  Two fields are not in the C structure:
`requests` counts the allocator requests made so far, and `marked` is the
log of the byte ranges of the nodes at which `has_unsupported` was set
(it is written, never read, by the traversal). -/
structure parse_ctx_t where
  source : List Nat
  ranges : range_array_t
  seen_js : Bool
  has_unsupported : Bool
  parent_statement : Option TSNode
  in_function_body : Int
  allocator : ts_strip_allocator_t
  requests : Nat
  marked : List (Nat × Nat)

/-- Length of the source (`ctx->source_len`). -/
def parse_ctx_t.source_len (ctx : parse_ctx_t) : Nat := ctx.source.length

/-- Append of one edit (`range_array_push`): when the array is full it asks
the allocator for twice the capacity; on refusal nothing is recorded and the
call reports `false`.  The parameters `int start, int end` of the source are
the offsets themselves as long as these are below 2^31. -/
def range_array_push (ctx : parse_ctx_t) (flag : range_flag) (start stop : Nat) :
    parse_ctx_t × Bool :=
  if ctx.ranges.size + 3 > ctx.ranges.capacity then
    if ctx.allocator.grants ctx.requests then
      ({ ctx with
          ranges := ⟨ctx.ranges.data ++ [⟨flag, start, stop⟩], ctx.ranges.capacity * 2⟩,
          requests := ctx.requests + 1 }, true)
    else
      ({ ctx with requests := ctx.requests + 1 }, false)
  else
    ({ ctx with ranges := ⟨ctx.ranges.data ++ [⟨flag, start, stop⟩], ctx.ranges.capacity⟩ },
      true)

/-- Record a plain blank (`blank_range`). -/
def blank_range (ctx : parse_ctx_t) (start stop : Nat) : parse_ctx_t × Bool :=
  range_array_push ctx FLAG_BLANK start stop

/-- Record a blank that starts with a semicolon (`blank_semi`). -/
def blank_semi (ctx : parse_ctx_t) (start stop : Nat) : parse_ctx_t × Bool :=
  range_array_push ctx FLAG_REPLACE_WITH_SEMI start stop

/-- Blank the range of a node (`blank_node`). -/
def blank_node (ctx : parse_ctx_t) (n : TSNode) : parse_ctx_t × Bool :=
  blank_range ctx n.start_byte n.end_byte

/-- Whole-statement erasure (`blank_stmt`). -/
def blank_stmt (ctx : parse_ctx_t) (n : TSNode) : parse_ctx_t × Bool :=
  if ctx.seen_js && ctx.in_function_body == 0 then
    blank_semi ctx n.start_byte n.end_byte
  else
    blank_range ctx n.start_byte n.end_byte

/-- Blank a type annotation and the `:` just before it (`blank_type_anno`). -/
def blank_type_anno (ctx : parse_ctx_t) (n : TSNode) : parse_ctx_t × Bool :=
  let start := n.start_byte
  let start := if start > 0 && ctx.source.getD (start - 1) 0 == 58 then start - 1 else start
  blank_range ctx start n.end_byte

/-! ## Output builder -/

/-- The byte a blanked byte becomes (`get_space_char`). -/
def get_space_char (c : Nat) : Nat :=
  if c = 10 ∨ c = 13 then c else 32

/-- The bytes `memcpy(dst, src + lo, hi - lo)` copies; the embedding cuts a
read that would run past the end of the source at that end. -/
def copy_bytes (src : List Nat) (lo hi : Nat) : List Nat :=
  (src.drop lo).take (hi - lo)

/-- The blanking loop `for (j = start; j < end && j < in_len; j++)`. -/
def blank_bytes (src : List Nat) (start stop : Nat) : List Nat :=
  (copy_bytes src start (min stop src.length)).map get_space_char

/-- One iteration of the edit loop of `build_output`; the state is the output
written so far (`pos` is its length) and `prev`. -/
def build_step (src : List Nat) (st : List Nat × Nat) (e : Edit) : List Nat × Nat :=
  let out := st.1
  let prev := st.2
  let start := if e.start < prev then prev else e.start
  let out := out ++ copy_bytes src prev start
  let out := if e.flag = FLAG_REPLACE_WITH_SEMI then out ++ [59] else out
  let start := if e.flag = FLAG_REPLACE_WITH_SEMI then start + 1 else start
  let out := out ++ blank_bytes src start e.stop
  (out, e.stop)

/-- The bytes `build_output` writes for a given edit list, before the
terminating NUL. -/
def replay (src : List Nat) (edits : List Edit) : List Nat :=
  if edits.length = 0 then
    src
  else
    let st := edits.foldl (build_step src) ([], 0)
    st.1 ++ copy_bytes src st.2 src.length

/-- The output builder (`build_output`): `none` when the allocator refuses
the output buffer. -/
def build_output (ctx : parse_ctx_t) : Option (List Nat) :=
  if ctx.allocator.grants ctx.requests then
    some (replay ctx.source ctx.ranges.data)
  else
    none

/-! ## Visitor -/

/-- Flag the traversal as having met a non-erasable construct at node `n`
(`ctx->has_unsupported = true`), and log the range of `n`. -/
def mark_unsupported (ctx : parse_ctx_t) (n : TSNode) : parse_ctx_t :=
  { ctx with has_unsupported := true, marked := ctx.marked ++ [(n.start_byte, n.end_byte)] }

/-- Body of the child loop of `has_runtime_values`, for one child; `rec` is
the recursive call. -/
def runtime_child (rec : Option TSNode → Bool) (child : TSNode) : Bool :=
  let type := child.type
  if type == "ambient_declaration" then false
  else if type == "expression_statement" || type == "statement_block" then true
  else if type == "lexical_declaration" || type == "variable_declaration" ||
      type == "class_declaration" || type == "function_declaration" then true
  else if type == "internal_module" && rec (some child) then true
  else if type == "export_statement" then
    (match get_child_by_field child "declaration" with
      | some decl =>
        let decl_type := decl.type
        if decl_type == "lexical_declaration" || decl_type == "variable_declaration" ||
            decl_type == "class_declaration" || decl_type == "function_declaration" then true
        else decl_type == "internal_module" && rec (some decl)
      | none => false)
    || (find_child_type child "import_alias").isSome
  else false

/-- Recursion of `has_runtime_values` with an explicit bound on its depth. -/
def has_runtime_values_fuel : Nat → Option TSNode → Bool
  | 0, _ => false
  | _ + 1, none => false
  | fuel + 1, some n => n.children.any (runtime_child (has_runtime_values_fuel fuel))

/-- Runtime-evidence detection for namespaces (`has_runtime_values`); the
bound is the height of the node, which the recursion cannot exceed. -/
def has_runtime_values (n : Option TSNode) : Bool :=
  match n with
  | none => false
  | some m => has_runtime_values_fuel (m.height + 1) (some m)

/-- The type tags `has_param_props` looks for. -/
def is_param_prop_type (type : String) : Bool :=
  type == "accessibility_modifier" || type == "public" || type == "private" ||
    type == "protected" || type == "readonly"

/-- Parameter-property detection (`has_param_props`). -/
def has_param_props (params : TSNode) : Bool :=
  params.children.any (fun param => param.children.any (fun child => is_param_prop_type child.type))

/-- The visitor the helpers below recurse through. -/
abbrev Visitor := parse_ctx_t → TSNode → parse_ctx_t × visit_result

/-- The call `visit_node(ctx, n)` on a possibly null node: a null node is
reported as `VISITED_JS` and changes nothing. -/
def visit_opt (visit : Visitor) (ctx : parse_ctx_t) (n : Option TSNode) :
    parse_ctx_t × visit_result :=
  match n with
  | none => (ctx, VISITED_JS)
  | some m => visit ctx m

/-- Traversal of all children (`visit_children`). -/
def visit_children (visit : Visitor) (ctx : parse_ctx_t) (n : TSNode) :
    parse_ctx_t × visit_result :=
  let ctx := n.children.foldl
    (fun ctx child =>
      let r := visit ctx child
      if r.2 = VISITED_JS then { r.1 with seen_js := true } else r.1) ctx
  (ctx, if ctx.seen_js then VISITED_JS else VISIT_BLANKED)

/-- One parameter of a parameter list: the inner loop of `visit_formal_parameters`. -/
def visit_parameter (visit : Visitor) (ctx : parse_ctx_t) (param : TSNode) : parse_ctx_t :=
  param.children.foldl
    (fun ctx child =>
      if child.type == "type_annotation" || child.type == "?" then (blank_node ctx child).1
      else (visit ctx child).1) ctx

/-- Visit of a parameter list (`visit_formal_parameters`). -/
def visit_formal_parameters (visit : Visitor) (ctx : parse_ctx_t) (params : TSNode) :
    parse_ctx_t :=
  params.children.foldl (visit_parameter visit) ctx

/-- The child loop shared by `visit_function_like` and `visit_arrow_function`. -/
def visit_signature_children (visit : Visitor) (ctx : parse_ctx_t) (n : TSNode) :
    parse_ctx_t :=
  n.children.foldl
    (fun ctx child =>
      if child.type == "type_annotation" || child.type == "type_parameters" then
        (blank_node ctx child).1
      else if child.type == "formal_parameters" then visit_formal_parameters visit ctx child
      else (visit ctx child).1) ctx

/-- Function-like nodes (`visit_function_like`). -/
def visit_function_like (visit : Visitor) (ctx : parse_ctx_t) (n : TSNode) :
    parse_ctx_t × visit_result :=
  match get_child_by_field n "body" with
  | none => ((blank_stmt ctx n).1, VISIT_BLANKED)
  | some _ =>
    if (match get_child_by_field n "parameters" with
        | some params => has_param_props params
        | none => false) then
      (mark_unsupported ctx n, VISITED_JS)
    else
      let prev_depth := ctx.in_function_body
      let ctx := { ctx with in_function_body := ctx.in_function_body + 1 }
      let ctx := visit_signature_children visit ctx n
      ({ ctx with in_function_body := prev_depth }, VISITED_JS)

/-- Arrow functions (`visit_arrow_function`). -/
def visit_arrow_function (visit : Visitor) (ctx : parse_ctx_t) (n : TSNode) :
    parse_ctx_t × visit_result :=
  (visit_signature_children visit ctx n, VISITED_JS)

/-- The inner loop of `visit_class_declaration` over a `class_heritage`. -/
def visit_heritage (visit : Visitor) (ctx : parse_ctx_t) (child : TSNode) : parse_ctx_t :=
  child.children.foldl
    (fun ctx heritage =>
      if is_type (some heritage) "implements_clause" then (blank_node ctx heritage).1
      else (visit ctx heritage).1) ctx

/-- Class declarations (`visit_class_declaration`). -/
def visit_class_declaration (visit : Visitor) (ctx : parse_ctx_t) (n : TSNode) :
    parse_ctx_t × visit_result :=
  (n.children.foldl
    (fun ctx child =>
      if child.type == "type_parameters" then (blank_node ctx child).1
      else if child.type == "class_heritage" then visit_heritage visit ctx child
      else (visit ctx child).1) ctx, VISITED_JS)

/-- What one child of the arrow function tells the backwards scan of
`visit_binary_expression`: the argument list to resume at, if the scan stops
at this child. -/
def call_candidate (child : TSNode) : Option TSNode :=
  if is_type (some child) "binary_expression" then
    match get_child_by_field child "right" with
    | some be_right =>
      if is_type (some be_right) "parenthesized_expression" then some be_right else none
    | none => none
  else if is_type (some child) "parenthesized_expression" then some child
  else none

/-- Where the call arguments start, for the repair of `visit_binary_expression`:
`right` itself, or, when `right` is an arrow function, the result of scanning
its children from the last to the first. -/
def find_actual_call (right : Option TSNode) : Option TSNode :=
  match right with
  | none => none
  | some r =>
    if is_type (some r) "arrow_function" then
      match r.children.reverse.findSome? call_candidate with
      | some c => some c
      | none => some r
    else some r

/-- The identifier of the shape `ident << ... > ...` that triggers the
repair of `visit_binary_expression`, if the node has that shape. -/
def generic_call_ident (n : TSNode) : Option TSNode :=
  let left := get_child_by_field n "left"
  let op := get_child_by_field n "operator"
  if is_type op ">" && is_type left "binary_expression" then
    match left with
    | none => none
    | some l =>
      if is_type (get_child_by_field l "operator") "<<" then
        match get_child_by_field l "left" with
        | some inner_left => if is_type (some inner_left) "identifier" then some inner_left else none
        | none => none
      else none
  else none

/-- Binary expressions (`visit_binary_expression`). -/
def visit_binary_expression (visit : Visitor) (ctx : parse_ctx_t) (n : TSNode) :
    parse_ctx_t × visit_result :=
  match generic_call_ident n with
  | some inner_left =>
    let ctx := (visit ctx inner_left).1
    let actual_call := find_actual_call (get_child_by_field n "right")
    let blank_start := inner_left.end_byte
    let blank_end := ts_node_start_byte actual_call
    let ctx := (blank_range ctx blank_start blank_end).1
    ((visit_opt visit ctx actual_call).1, VISITED_JS)
  | none => ((visit_children visit ctx n).1, VISITED_JS)

/-- The loop of the `ambient_declaration` case: the first child of type
`module` decides; it is a legacy module when it has a name that is not a
string literal. -/
def ambient_legacy_module (n : TSNode) : Bool :=
  match find_child_type n "module" with
  | some child =>
    (match get_child_by_field child "name" with
      | some name => !is_type (some name) "string"
      | none => false)
  | none => false

/-- The ASI test of the `as`/`satisfies` case: the suffix ends where the
enclosing top-level statement ends and the next byte exists and is not `;`. -/
def as_needs_semi (ctx : parse_ctx_t) (node_end : Nat) : Bool :=
  (match ctx.parent_statement with
    | some p => node_end == p.end_byte
    | none => false)
  && decide (node_end < ctx.source_len) && ctx.source.getD node_end 0 != 59

/-- The cases of the `strcmp` chain of `visit_node`, in the order of the chain. -/
inductive node_kind where
  | error
  | ambient_declaration
  | type_declaration
  | import_statement
  | import_alias
  | export_statement
  | variable_declarator
  | declaration_list
  | function_like
  | arrow_function
  | binary_expression
  | class_declaration
  | field_definition
  | enum_declaration
  | module
  | internal_module
  | as_expression
  | type_assertion
  | non_null_expression
  | call_expression
  | type_node
  | other
  deriving DecidableEq, Repr

/-- The type tags the `strcmp` chain of `visit_node` tests, in the order of
the chain, each with the case it selects. -/
def kind_table : List (String × node_kind) :=
  [("ERROR", .error),
   ("ambient_declaration", .ambient_declaration),
   ("type_alias_declaration", .type_declaration),
   ("interface_declaration", .type_declaration),
   ("import_statement", .import_statement),
   ("import_alias", .import_alias),
   ("export_statement", .export_statement),
   ("variable_declarator", .variable_declarator),
   ("lexical_declaration", .declaration_list),
   ("variable_declaration", .declaration_list),
   ("function_declaration", .function_like),
   ("function_signature", .function_like),
   ("method_definition", .function_like),
   ("method_signature", .function_like),
   ("arrow_function", .arrow_function),
   ("binary_expression", .binary_expression),
   ("class_declaration", .class_declaration),
   ("abstract_class_declaration", .class_declaration),
   ("public_field_definition", .field_definition),
   ("property_signature", .field_definition),
   ("enum_declaration", .enum_declaration),
   ("module", .module),
   ("internal_module", .internal_module),
   ("as_expression", .as_expression),
   ("satisfies_expression", .as_expression),
   ("type_assertion", .type_assertion),
   ("non_null_expression", .non_null_expression),
   ("call_expression", .call_expression),
   ("new_expression", .call_expression),
   ("type_annotation", .type_node),
   ("type_arguments", .type_node),
   ("type_parameters", .type_node)]

/-- The `strcmp` chain of `visit_node`: the first tag of the chain equal to
the type tag decides the case; a tag the chain does not test is `other`. -/
def classify (type : String) : node_kind :=
  match kind_table.find? (fun entry => type == entry.1) with
  | some entry => entry.2
  | none => .other

/-- The body of `visit_node` for a non-null node, one arm for each case of
the `strcmp` chain; `visit` is the recursive call. -/
def visit_node_body (visit : Visitor) (ctx : parse_ctx_t) (n : TSNode) :
    parse_ctx_t × visit_result :=
  match classify n.type with
  | .error => (mark_unsupported ctx n, VISITED_JS)
  | .ambient_declaration =>
    if ambient_legacy_module n then (mark_unsupported ctx n, VISITED_JS)
    else ((blank_stmt ctx n).1, VISIT_BLANKED)
  | .type_declaration => ((blank_stmt ctx n).1, VISIT_BLANKED)
  | .import_statement =>
    if (find_child_type n "import_require_clause").isSome then
      (mark_unsupported ctx n, VISITED_JS)
    else if (match get_child_by_field n "import_clause" with
        | some clause => (find_child_type clause "type").isSome
        | none => false) then
      ((blank_stmt ctx n).1, VISIT_BLANKED)
    else (ctx, VISITED_JS)
  | .import_alias => (ctx, VISITED_JS)
  | .export_statement =>
    if (find_child_type n "type").isSome then ((blank_stmt ctx n).1, VISIT_BLANKED)
    else if (find_child_type n "=").isSome then (mark_unsupported ctx n, VISITED_JS)
    else ((visit_children visit ctx n).1, VISITED_JS)
  | .variable_declarator =>
    (n.children.foldl
      (fun ctx child =>
        if child.type == "type_annotation" then (blank_type_anno ctx child).1
        else if child.type == "!" then (blank_node ctx child).1
        else (visit ctx child).1) ctx, VISITED_JS)
  | .declaration_list => ((visit_children visit ctx n).1, VISITED_JS)
  | .function_like => visit_function_like visit ctx n
  | .arrow_function => visit_arrow_function visit ctx n
  | .binary_expression => visit_binary_expression visit ctx n
  | .class_declaration => visit_class_declaration visit ctx n
  | .field_definition =>
    (n.children.foldl
      (fun ctx child =>
        if child.type == "type_annotation" || child.type == "!" || child.type == "?" ||
            child.type == "accessibility_modifier" || child.type == "readonly" then
          (blank_node ctx child).1
        else (visit ctx child).1) ctx, VISITED_JS)
  | .enum_declaration => (mark_unsupported ctx n, VISITED_JS)
  | .module => (mark_unsupported ctx n, VISITED_JS)
  | .internal_module =>
    if has_runtime_values (some n) then (mark_unsupported ctx n, VISITED_JS)
    else ((blank_stmt ctx n).1, VISIT_BLANKED)
  | .as_expression =>
    (match n.children.head? with
      | some expr =>
        let ctx := (visit ctx expr).1
        let expr_end := expr.end_byte
        let node_end := n.end_byte
        if as_needs_semi ctx node_end then ((blank_semi ctx expr_end node_end).1, VISITED_JS)
        else ((blank_range ctx expr_end node_end).1, VISITED_JS)
      | none => (ctx, VISITED_JS))
  | .type_assertion => (mark_unsupported ctx n, VISITED_JS)
  | .non_null_expression =>
    let ctx := match n.children.head? with
      | some expr => (visit ctx expr).1
      | none => ctx
    let node_end := n.end_byte
    ((blank_range ctx ((node_end + 4294967295) % 4294967296) node_end).1, VISITED_JS)
  | .call_expression =>
    (n.children.foldl
      (fun ctx child =>
        if is_type (some child) "type_arguments" then (blank_node ctx child).1
        else (visit ctx child).1) ctx, VISITED_JS)
  | .type_node => ((blank_node ctx n).1, VISIT_BLANKED)
  | .other => ((visit_children visit ctx n).1, VISITED_JS)

/-- Recursion of `visit_node` with an explicit bound on its depth. -/
def visit_node_fuel : Nat → Visitor
  | 0 => fun ctx _ => (ctx, VISITED_JS)
  | fuel + 1 => visit_node_body (visit_node_fuel fuel)

/-- The main node visitor (`visit_node`) on a non-null node; the bound is
one more than the height of the node, which the recursion cannot exceed. -/
def visit_node (ctx : parse_ctx_t) (n : TSNode) : parse_ctx_t × visit_result :=
  visit_node_fuel (n.height + 1) ctx n

/-! ## Public entry point -/

/-- Status codes (`ts_strip_result_t`). -/
inductive ts_strip_result_t where
  | TS_STRIP_SUCCESS
  | TS_STRIP_ERROR_INVALID_INPUT
  | TS_STRIP_ERROR_PARSE_FAILED
  | TS_STRIP_ERROR_UNSUPPORTED
  | TS_STRIP_ERROR_OUT_OF_MEMORY
  deriving DecidableEq, Repr

open ts_strip_result_t

/-- The capacity `range_array_init` starts with. -/
def initial_capacity : Nat := 128

/-- The traversal state `ts_strip_with_ctx` starts from, once the range
array is allocated; `requests` counts the request already made for it. -/
def initial_ctx (alloc : ts_strip_allocator_t) (requests : Nat) (src : List Nat) : parse_ctx_t :=
  { source := src, ranges := ⟨[], initial_capacity⟩, seen_js := false,
    has_unsupported := false, parent_statement := none, in_function_body := 0,
    allocator := alloc, requests := requests, marked := [] }

/-- The loop of `ts_strip_with_ctx` over the children of the root. -/
def visit_top_level (ctx : parse_ctx_t) (root : TSNode) : parse_ctx_t :=
  root.children.foldl
    (fun ctx child =>
      let ctx := { ctx with parent_statement := some child }
      let r := visit_node ctx child
      if r.2 = VISITED_JS then { r.1 with seen_js := true } else r.1) ctx

/-- The entry point `ts_strip_with_ctx`.  `src` is `none` for a null source
pointer (the context and the two output pointers are taken to be valid);
`parse` is the external parser, which returns the root of the tree or `none`
when it fails; `requests` is the number of allocator requests made before the
call.  The result is the status and the output buffer, if any. -/
def ts_strip_with_ctx (alloc : ts_strip_allocator_t) (requests : Nat)
    (parse : List Nat → Option TSNode) (src : Option (List Nat)) :
    ts_strip_result_t × Option (List Nat) :=
  match src with
  | none => (TS_STRIP_ERROR_INVALID_INPUT, none)
  | some s =>
    if s.length = 0 then
      if alloc.grants requests then (TS_STRIP_SUCCESS, some [])
      else (TS_STRIP_ERROR_OUT_OF_MEMORY, none)
    else
      match parse s with
      | none => (TS_STRIP_ERROR_PARSE_FAILED, none)
      | some root =>
        if alloc.grants requests then
          let ctx := visit_top_level (initial_ctx alloc (requests + 1) s) root
          match build_output ctx with
          | some out =>
            (if ctx.has_unsupported then TS_STRIP_ERROR_UNSUPPORTED else TS_STRIP_SUCCESS,
              some out)
          | none => (TS_STRIP_ERROR_OUT_OF_MEMORY, none)
        else (TS_STRIP_ERROR_OUT_OF_MEMORY, none)

/-! ## Auxiliary definitions for the properties -/

/-- Bytes paired with their offsets, counting from `k`. -/
def indexed : Nat → List Nat → List (Nat × Nat)
  | _, [] => []
  | k, c :: cs => (k, c) :: indexed (k + 1) cs

/-- An edit the output builder handles without losing or repeating a
byte, given the end `prev` of the edit before it: it is a range of the
source that ends at or after `prev`, and a semicolon edit is non-empty and
starts at or after `prev`. -/
def edit_ok (len prev : Nat) (e : Edit) : Prop :=
  e.start ≤ e.stop ∧ prev ≤ e.stop ∧ e.stop ≤ len ∧
    (e.flag = FLAG_REPLACE_WITH_SEMI → prev ≤ e.start ∧ e.start < e.stop)

/-- Every edit of the list is `edit_ok` after the one before it; `prev` is
the end of the edit before the list. -/
def edits_ok (len : Nat) : Nat → List Edit → Prop
  | _, [] => True
  | prev, e :: es => edit_ok len prev e ∧ edits_ok len e.stop es

/-- End of the last edit of a list, `prev` when the list is empty. -/
def last_stop : Nat → List Edit → Nat
  | prev, [] => prev
  | _, e :: es => last_stop e.stop es

/-- How an output byte `b` may relate to the source byte `p.2` at offset
`p.1`: it is that byte, or the offset lies in the range of an edit and `b` is
the blank for that byte or the `;` at the first offset of a semicolon edit. -/
def byte_rel (es : List Edit) (b : Nat) (p : Nat × Nat) : Prop :=
  b = p.2 ∨ ∃ e ∈ es, e.start ≤ p.1 ∧ p.1 < e.stop ∧
    (b = get_space_char p.2 ∨ (e.flag = FLAG_REPLACE_WITH_SEMI ∧ p.1 = e.start ∧ b = 59))

/-! ### Well-formed syntax trees -/

/-- The nodes of a list are in source order and do not overlap, the first
one starting at or after `p`. -/
def ordered_from : Nat → List TSNode → Bool
  | _, [] => true
  | p, c :: cs => decide (p ≤ c.start_byte) && ordered_from c.end_byte cs

/-- In an `as`, `satisfies` or non-null expression the operand (child 0) ends
before the node does: the keyword or the `!` follows it inside the node. -/
def operand_ok (n : TSNode) : Bool :=
  if n.type == "as_expression" || n.type == "satisfies_expression" ||
      n.type == "non_null_expression" then
    match n.children.head? with
    | some expr => decide (expr.end_byte < n.end_byte)
    | none => true
  else true

/-- A binary expression with a left operand has a right operand, which
starts at or after the end of the left one. -/
def operands_ok (n : TSNode) : Bool :=
  if n.type == "binary_expression" then
    match get_child_by_field n "left" with
    | some l =>
      (match get_child_by_field n "right" with
        | some r => decide (l.end_byte ≤ r.start_byte)
        | none => false)
    | none => true
  else true

mutual
/-- A tree a parser can deliver for a source of `len` bytes: every node is
a non-empty range of the source, the children of a node are in source order,
disjoint and inside the node, and the node shapes obey `operand_ok` and
`operands_ok`. -/
def well_formed (len : Nat) : TSNode → Bool
  | .mk ty f s e cs =>
    decide (s < e) && decide (e ≤ len) && ordered_from s cs &&
      cs.all (fun c => decide (c.end_byte ≤ e)) &&
      operand_ok (.mk ty f s e cs) && operands_ok (.mk ty f s e cs) &&
      well_formed_list len cs
/-- All trees of a list are `well_formed`. -/
def well_formed_list (len : Nat) : List TSNode → Bool
  | [] => true
  | c :: cs => well_formed len c && well_formed_list len cs
end

/-- The root of a tree a parser can deliver: its children (the top-level
statements) are well formed, in source order and disjoint. -/
def well_formed_root (len : Nat) (root : TSNode) : Bool :=
  ordered_from 0 root.children && well_formed_list len root.children

/-! ### Trees with tokens that have no bytes -/

/-- The cases of `visit_node` that record an edit which must not be empty:
the whole-statement erasures, whose edit may start with a `;`, and the
non-null expression, whose last byte is blanked. -/
def needs_bytes : node_kind → Bool
  | .ambient_declaration => true
  | .type_declaration => true
  | .import_statement => true
  | .export_statement => true
  | .function_like => true
  | .internal_module => true
  | .non_null_expression => true
  | _ => false

/-- The byte range of a node is in order.  With `strict` every node holds
at least one byte.  Without it a node may be empty, as a token is that the
parser inserts where the source lacks one (the range of a node made of such
tokens is empty too); the nodes of the kinds `needs_bytes` lists begin with a
keyword or a name, or end with a `!`, and are never empty (for an empty one
the `;` of a semicolon edit would stand for no byte of the source). -/
def range_ok (strict : Bool) (n : TSNode) : Bool :=
  if strict || needs_bytes (classify n.type) then decide (n.start_byte < n.end_byte)
  else decide (n.start_byte ≤ n.end_byte)

mutual
/-- A tree a parser can deliver for a source of `len` bytes: the range of
every node is `range_ok` and inside the source, the children of a node are in
source order, disjoint and inside the node, and the node shapes obey
`operand_ok` and `operands_ok`.  A `well_formed` tree is `tree_ok` with
`strict`. -/
def tree_ok (strict : Bool) (len : Nat) : TSNode → Bool
  | .mk ty f s e cs =>
    range_ok strict (.mk ty f s e cs) && decide (e ≤ len) && ordered_from s cs &&
      cs.all (fun c => decide (c.end_byte ≤ e)) &&
      operand_ok (.mk ty f s e cs) && operands_ok (.mk ty f s e cs) &&
      tree_ok_list strict len cs
/-- All trees of a list are `tree_ok`. -/
def tree_ok_list (strict : Bool) (len : Nat) : List TSNode → Bool
  | [] => true
  | c :: cs => tree_ok strict len c && tree_ok_list strict len cs
end

/-- The root of a tree a parser can deliver: its children (the top-level
statements) are `tree_ok`, in source order and disjoint. -/
def tree_ok_root (strict : Bool) (len : Nat) (root : TSNode) : Bool :=
  ordered_from 0 root.children && tree_ok_list strict len root.children

/-! ### Invariant of the traversal -/

/-- An edit and the range of an unsupported node are apart: the edit lies
before the node, or after it, or it starts on the last byte of the node and
that byte is a `:`. -/
def sep (src : List Nat) (e : Edit) (m : Nat × Nat) : Prop :=
  e.stop ≤ m.1 ∨ m.2 ≤ e.start ∨ (m.2 ≤ e.start + 1 ∧ src[e.start]? = some 58)

/-- An edit `b` recorded after an edit `a` starts at or after the end of
`a`, or one byte before it, on a `:`. -/
def follows (src : List Nat) (a b : Edit) : Prop :=
  a.stop ≤ b.start ∨ (a.stop ≤ b.start + 1 ∧ src[b.start]? = some 58)

/-- State of the traversal when everything before offset `p` has been
visited: the source is unchanged, the edits are `edits_ok` and end at or
before `p`, the logged unsupported nodes end at or before `p`, every edit is
apart from every logged node, the unsupported flag is set exactly when a
node has been logged, and every edit `follows` the edits recorded before it;
on a tree without empty nodes (`strict`), moreover, no edit is empty and the
edits are in non-decreasing start order. -/
structure Inv (strict : Bool) (src : List Nat) (ctx : parse_ctx_t) (p : Nat) : Prop where
  source_eq : ctx.source = src
  ok : edits_ok src.length 0 ctx.ranges.data
  stops : ∀ e ∈ ctx.ranges.data, e.stop ≤ p
  marks : ∀ m ∈ ctx.marked, m.2 ≤ p
  apart : ∀ e ∈ ctx.ranges.data, ∀ m ∈ ctx.marked, sep src e m
  flagged : ctx.has_unsupported = true ↔ ctx.marked ≠ []
  spaced : ctx.ranges.data.Pairwise (follows src)
  nonempty : strict = true → ∀ e ∈ ctx.ranges.data, e.start < e.stop
  sorted : strict = true → ctx.ranges.data.Pairwise (fun a b => a.start ≤ b.start)

/-- What the traversal invariant asks of a visitor: visiting a node of a
tree a parser can deliver that starts at or after the frontier moves the
frontier to its end. -/
def VisitorSpec (strict : Bool) (src : List Nat) (V : Visitor) : Prop :=
  ∀ ctx n p, tree_ok strict src.length n = true → Inv strict src ctx p → p ≤ n.start_byte →
    Inv strict src (V ctx n).1 n.end_byte

/-- The traversal state `ts_strip_with_ctx` hands to `build_output`: the
state after the loop over the top-level statements. -/
def traversal (alloc : ts_strip_allocator_t) (requests : Nat) (src : List Nat)
    (root : TSNode) : parse_ctx_t :=
  visit_top_level (initial_ctx alloc (requests + 1) src) root

/-! ### Sources and trees used as concrete inputs -/

/-- The bytes of an ASCII string. -/
def ascii (s : String) : List Nat := s.data.map Char.toNat

/-- A node without children and without a field name (a token). -/
def leaf (type : String) (start_byte end_byte : Nat) : TSNode :=
  .mk type none start_byte end_byte []

/-- The source `a;` newline `type T = 1;` newline: a type alias after
runtime JavaScript. -/
def src_alias_after_js : List Nat := ascii "a;\ntype T = 1;\n"

/-- The tree of `src_alias_after_js`. -/
def tree_alias_after_js : TSNode :=
  .mk "program" none 0 15 [
    .mk "expression_statement" none 0 2 [leaf "identifier" 0 1, leaf ";" 1 2],
    .mk "type_alias_declaration" none 3 14 [
      leaf "type" 3 7,
      .mk "type_identifier" (some "name") 8 9 [],
      leaf "=" 10 11,
      .mk "literal_type" (some "value") 12 13 [leaf "number" 12 13],
      leaf ";" 13 14]]

/-- The source `f(1;` newline `type T=1` newline: a call that lacks its
closing parenthesis, then a type alias. -/
def src_missing_paren : List Nat := ascii "f(1;\ntype T=1\n"

/-- The tree of `src_missing_paren`: the parser inserts the missing `)` as
a token without bytes at offset 3. -/
def tree_missing_paren : TSNode :=
  .mk "program" none 0 14 [
    .mk "expression_statement" none 0 4 [
      .mk "call_expression" none 0 3 [
        .mk "identifier" (some "function") 0 1 [],
        .mk "arguments" (some "arguments") 1 3 [leaf "(" 1 2, leaf "number" 2 3,
          leaf ")" 3 3]],
      leaf ";" 3 4],
    .mk "type_alias_declaration" none 5 13 [
      leaf "type" 5 9,
      .mk "type_identifier" (some "name") 10 11 [],
      leaf "=" 11 12,
      .mk "literal_type" (some "value") 12 13 [leaf "number" 12 13]]]

/-- The source `x` newline `as T` newline: an `as` suffix that starts on a
line break and ends its statement. -/
def src_as_newline : List Nat := ascii "x\nas T\n"

/-- The source `let x::T;`: a stray `:` before a type annotation. -/
def src_stray_colon : List Nat := ascii "let x::T;"

/-- A tree of `src_stray_colon` in which the stray `:` is an ERROR node. -/
def tree_stray_colon : TSNode :=
  .mk "program" none 0 9 [
    .mk "lexical_declaration" none 0 9 [
      leaf "let" 0 3,
      .mk "variable_declarator" none 4 8 [
        .mk "identifier" (some "name") 4 5 [],
        .mk "ERROR" none 5 6 [leaf ":" 5 6],
        .mk "type_annotation" (some "type") 6 8 [leaf ":" 6 7, leaf "type_identifier" 7 8]],
      leaf ";" 8 9]]

/-- The source `enum E{}` newline `type T=1` newline: an unsupported
declaration followed by an erasable one. -/
def src_enum_then_alias : List Nat := ascii "enum E\x7b\x7d\ntype T=1\n"

/-- The tree of `src_enum_then_alias`. -/
def tree_enum_then_alias : TSNode :=
  .mk "program" none 0 18 [
    .mk "enum_declaration" none 0 8 [leaf "enum" 0 4,
      .mk "identifier" (some "name") 5 6 [],
      .mk "enum_body" (some "body") 6 8 [leaf "\x7b" 6 7, leaf "\x7d" 7 8]],
    .mk "type_alias_declaration" none 9 17 [
      leaf "type" 9 13,
      .mk "type_identifier" (some "name") 14 15 [],
      leaf "=" 15 16,
      .mk "literal_type" (some "value") 16 17 [leaf "number" 16 17]]]

/-- The source `a << 1 > b;` newline: plain JavaScript, a comparison of a
shifted value. -/
def src_shift_compare : List Nat := ascii "a << 1 > b;\n"

/-- The tree of `src_shift_compare`. -/
def tree_shift_compare : TSNode :=
  .mk "program" none 0 12 [
    .mk "expression_statement" none 0 11 [
      .mk "binary_expression" none 0 10 [
        .mk "binary_expression" (some "left") 0 6 [
          .mk "identifier" (some "left") 0 1 [],
          .mk "<<" (some "operator") 2 4 [],
          .mk "number" (some "right") 5 6 []],
        .mk ">" (some "operator") 7 8 [],
        .mk "identifier" (some "right") 9 10 []],
      leaf ";" 10 11]]

/-- The source `export interface I {}`. -/
def src_export_interface : List Nat := ascii "export interface I \x7b\x7d"

/-- The tree of `src_export_interface`. -/
def tree_export_interface : TSNode :=
  .mk "program" none 0 21 [
    .mk "export_statement" none 0 21 [
      leaf "export" 0 6,
      .mk "interface_declaration" (some "declaration") 7 21 [
        leaf "interface" 7 16,
        .mk "type_identifier" (some "name") 17 18 [],
        .mk "interface_body" (some "body") 19 21 [leaf "\x7b" 19 20, leaf "\x7d" 20 21]]]]

/-- The source `namespace N { type T = 1 }`: a namespace with one type
alias and nothing else. -/
def src_type_namespace : List Nat := ascii "namespace N \x7b type T = 1 \x7d"

/-- The `internal_module` node of `src_type_namespace`. -/
def node_type_namespace : TSNode :=
  .mk "internal_module" none 0 26 [
    leaf "namespace" 0 9,
    .mk "identifier" (some "name") 10 11 [],
    .mk "statement_block" (some "body") 12 26 [
      leaf "\x7b" 12 13,
      .mk "type_alias_declaration" none 14 24 [
        leaf "type" 14 18,
        .mk "type_identifier" (some "name") 19 20 [],
        leaf "=" 21 22,
        .mk "literal_type" (some "value") 23 24 [leaf "number" 23 24]],
      leaf "\x7d" 25 26]]

/-- The tree of `src_type_namespace`. -/
def tree_type_namespace : TSNode :=
  .mk "program" none 0 26 [node_type_namespace]

/-- The source `interface I {}` newline `"use strict"` newline: a type
declaration before a directive. -/
def src_interface_directive : List Nat := ascii "interface I \x7b\x7d\n\"use strict\"\n"

/-- The statements of `src_interface_directive`, at offset `k`. -/
def nodes_interface_directive (k : Nat) : List TSNode :=
  [.mk "interface_declaration" none k (k + 14) [
      leaf "interface" k (k + 9),
      .mk "type_identifier" (some "name") (k + 10) (k + 11) [],
      .mk "interface_body" (some "body") (k + 12) (k + 14)
        [leaf "\x7b" (k + 12) (k + 13), leaf "\x7d" (k + 13) (k + 14)]],
    .mk "expression_statement" none (k + 15) (k + 27) [
      .mk "string" none (k + 15) (k + 27) [leaf "\"" (k + 15) (k + 16),
        leaf "string_fragment" (k + 16) (k + 26), leaf "\"" (k + 26) (k + 27)]]]

/-- The tree of `src_interface_directive`. -/
def tree_interface_directive : TSNode :=
  .mk "program" none 0 28 (nodes_interface_directive 0)

/-- The source `// c` newline `interface I {}` newline `"use strict"`
newline: the same with a comment line in front. -/
def src_comment_interface : List Nat :=
  ascii "// c\ninterface I \x7b\x7d\n\"use strict\"\n"

/-- The tree of `src_comment_interface`: the comment is the first child of
the root. -/
def tree_comment_interface : TSNode :=
  .mk "program" none 0 33 (leaf "comment" 0 4 :: nodes_interface_directive 5)

/-- The traversal state `b` has the source, the enclosing statement and the
allocator of `a`: the fields a visit never writes. -/
def same_frame (a b : parse_ctx_t) : Prop :=
  b.source = a.source ∧ b.parent_statement = a.parent_statement ∧ b.allocator = a.allocator

/-- The array has room for one more edit, or the allocator grants the next
request: `range_array_push` will record the edit. -/
def can_record (ctx : parse_ctx_t) : Prop :=
  ctx.ranges.size + 3 ≤ ctx.ranges.capacity ∨ ctx.allocator.grants ctx.requests = true

/-- The shapes `visit_node` erases as a whole statement, that is the calls
of `blank_stmt`: an ambient declaration that is not a legacy module, a type
alias or interface, an import whose clause is type-only, an export with a
`type` child, a function-like node without a body, and a namespace without
runtime values. -/
def erases_whole_statement (n : TSNode) : Bool :=
  match classify n.type with
  | .ambient_declaration => !ambient_legacy_module n
  | .type_declaration => true
  | .import_statement =>
    !(find_child_type n "import_require_clause").isSome &&
      (match get_child_by_field n "import_clause" with
        | some clause => (find_child_type clause "type").isSome
        | none => false)
  | .export_statement => (find_child_type n "type").isSome
  | .function_like => (get_child_by_field n "body").isNone
  | .internal_module => !has_runtime_values (some n)
  | _ => false

/-- The type alias of `src_alias_after_js`. -/
def node_alias_after_js : TSNode :=
  .mk "type_alias_declaration" none 3 14 [
    leaf "type" 3 7,
    .mk "type_identifier" (some "name") 8 9 [],
    leaf "=" 10 11,
    .mk "literal_type" (some "value") 12 13 [leaf "number" 12 13],
    leaf ";" 13 14]

/-- The `as` expression of `src_as_newline`. -/
def node_as_newline : TSNode :=
  .mk "as_expression" none 0 6 [leaf "identifier" 0 1, leaf "as" 2 4,
    leaf "type_identifier" 5 6]

/-! ### Reference definition of the output builder -/

/-- An edit list that is ordered, non-overlapping and in bounds, with
non-empty semicolon ranges; `prev` is the end of the edit before the list. -/
def edits_disjoint (len : Nat) : Nat → List Edit → Prop
  | _, [] => True
  | prev, e :: es =>
    prev ≤ e.start ∧ e.start ≤ e.stop ∧ e.stop ≤ len ∧
      (e.flag = FLAG_REPLACE_WITH_SEMI → e.start < e.stop) ∧ edits_disjoint len e.stop es

/-- Output byte at offset `i`, where the source has byte `c`, as the
specification words it: `;` if `i` is the first byte of a semicolon range;
otherwise, if `i` lies in an edit range, the byte itself when it is `\n` or
`\r` and a space for any other byte; and the byte itself if `i` lies in no
range. -/
def reference_byte (edits : List Edit) (i c : Nat) : Nat :=
  if edits.any (fun e => e.flag == FLAG_REPLACE_WITH_SEMI && e.start == i) then 59
  else if edits.any (fun e => decide (e.start ≤ i) && decide (i < e.stop)) then
    (if c = 10 ∨ c = 13 then c else 32)
  else c

/-- The output the specification describes: byte by byte, `reference_byte`. -/
def reference_output (src : List Nat) (edits : List Edit) : List Nat :=
  (indexed 0 src).map (fun p => reference_byte edits p.1 p.2)

/-- The source `function f(): "X" {}` where `X` is the four-byte UTF-8
sequence F0 9F 92 A5. -/
def src_multibyte : List Nat :=
  ascii "function f()" ++ [58, 32, 34, 240, 159, 146, 165, 34] ++ ascii " \x7b\x7d"

/-- The edit the visitor records for `src_multibyte`: the return type
annotation, bytes 12 to 20. -/
def edits_multibyte : List Edit := [⟨FLAG_BLANK, 12, 20⟩]

/-- The source `a;function f(){type T=1}`: a type alias inside a function
body, after runtime JavaScript. -/
def src_alias_in_function : List Nat := ascii "a;function f()\x7btype T=1\x7d"

/-- The tree of `src_alias_in_function`. -/
def tree_alias_in_function : TSNode :=
  .mk "program" none 0 24 [
    .mk "expression_statement" none 0 2 [leaf "identifier" 0 1, leaf ";" 1 2],
    .mk "function_declaration" none 2 24 [
      leaf "function" 2 10,
      .mk "identifier" (some "name") 11 12 [],
      .mk "formal_parameters" (some "parameters") 12 14 [leaf "(" 12 13, leaf ")" 13 14],
      .mk "statement_block" (some "body") 14 24 [
        leaf "\x7b" 14 15,
        .mk "type_alias_declaration" none 15 23 [
          leaf "type" 15 19,
          .mk "type_identifier" (some "name") 20 21 [],
          leaf "=" 21 22,
          .mk "literal_type" (some "value") 22 23 [leaf "number" 22 23]],
        leaf "\x7d" 23 24]]]

/-- The four declaration kinds `has_runtime_values` counts as runtime values. -/
def is_value_declaration (type : String) : Prop :=
  type = "lexical_declaration" ∨ type = "variable_declaration" ∨
    type = "class_declaration" ∨ type = "function_declaration"

/-- Runtime evidence in one child, as the specification words it: the child
is not an ambient declaration and is (a) an expression statement or a
statement block, (b) a value declaration, (c) a namespace that has runtime
values, or (d) an export statement whose declaration is a value declaration
or a namespace with runtime values, or which has an `import_alias` child. -/
def is_runtime_evidence (child : TSNode) : Prop :=
  child.type ≠ "ambient_declaration" ∧
    (child.type = "expression_statement" ∨ child.type = "statement_block" ∨
      is_value_declaration child.type ∨
      (child.type = "internal_module" ∧ has_runtime_values (some child) = true) ∨
      (child.type = "export_statement" ∧
        ((∃ decl, get_child_by_field child "declaration" = some decl ∧
            (is_value_declaration decl.type ∨
              (decl.type = "internal_module" ∧ has_runtime_values (some decl) = true))) ∨
          ∃ found, find_child_type child "import_alias" = some found)))

/-- The source `declare enum E1 {}` newline. -/
def src_declare_enum : List Nat := ascii "declare enum E1 \x7b\x7d\n"

/-- The `ambient_declaration` node of `src_declare_enum`. -/
def node_declare_enum : TSNode :=
  .mk "ambient_declaration" none 0 18 [
    leaf "declare" 0 7,
    .mk "enum_declaration" none 8 18 [
      leaf "enum" 8 12,
      .mk "identifier" (some "name") 13 15 [],
      .mk "enum_body" (some "body") 16 18 [leaf "\x7b" 16 17, leaf "\x7d" 17 18]]]

/-- The source `declare module M {}` newline. -/
def src_declare_module : List Nat := ascii "declare module M \x7b\x7d\n"

/-- The `ambient_declaration` node of `src_declare_module`. -/
def node_declare_module : TSNode :=
  .mk "ambient_declaration" none 0 19 [
    leaf "declare" 0 7,
    .mk "module" none 8 19 [
      leaf "module" 8 14,
      .mk "identifier" (some "name") 15 16 [],
      .mk "statement_block" (some "body") 17 19 [leaf "\x7b" 17 18, leaf "\x7d" 18 19]]]

/-- The source `constructor(public a) {}`: a method with a parameter property. -/
def src_constructor_props : List Nat := ascii "constructor(public a) \x7b\x7d"

/-- The parameter list of `src_constructor_props`. -/
def node_props_parameters : TSNode :=
  .mk "formal_parameters" (some "parameters") 11 21 [
    leaf "(" 11 12,
    .mk "required_parameter" none 12 20 [
      .mk "accessibility_modifier" none 12 18 [leaf "public" 12 18],
      .mk "identifier" (some "pattern") 19 20 []],
    leaf ")" 20 21]

/-- The body of the method of `src_constructor_props`. -/
def node_props_body : TSNode :=
  .mk "statement_block" (some "body") 22 24 [leaf "\x7b" 22 23, leaf "\x7d" 23 24]

/-- The `method_definition` node of `src_constructor_props`. -/
def node_constructor_props : TSNode :=
  .mk "method_definition" none 0 24 [
    .mk "property_identifier" (some "name") 0 11 [],
    node_props_parameters,
    node_props_body]

/-- The source `foo<<T>(x: T) => number>(() => 1)`: a generic call that the
parser reads as a shift and two comparisons. -/
def src_generic_call : List Nat := ascii "foo<<T>(x: T) => number>(() => 1)"

/-- The identifier `foo` of `src_generic_call`. -/
def node_generic_ident : TSNode := .mk "identifier" (some "left") 0 3 []

/-- The inner shift `foo<<T` of `src_generic_call`. -/
def node_generic_left : TSNode :=
  .mk "binary_expression" (some "left") 0 6 [
    node_generic_ident,
    .mk "<<" (some "operator") 3 5 [],
    .mk "identifier" (some "right") 5 6 []]

/-- The argument list `(() => 1)` of `src_generic_call`. -/
def node_generic_args : TSNode :=
  .mk "parenthesized_expression" (some "right") 24 33 [
    leaf "(" 24 25,
    .mk "arrow_function" none 25 32 [
      .mk "formal_parameters" (some "parameters") 25 27 [leaf "(" 25 26, leaf ")" 26 27],
      leaf "=>" 28 30,
      .mk "number" (some "body") 31 32 []],
    leaf ")" 32 33]

/-- The comparison `number>(() => 1)` of `src_generic_call`, the body of the
arrow function. -/
def node_generic_body : TSNode :=
  .mk "binary_expression" (some "body") 17 33 [
    .mk "identifier" (some "left") 17 23 [],
    .mk ">" (some "operator") 23 24 [],
    node_generic_args]

/-- The arrow function `(x: T) => number>(() => 1)` of `src_generic_call`. -/
def node_generic_arrow : TSNode :=
  .mk "arrow_function" (some "right") 7 33 [
    .mk "formal_parameters" (some "parameters") 7 13 [
      leaf "(" 7 8,
      .mk "required_parameter" none 8 12 [
        .mk "identifier" (some "pattern") 8 9 [],
        .mk "type_annotation" (some "type") 9 12 [leaf ":" 9 10, leaf "type_identifier" 11 12]],
      leaf ")" 12 13],
    leaf "=>" 14 16,
    node_generic_body]

/-- The outer comparison of `src_generic_call`: the whole expression. -/
def node_generic_call : TSNode :=
  .mk "binary_expression" none 0 33 [
    node_generic_left,
    .mk ">" (some "operator") 6 7 [],
    node_generic_arrow]

/-- The outer comparison of `a << 1 > b` (the expression of
`src_shift_compare`). -/
def node_shift_compare : TSNode :=
  .mk "binary_expression" none 0 10 [
    .mk "binary_expression" (some "left") 0 6 [
      .mk "identifier" (some "left") 0 1 [],
      .mk "<<" (some "operator") 2 4 [],
      .mk "number" (some "right") 5 6 []],
    .mk ">" (some "operator") 7 8 [],
    .mk "identifier" (some "right") 9 10 []]

/-- The source `import type {A} from 'm'`: a type-only import. -/
def src_import_type : List Nat := ascii "import type \x7bA\x7d from 'm'"

/-- The `import_statement` node of `src_import_type`: the `type` keyword
is a child of the statement, next to the import clause. -/
def node_import_type : TSNode :=
  .mk "import_statement" none 0 24 [
    leaf "import" 0 6,
    leaf "type" 7 11,
    .mk "import_clause" none 12 15 [
      .mk "named_imports" none 12 15 [
        leaf "\x7b" 12 13,
        .mk "import_specifier" none 13 14 [.mk "identifier" (some "name") 13 14 []],
        leaf "\x7d" 14 15]],
    leaf "from" 16 20,
    .mk "string" (some "source") 21 24 [leaf "'" 21 22, leaf "string_fragment" 22 23,
      leaf "'" 23 24]]

/-- The tree of `src_import_type`. -/
def tree_import_type : TSNode := .mk "program" none 0 24 [node_import_type]

/-- The source `import a b from 'm';`: an ordinary import with a stray
identifier. -/
def src_import_error : List Nat := ascii "import a b from 'm';"

/-- An `import_statement` node of `src_import_error` in which the stray
identifier is an ERROR child. -/
def node_import_error : TSNode :=
  .mk "import_statement" none 0 20 [
    leaf "import" 0 6,
    .mk "import_clause" none 7 8 [leaf "identifier" 7 8],
    .mk "ERROR" none 9 10 [leaf "identifier" 9 10],
    leaf "from" 11 15,
    .mk "string" (some "source") 16 19 [leaf "'" 16 17, leaf "string_fragment" 17 18,
      leaf "'" 18 19],
    leaf ";" 19 20]

/-- The tree of `src_import_error`. -/
def tree_import_error : TSNode := .mk "program" none 0 20 [node_import_error]

/-- The traversal state `b` comes after `a`: its edits and its log of
unsupported nodes extend those of `a`, and the Unsupported flag, once set,
stays set. -/
structure Grows (a b : parse_ctx_t) : Prop where
  edits : ∃ added, b.ranges.data = a.ranges.data ++ added
  marks : ∃ added, b.marked = a.marked ++ added
  flag : a.has_unsupported = true → b.has_unsupported = true

/-- What append-only recording asks of a visitor: the state after a visit
comes after the state before it, with the same function-body depth. -/
def GrowsSpec (V : Visitor) : Prop :=
  ∀ ctx n, Grows ctx (V ctx n).1 ∧ (V ctx n).1.in_function_body = ctx.in_function_body

/-! ### Trees without erasable syntax -/

/-- A function signature without erasable syntax: no `type_annotation` or
`type_parameters` child, no `type_annotation` or `?` in a parameter, and
`Q` for every child the visitor visits. -/
def quiet_signature (Q : TSNode → Bool) (n : TSNode) : Bool :=
  n.children.all (fun c =>
    if c.type == "type_annotation" || c.type == "type_parameters" then false
    else if c.type == "formal_parameters" then
      c.children.all (fun p => p.children.all (fun g =>
        !(g.type == "type_annotation" || g.type == "?") && Q g))
    else Q c)

/-- The node has no syntax that `visit_node` erases at this node, and `Q`
holds of every child the visitor visits from it. Nodes at which the visitor
marks Unsupported, or that it leaves alone without visiting their children,
need nothing more. -/
def quiet_body (Q : TSNode → Bool) (n : TSNode) : Bool :=
  match classify n.type with
  | .error => true
  | .ambient_declaration => ambient_legacy_module n
  | .type_declaration => false
  | .import_statement =>
    (find_child_type n "import_require_clause").isSome ||
      !(match get_child_by_field n "import_clause" with
        | some clause => (find_child_type clause "type").isSome
        | none => false)
  | .import_alias => true
  | .export_statement =>
    !(find_child_type n "type").isSome &&
      ((find_child_type n "=").isSome || n.children.all Q)
  | .variable_declarator =>
    n.children.all (fun c => !(c.type == "type_annotation" || c.type == "!") && Q c)
  | .declaration_list => n.children.all Q
  | .function_like =>
    (get_child_by_field n "body").isSome &&
      ((match get_child_by_field n "parameters" with
        | some params => has_param_props params
        | none => false) || quiet_signature Q n)
  | .arrow_function => quiet_signature Q n
  | .binary_expression => (generic_call_ident n).isNone && n.children.all Q
  | .class_declaration =>
    n.children.all (fun c =>
      if c.type == "type_parameters" then false
      else if c.type == "class_heritage" then
        c.children.all (fun h => !is_type (some h) "implements_clause" && Q h)
      else Q c)
  | .field_definition =>
    n.children.all (fun c =>
      !(c.type == "type_annotation" || c.type == "!" || c.type == "?" ||
        c.type == "accessibility_modifier" || c.type == "readonly") && Q c)
  | .enum_declaration => true
  | .module => true
  | .internal_module => has_runtime_values (some n)
  | .as_expression => n.children.head?.isNone
  | .type_assertion => true
  | .non_null_expression => false
  | .call_expression => n.children.all (fun c => !is_type (some c) "type_arguments" && Q c)
  | .type_node => false
  | .other => n.children.all Q

/-- Recursion of `erasure_free` with the bound on the depth that
`visit_node_fuel` has. -/
def quiet_fuel : Nat → TSNode → Bool
  | 0 => fun _ => true
  | fuel + 1 => quiet_body (quiet_fuel fuel)

/-- The tree has no syntax the visitor erases: the only TypeScript
constructs in the part of it that the visitor reaches are ones at which it
marks Unsupported. -/
def erasure_free (n : TSNode) : Bool := quiet_fuel (n.height + 1) n

/-- The three node types of non-erasable declarations. -/
def is_non_erasable (type : String) : Prop :=
  type = "enum_declaration" ∨ type = "module" ∨ type = "type_assertion"

/-- The source of scenario C, `enum Color { Red, Green, Blue }`. -/
def src_enum_color : List Nat := ascii "enum Color \x7b Red, Green, Blue \x7d"

/-- The enum declaration of `src_enum_color`. -/
def node_enum_color : TSNode :=
  .mk "enum_declaration" none 0 30 [
    leaf "enum" 0 4,
    .mk "identifier" (some "name") 5 10 [],
    .mk "enum_body" (some "body") 11 30 [
      leaf "\x7b" 11 12,
      .mk "property_identifier" (some "name") 13 16 [],
      leaf "," 16 17,
      .mk "property_identifier" (some "name") 18 23 [],
      leaf "," 23 24,
      .mk "property_identifier" (some "name") 25 29 [],
      leaf "\x7d" 29 30]]

/-- The tree of `src_enum_color`. -/
def tree_enum_color : TSNode := .mk "program" none 0 30 [node_enum_color]

/-- The source `let x = <string>"test";`: a prefix type assertion inside a
declaration. -/
def src_type_assertion : List Nat := ascii "let x = <string>\"test\";"

/-- The prefix type assertion of `src_type_assertion`. -/
def node_type_assertion : TSNode :=
  .mk "type_assertion" (some "value") 8 22 [
    .mk "type_arguments" none 8 16 [leaf "<" 8 9, leaf "predefined_type" 9 15,
      leaf ">" 15 16],
    .mk "string" none 16 22 [leaf "\"" 16 17, leaf "string_fragment" 17 21,
      leaf "\"" 21 22]]

/-- The declaration of `src_type_assertion`. -/
def node_let_assertion : TSNode :=
  .mk "lexical_declaration" none 0 23 [
    leaf "let" 0 3,
    .mk "variable_declarator" none 4 22 [
      .mk "identifier" (some "name") 4 5 [],
      leaf "=" 6 7,
      node_type_assertion],
    leaf ";" 22 23]

/-- The tree of `src_type_assertion`. -/
def tree_type_assertion : TSNode := .mk "program" none 0 23 [node_let_assertion]

/-! ### A source with more edits than the initial capacity holds -/

/-- The source of 43 statements `type T=0;`, 387 bytes. -/
def src_many_aliases : List Nat := (List.replicate 43 (ascii "type T=0;")).flatten

/-- The statement `type T=0;` at offset `k`. -/
def node_alias_at (k : Nat) : TSNode :=
  .mk "type_alias_declaration" none k (k + 9) [
    leaf "type" k (k + 4),
    .mk "type_identifier" (some "name") (k + 5) (k + 6) [],
    leaf "=" (k + 6) (k + 7),
    .mk "literal_type" (some "value") (k + 7) (k + 8) [leaf "number" (k + 7) (k + 8)],
    leaf ";" (k + 8) (k + 9)]

/-- The tree of `src_many_aliases`. -/
def tree_many_aliases : TSNode :=
  .mk "program" none 0 387 ((List.range 43).map (fun i => node_alias_at (9 * i)))

/-- An allocator that refuses its second request and grants every other
one. -/
def refuse_second : ts_strip_allocator_t := ⟨fun k => k != 1⟩

/-! ### CommonJS interop and parse errors -/

/-- The source `export = 1;` of the suite, with its indentation. -/
def src_export_assignment : List Nat := ascii "\n        export = 1;\n    "

/-- The `export_statement` of `src_export_assignment`. -/
def node_export_assignment : TSNode :=
  .mk "export_statement" none 9 20 [
    leaf "export" 9 15, leaf "=" 16 17, leaf "number" 18 19, leaf ";" 19 20]

/-- The tree of `src_export_assignment`. -/
def tree_export_assignment : TSNode := .mk "program" none 9 20 [node_export_assignment]

/-- The source `import lib = require("");` of the suite, with its indentation. -/
def src_import_require : List Nat := ascii "\n        import lib = require(\"\");\n    "

/-- The `import_statement` of `src_import_require`. -/
def node_import_require : TSNode :=
  .mk "import_statement" none 9 34 [
    leaf "import" 9 15,
    .mk "import_require_clause" none 16 33 [
      leaf "identifier" 16 19, leaf "=" 20 21, leaf "require" 22 29, leaf "(" 29 30,
      .mk "string" (some "source") 30 32 [leaf "\"" 30 31, leaf "\"" 31 32],
      leaf ")" 32 33],
    leaf ";" 33 34]

/-- The tree of `src_import_require`. -/
def tree_import_require : TSNode := .mk "program" none 9 34 [node_import_require]

/-- The source `let x = ;`, which the parser cannot read as a statement. -/
def src_parse_error : List Nat := ascii "let x = ;"

/-- An `ERROR` node over the whole of `src_parse_error`. -/
def node_parse_error : TSNode :=
  .mk "ERROR" none 0 9 [
    leaf "let" 0 3, leaf "identifier" 4 5, leaf "=" 6 7, leaf ";" 8 9]

/-- The tree of `src_parse_error`. -/
def tree_parse_error : TSNode := .mk "program" none 0 9 [node_parse_error]

/-! ### Type declarations and signatures -/

/-- The source `type Foo = number;` of the suite, with its newline. -/
def src_type_alias : List Nat := ascii "type Foo = number;\n"

/-- The `type_alias_declaration` of `src_type_alias`. -/
def node_type_alias : TSNode :=
  .mk "type_alias_declaration" none 0 18 [
    leaf "type" 0 4,
    .mk "type_identifier" (some "name") 5 8 [],
    leaf "=" 9 10,
    .mk "predefined_type" (some "value") 11 17 [leaf "number" 11 17],
    leaf ";" 17 18]

/-- The tree of `src_type_alias`. -/
def tree_type_alias : TSNode := .mk "program" none 0 19 [node_type_alias]

/-- The declaration `interface Foo \x7b x: number; \x7d` written over three lines,
with a newline after it. -/
def src_interface_lines : List Nat := ascii "interface Foo \x7b\n  x: number;\n\x7d\n"

/-- The `interface_declaration` of `src_interface_lines`. -/
def node_interface_lines : TSNode :=
  .mk "interface_declaration" none 0 31 [
    leaf "interface" 0 9,
    .mk "type_identifier" (some "name") 10 13 [],
    .mk "interface_body" (some "body") 14 31 [
      leaf "\x7b" 14 15,
      .mk "property_signature" none 18 27 [
        .mk "property_identifier" (some "name") 18 19 [],
        .mk "type_annotation" (some "type") 19 27 [
          leaf ":" 19 20, .mk "predefined_type" none 21 27 [leaf "number" 21 27]]],
      leaf ";" 27 28,
      leaf "\x7d" 30 31]]

/-- The tree of `src_interface_lines`. -/
def tree_interface_lines : TSNode := .mk "program" none 0 32 [node_interface_lines]

/-- The overload `constructor(private x);` then the constructor itself, as
the members of a class body: the source `class A \x7b constructor(private x); \x7d`. -/
def src_constructor_overload : List Nat := ascii "class A \x7b constructor(private x); \x7d"

/-- The `method_signature` of `src_constructor_overload`: it has no body,
and its parameter has an accessibility modifier. -/
def node_constructor_overload : TSNode :=
  .mk "method_signature" none 10 32 [
    .mk "property_identifier" (some "name") 10 21 [],
    .mk "formal_parameters" (some "parameters") 21 32 [
      leaf "(" 21 22,
      .mk "required_parameter" none 22 31 [
        .mk "accessibility_modifier" none 22 29 [leaf "private" 22 29],
        .mk "identifier" (some "pattern") 30 31 []],
      leaf ")" 31 32]]

/-! ### The child loops as the specification words them -/

/-- One step of a child loop as the table of the specification words it: a
child whose type is one of `erased` is blanked over exactly its own range,
every other child is visited. -/
def erase_or_visit (erased : List String) (ctx : parse_ctx_t) (child : TSNode) : parse_ctx_t :=
  if child.type ∈ erased then (blank_range ctx child.start_byte child.end_byte).1
  else (visit_node ctx child).1

/-- The source `class Person \x7b private name: string; \x7d` of the examples,
written over three lines. -/
def src_class_field : List Nat := ascii "class Person \x7b\n private name: string;\n\x7d"

/-- The `public_field_definition` of `src_class_field`. -/
def node_class_field : TSNode :=
  .mk "public_field_definition" none 16 36 [
    .mk "accessibility_modifier" none 16 23 [leaf "private" 16 23],
    .mk "property_identifier" (some "name") 24 28 [],
    .mk "type_annotation" (some "type") 28 36 [
      leaf ":" 28 29, .mk "predefined_type" none 30 36 [leaf "string" 30 36]]]

/-- The tree of `src_class_field`. -/
def tree_class_field : TSNode :=
  .mk "program" none 0 39 [
    .mk "class_declaration" none 0 39 [
      leaf "class" 0 5,
      .mk "type_identifier" (some "name") 6 12 [],
      .mk "class_body" (some "body") 13 39 [
        leaf "\x7b" 13 14, node_class_field, leaf ";" 36 37, leaf "\x7d" 38 39]]]

/-- The source `f<T>(x);`: a call with type arguments. -/
def src_generic_args : List Nat := ascii "f<T>(x);"

/-- The `call_expression` of `src_generic_args`. -/
def node_call_type_args : TSNode :=
  .mk "call_expression" none 0 7 [
    .mk "identifier" (some "function") 0 1 [],
    .mk "type_arguments" (some "type_arguments") 1 4 [
      leaf "<" 1 2, leaf "type_identifier" 2 3, leaf ">" 3 4],
    .mk "arguments" (some "arguments") 4 7 [
      leaf "(" 4 5, leaf "identifier" 5 6, leaf ")" 6 7]]

/-- The tree of `src_generic_args`. -/
def tree_generic_args : TSNode :=
  .mk "program" none 0 8 [
    .mk "expression_statement" none 0 8 [node_call_type_args, leaf ";" 7 8]]

/-- The source of scenario D, `const x = foo!;` with its newline. -/
def src_non_null : List Nat := ascii "const x = foo!;\n"

/-- The `non_null_expression` of `src_non_null`. -/
def node_non_null : TSNode :=
  .mk "non_null_expression" (some "value") 10 14 [leaf "identifier" 10 13, leaf "!" 13 14]

/-- The tree of `src_non_null`. -/
def tree_non_null : TSNode :=
  .mk "program" none 0 16 [
    .mk "lexical_declaration" none 0 15 [
      leaf "const" 0 5,
      .mk "variable_declarator" none 6 14 [
        .mk "identifier" (some "name") 6 7 [], leaf "=" 8 9, node_non_null],
      leaf ";" 14 15]]

/-- The source `class A<T> extends B implements C \x7b\x7d`: a class header with
type parameters, an extends clause and an implements clause. -/
def src_class_header : List Nat := ascii "class A<T> extends B implements C \x7b\x7d"

/-- The `class_declaration` of `src_class_header`. -/
def node_class_header : TSNode :=
  .mk "class_declaration" none 0 36 [
    leaf "class" 0 5,
    .mk "type_identifier" (some "name") 6 7 [],
    .mk "type_parameters" (some "type_parameters") 7 10 [
      leaf "<" 7 8, .mk "type_parameter" none 8 9 [.mk "type_identifier" (some "name") 8 9 []],
      leaf ">" 9 10],
    .mk "class_heritage" none 11 33 [
      .mk "extends_clause" none 11 20 [
        leaf "extends" 11 18, .mk "identifier" (some "value") 19 20 []],
      .mk "implements_clause" none 21 33 [
        leaf "implements" 21 31, leaf "type_identifier" 32 33]],
    .mk "class_body" (some "body") 34 36 [leaf "\x7b" 34 35, leaf "\x7d" 35 36]]

/-- The tree of `src_class_header`. -/
def tree_class_header : TSNode := .mk "program" none 0 36 [node_class_header]

/-- The erasure of one child of a function, as the specification words it:
a `type_annotation` or `type_parameters` child is blanked whole; in a
`formal_parameters` child every `type_annotation` or `?` child of a parameter
is blanked whole and every other child of the parameter is visited; every
other child is visited. -/
def erase_signature_child (ctx : parse_ctx_t) (child : TSNode) : parse_ctx_t :=
  if child.type = "formal_parameters" then
    child.children.foldl
      (fun ctx param => param.children.foldl (erase_or_visit ["type_annotation", "?"]) ctx) ctx
  else erase_or_visit ["type_annotation", "type_parameters"] ctx child

/-- The erasure of one child of a variable declarator, as the specification
words it: a `type_annotation` child is blanked over its range, extended one
byte to the left when the byte just before it is `:`; a `!` child is blanked;
every other child is visited. -/
def erase_declarator_child (ctx : parse_ctx_t) (child : TSNode) : parse_ctx_t :=
  if child.type = "type_annotation" then
    (blank_range ctx
      (if 0 < child.start_byte ∧ ctx.source[child.start_byte - 1]? = some 58 then
        child.start_byte - 1 else child.start_byte)
      child.end_byte).1
  else erase_or_visit ["!"] ctx child

/-- The function declaration of `src_multibyte`. -/
def node_multibyte : TSNode :=
  .mk "function_declaration" none 0 23 [
    leaf "function" 0 8,
    .mk "identifier" (some "name") 9 10 [],
    .mk "formal_parameters" (some "parameters") 10 12 [leaf "(" 10 11, leaf ")" 11 12],
    .mk "type_annotation" (some "return_type") 12 20 [
      leaf ":" 12 13,
      .mk "literal_type" none 14 20 [
        .mk "string" none 14 20 [leaf "\"" 14 15, leaf "string_fragment" 15 19,
          leaf "\"" 19 20]]],
    .mk "statement_block" (some "body") 21 23 [leaf "\x7b" 21 22, leaf "\x7d" 22 23]]

/-- The tree of `src_multibyte`. -/
def tree_multibyte : TSNode := .mk "program" none 0 23 [node_multibyte]

/-- The source of the suite with an arrow function whose return type is
written over three lines. -/
def src_arrow_newline : List Nat := ascii "[1].map((v)\n:number[\n]=>[v]);"

/-- The arrow function of `src_arrow_newline`. -/
def node_arrow_newline : TSNode :=
  .mk "arrow_function" none 8 27 [
    .mk "formal_parameters" (some "parameters") 8 11 [
      leaf "(" 8 9,
      .mk "required_parameter" none 9 10 [.mk "identifier" (some "pattern") 9 10 []],
      leaf ")" 10 11],
    .mk "type_annotation" (some "return_type") 12 22 [
      leaf ":" 12 13,
      .mk "array_type" none 13 22 [
        .mk "predefined_type" none 13 19 [leaf "number" 13 19],
        leaf "[" 19 20, leaf "]" 21 22]],
    leaf "=>" 22 24,
    .mk "array" (some "body") 24 27 [leaf "[" 24 25, leaf "identifier" 25 26, leaf "]" 26 27]]

/-- The tree of `src_arrow_newline`. -/
def tree_arrow_newline : TSNode :=
  .mk "program" none 0 29 [
    .mk "expression_statement" none 0 29 [
      .mk "call_expression" none 0 28 [
        .mk "member_expression" (some "function") 0 7 [
          .mk "array" (some "object") 0 3 [leaf "[" 0 1, leaf "number" 1 2, leaf "]" 2 3],
          leaf "." 3 4,
          .mk "property_identifier" (some "property") 4 7 []],
        .mk "arguments" (some "arguments") 7 28 [
          leaf "(" 7 8, node_arrow_newline, leaf ")" 27 28]],
      leaf ";" 28 29]]

/-- The source `function f(a?: number) \x7b\x7d`: an optional parameter with a type. -/
def src_optional_parameter : List Nat := ascii "function f(a?: number) \x7b\x7d"

/-- The function declaration of `src_optional_parameter`. -/
def node_optional_parameter : TSNode :=
  .mk "function_declaration" none 0 25 [
    leaf "function" 0 8,
    .mk "identifier" (some "name") 9 10 [],
    .mk "formal_parameters" (some "parameters") 10 22 [
      leaf "(" 10 11,
      .mk "optional_parameter" none 11 21 [
        .mk "identifier" (some "pattern") 11 12 [],
        leaf "?" 12 13,
        .mk "type_annotation" (some "type") 13 21 [
          leaf ":" 13 14, .mk "predefined_type" none 15 21 [leaf "number" 15 21]]],
      leaf ")" 21 22],
    .mk "statement_block" (some "body") 23 25 [leaf "\x7b" 23 24, leaf "\x7d" 24 25]]

/-- The source `let x: number = 1;`. -/
def src_let_number : List Nat := ascii "let x: number = 1;"

/-- The `variable_declarator` of `src_let_number`. -/
def node_let_number : TSNode :=
  .mk "variable_declarator" none 4 17 [
    .mk "identifier" (some "name") 4 5 [],
    .mk "type_annotation" (some "type") 5 13 [
      leaf ":" 5 6, .mk "predefined_type" none 7 13 [leaf "number" 7 13]],
    leaf "=" 14 15,
    .mk "number" (some "value") 16 17 []]

/-- The tree of `src_let_number`. -/
def tree_let_number : TSNode :=
  .mk "program" none 0 18 [
    .mk "lexical_declaration" none 0 18 [leaf "let" 0 3, node_let_number, leaf ";" 17 18]]

/-- The source of the suite with a definite-assignment assertion,
`let x: any, y! : string, z: any;` with its newline. -/
def src_definite : List Nat := ascii "let x: any, y! : string, z: any;\n"

/-- The declarator `y! : string` of `src_definite`. -/
def node_definite : TSNode :=
  .mk "variable_declarator" none 12 23 [
    .mk "identifier" (some "name") 12 13 [],
    leaf "!" 13 14,
    .mk "type_annotation" (some "type") 15 23 [
      leaf ":" 15 16, .mk "predefined_type" none 17 23 [leaf "string" 17 23]]]

/-- The tree of `src_definite`. -/
def tree_definite : TSNode :=
  .mk "program" none 0 33 [
    .mk "lexical_declaration" none 0 32 [
      leaf "let" 0 3,
      .mk "variable_declarator" none 4 10 [
        .mk "identifier" (some "name") 4 5 [],
        .mk "type_annotation" (some "type") 5 10 [
          leaf ":" 5 6, .mk "predefined_type" none 7 10 [leaf "any" 7 10]]],
      leaf "," 10 11,
      node_definite,
      leaf "," 23 24,
      .mk "variable_declarator" none 25 31 [
        .mk "identifier" (some "name") 25 26 [],
        .mk "type_annotation" (some "type") 26 31 [
          leaf ":" 26 27, .mk "predefined_type" none 28 31 [leaf "any" 28 31]]],
      leaf ";" 31 32]]

/-! ## Extension recognition in the evaluator (src/hako.c) -/

/-- The test `strcmp(str + len - k, suffix) == 0` on a string of `len`
bytes, where `k` is the length of `suffix`: the last `k` bytes are `suffix`. -/
def tail_is (str suffix : List Nat) : Bool :=
  str.drop (str.length - suffix.length) == suffix

/-- Whether a file name has a TypeScript extension (`ends_with_ts`); the
name is `none` for a null pointer, else the bytes before the terminating
NUL. The result is the C `int32_t`, 0 or 1. -/
def ends_with_ts (str : Option (List Nat)) : Nat :=
  match str with
  | none => 0
  | some s =>
    let len := s.length
    if len < 3 then 0
    else if decide (len ≥ 3) && tail_is s (ascii ".ts") then 1
    else if decide (len ≥ 4) && tail_is s (ascii ".mts") then 1
    else if decide (len ≥ 4) && tail_is s (ascii ".tsx") then 1
    else if decide (len ≥ 5) && tail_is s (ascii ".mtsx") then 1
    else 0

/-- The decision of `HAKO_Eval` (and of the bytecode compiler) to strip
types before compiling: `(eval_flags & JS_EVAL_FLAG_STRIP_TYPES) ||
ends_with_ts(filename)`. The value of the flag constant is declared outside
the source at hand and is the parameter `strip_types_flag`; `eval_flags` is
the bit pattern of the `int32_t` argument. -/
def should_strip (strip_types_flag eval_flags : Nat) (filename : Option (List Nat)) : Bool :=
  (eval_flags &&& strip_types_flag) != 0 || ends_with_ts filename != 0

/-! ### A parse that fails at the root, and an arrow function body -/

/-- The source `)`: no statement can be read from it. -/
def src_root_error : List Nat := ascii ")"

/-- A tree whose root is itself the `ERROR` node, over `src_root_error`. -/
def tree_root_error : TSNode := .mk "ERROR" none 0 1 [leaf ")" 0 1]

/-- An arrow function with a block body that starts with an interface
declaration and a directive. -/
def src_arrow_directive : List Nat :=
  ascii "const foo = () => \x7b\n  interface I \x7b\x7d\n  \"use strict\"\n  return 1;\n\x7d;"

/-- The interface declaration in the body of the arrow function of
`src_arrow_directive`. -/
def node_arrow_interface : TSNode :=
  .mk "interface_declaration" none 22 36 [
    leaf "interface" 22 31,
    .mk "type_identifier" (some "name") 32 33 [],
    .mk "interface_body" (some "body") 34 36 [leaf "\x7b" 34 35, leaf "\x7d" 35 36]]

/-- The tree of `src_arrow_directive`. -/
def tree_arrow_directive : TSNode :=
  .mk "program" none 0 66 [
    .mk "lexical_declaration" none 0 66 [
      leaf "const" 0 5,
      .mk "variable_declarator" none 6 65 [
        .mk "identifier" (some "name") 6 9 [],
        leaf "=" 10 11,
        .mk "arrow_function" (some "value") 12 65 [
          .mk "formal_parameters" (some "parameters") 12 14 [leaf "(" 12 13, leaf ")" 13 14],
          leaf "=>" 15 17,
          .mk "statement_block" (some "body") 18 65 [
            leaf "\x7b" 18 19,
            node_arrow_interface,
            .mk "expression_statement" none 39 51 [
              .mk "string" none 39 51 [leaf "\"" 39 40, leaf "string_fragment" 40 50,
                leaf "\"" 50 51]],
            .mk "return_statement" none 54 63 [
              leaf "return" 54 60, leaf "number" 61 62, leaf ";" 62 63],
            leaf "\x7d" 64 65]]],
      leaf ";" 65 66]]

/-! ### A method with an accessibility modifier -/

/-- The source `class A \x7b private foo(): void \x7b\x7d \x7d`. -/
def src_private_method : List Nat := ascii "class A \x7b private foo(): void \x7b\x7d \x7d"

/-- The accessibility modifier of `src_private_method`. -/
def node_private : TSNode := .mk "accessibility_modifier" none 10 17 [leaf "private" 10 17]

/-- The method definition of `src_private_method`. -/
def node_private_method : TSNode :=
  .mk "method_definition" none 10 32 [
    node_private,
    .mk "property_identifier" (some "name") 18 21 [],
    .mk "formal_parameters" (some "parameters") 21 23 [leaf "(" 21 22, leaf ")" 22 23],
    .mk "type_annotation" (some "return_type") 23 29 [
      leaf ":" 23 24, .mk "predefined_type" none 25 29 [leaf "void" 25 29]],
    .mk "statement_block" (some "body") 30 32 [leaf "\x7b" 30 31, leaf "\x7d" 31 32]]

/-- The tree of `src_private_method`. -/
def tree_private_method : TSNode :=
  .mk "program" none 0 34 [
    .mk "class_declaration" none 0 34 [
      leaf "class" 0 5,
      .mk "type_identifier" (some "name") 6 7 [],
      .mk "class_body" (some "body") 8 34 [
        leaf "\x7b" 8 9, node_private_method, leaf "\x7d" 33 34]]]

/-! ### Edit lists that overlap -/

/-- A ten-byte source. -/
def src_ten : List Nat := ascii "abcdefghij"

/-- Two plain blanks in start order, the second wholly inside the first. -/
def edits_nested : List Edit := [⟨FLAG_BLANK, 0, 8⟩, ⟨FLAG_BLANK, 2, 5⟩]

/-- A plain blank and a semicolon edit in start order, the second inside
the first and ending where it ends. -/
def edits_semi_inside : List Edit := [⟨FLAG_BLANK, 0, 8⟩, ⟨FLAG_REPLACE_WITH_SEMI, 5, 8⟩]

/-- A plain blank and a semicolon edit that overlap: the second starts
inside the first and ends after it. -/
def edits_overlap : List Edit := [⟨FLAG_BLANK, 0, 5⟩, ⟨FLAG_REPLACE_WITH_SEMI, 3, 8⟩]

/-- An edit whose overlap with the edit before it the clamp of
`build_output` repairs, given the end `prev` of that edit: it is a range of
the source that ends at or after `prev`, and a semicolon edit still has a
byte once its start is clamped to `prev`. -/
def edit_fits (len prev : Nat) (e : Edit) : Prop :=
  e.start ≤ e.stop ∧ prev ≤ e.stop ∧ e.stop ≤ len ∧
    (e.flag = FLAG_REPLACE_WITH_SEMI → prev < e.stop ∧ e.start < e.stop)

/-- Every edit of the list is `edit_fits` after the one before it; `prev`
is the end of the edit before the list. -/
def edits_fit (len : Nat) : Nat → List Edit → Prop
  | _, [] => True
  | prev, e :: es => edit_fits len prev e ∧ edits_fit len e.stop es

/-- How an output byte `b` relates to the source byte `p.2` at the same
offset `p.1` when edits may overlap: it is that byte, or the offset lies in
the range of an edit and `b` is the blank for that byte or the `;` of a
semicolon edit. -/
def byte_kin (es : List Edit) (b : Nat) (p : Nat × Nat) : Prop :=
  b = p.2 ∨ ∃ e ∈ es, e.start ≤ p.1 ∧ p.1 < e.stop ∧
    (b = get_space_char p.2 ∨ (e.flag = FLAG_REPLACE_WITH_SEMI ∧ b = 59))

/-- A traversal state that holds the given source and edit list. -/
def ctx_with_edits (src : List Nat) (edits : List Edit) : parse_ctx_t :=
  { initial_ctx default_alloc 1 src with ranges := ⟨edits, initial_capacity⟩ }

/-! ### The Unsupported flag as an input of the traversal -/

/-- The traversal state with the Unsupported flag replaced. -/
def with_flag (flag : Bool) (ctx : parse_ctx_t) : parse_ctx_t :=
  { ctx with has_unsupported := flag }

/-- Two traversal states that differ in the Unsupported flag at most. -/
def Sim (a b : parse_ctx_t) : Prop := ∃ flag, b = with_flag flag a

/-- A visitor that does not read the Unsupported flag: from two states that
differ in the flag at most it returns two states that differ in the flag at
most, and the same result. -/
def FlagBlind (V : Visitor) : Prop :=
  ∀ a b n, Sim a b → Sim (V a n).1 (V b n).1 ∧ (V a n).2 = (V b n).2

/-! ### Visits entered at a negative depth -/

/-- The visitor `V`, except that a visit entered with a negative
`in_function_body` is handed to `W`. -/
def guarded (W V : Visitor) : Visitor :=
  fun ctx n => if 0 ≤ ctx.in_function_body then V ctx n else W ctx n

/-- The recursion of `visit_node_fuel` in which every visit, at every
depth of the recursion, goes through `guarded W`. -/
def visit_node_guarded (W : Visitor) : Nat → Visitor
  | 0 => fun ctx _ => (ctx, VISITED_JS)
  | fuel + 1 => guarded W (visit_node_body (visit_node_guarded W fuel))

/-- Two visitors that agree on every visit entered at a non-negative
depth. -/
def AgreeAbove (V1 V2 : Visitor) : Prop :=
  ∀ ctx n, 0 ≤ ctx.in_function_body → V1 ctx n = V2 ctx n

/-! ### The nodes a visit reaches -/

/-- The nodes reached through the child loop shared by `visit_function_like`
and `visit_arrow_function`: those reached from each child handed to the
visitor, that is every child but a `type_annotation` or `type_parameters`
child, and in a `formal_parameters` child every grandchild of it but a
`type_annotation` or a `?`; `R` gives the nodes reached from a node. -/
def visited_signature (R : TSNode → List TSNode) (n : TSNode) : List TSNode :=
  n.children.flatMap (fun c =>
    if c.type == "type_annotation" || c.type == "type_parameters" then []
    else if c.type == "formal_parameters" then
      c.children.flatMap (fun p => p.children.flatMap (fun g =>
        if g.type == "type_annotation" || g.type == "?" then [] else R g))
    else R c)

/-- The nodes on which `visit_node_body` is entered during the visit of
`n`: the node itself, and the nodes reached from each node its case hands to
the recursive call; `R` gives the nodes reached from such a node. -/
def visited_body (R : TSNode → List TSNode) (n : TSNode) : List TSNode :=
  n :: (match classify n.type with
  | .error => []
  | .ambient_declaration => []
  | .type_declaration => []
  | .import_statement => []
  | .import_alias => []
  | .export_statement =>
    if (find_child_type n "type").isSome then []
    else if (find_child_type n "=").isSome then []
    else n.children.flatMap R
  | .variable_declarator =>
    n.children.flatMap (fun c =>
      if c.type == "type_annotation" then []
      else if c.type == "!" then []
      else R c)
  | .declaration_list => n.children.flatMap R
  | .function_like =>
    (match get_child_by_field n "body" with
      | none => []
      | some _ =>
        if (match get_child_by_field n "parameters" with
            | some params => has_param_props params
            | none => false) then []
        else visited_signature R n)
  | .arrow_function => visited_signature R n
  | .binary_expression =>
    (match generic_call_ident n with
      | some inner_left =>
        R inner_left ++
          (match find_actual_call (get_child_by_field n "right") with
            | some c => R c
            | none => [])
      | none => n.children.flatMap R)
  | .class_declaration =>
    n.children.flatMap (fun c =>
      if c.type == "type_parameters" then []
      else if c.type == "class_heritage" then
        c.children.flatMap (fun h => if is_type (some h) "implements_clause" then [] else R h)
      else R c)
  | .field_definition =>
    n.children.flatMap (fun c =>
      if c.type == "type_annotation" || c.type == "!" || c.type == "?" ||
          c.type == "accessibility_modifier" || c.type == "readonly" then []
      else R c)
  | .enum_declaration => []
  | .module => []
  | .internal_module => []
  | .as_expression =>
    (match n.children.head? with
      | some expr => R expr
      | none => [])
  | .type_assertion => []
  | .non_null_expression =>
    (match n.children.head? with
      | some expr => R expr
      | none => [])
  | .call_expression =>
    n.children.flatMap (fun c => if is_type (some c) "type_arguments" then [] else R c)
  | .type_node => []
  | .other => n.children.flatMap R)

/-- Recursion of `visited` with the bound on the depth that
`visit_node_fuel` has. -/
def visited_fuel : Nat → TSNode → List TSNode
  | 0 => fun _ => []
  | fuel + 1 => visited_body (visited_fuel fuel)

/-- The nodes the visitor reaches from `n`: those on which `visit_node` is
called during the call `visit_node(ctx, n)`, `n` itself first. -/
def visited (n : TSNode) : List TSNode := visited_fuel (n.height + 1) n

/-- The traversal state `b` comes after `a` in the same run: `Grows`, with
the same source and the same allocator. -/
def After (a b : parse_ctx_t) : Prop :=
  Grows a b ∧ b.source = a.source ∧ b.allocator = a.allocator

/-- A property of the traversal state that, once true, stays true in every
state that comes after. -/
def Lasting (P : parse_ctx_t → Prop) : Prop :=
  ∀ a b, After a b → P a → P b

/-- The source `namespace N { type T = 1 }` newline `let x: T;`: a
namespace followed by a declaration with a type annotation. -/
def src_namespace_then_let : List Nat :=
  ascii "namespace N \x7b type T = 1 \x7d\nlet x: T;"

/-- The tree of `src_namespace_then_let`. -/
def tree_namespace_then_let : TSNode :=
  .mk "program" none 0 36 [
    node_type_namespace,
    .mk "lexical_declaration" none 27 36 [
      leaf "let" 27 30,
      .mk "variable_declarator" none 31 35 [
        .mk "identifier" (some "name") 31 32 [],
        .mk "type_annotation" (some "type") 32 35 [leaf ":" 32 33,
          leaf "type_identifier" 34 35]],
      leaf ";" 35 36]]

/-! ### Line breaks in a tree the parser delivers -/

/-- The cases of `visit_node` that erase a node as a whole statement (the
calls of `blank_stmt`). -/
def statement_kind : node_kind → Bool
  | .ambient_declaration => true
  | .type_declaration => true
  | .import_statement => true
  | .export_statement => true
  | .function_like => true
  | .internal_module => true
  | _ => false

/-- Where the parser leaves no line break, at one node.  A node of a kind
the visitor erases as a whole statement begins with the first byte of its
first token, a keyword or a name: that byte is not a `\n`.  And when an
`as`/`satisfies` expression ends where the enclosing top-level statement ends
(at `stmt_end`), no `\n` directly follows its operand: at a line break that is
followed by a word the parser ends the statement (automatic semicolon
insertion), so that the operand and the suffix are not one expression. -/
def line_ok (src : List Nat) (stmt_end : Nat) (n : TSNode) : Bool :=
  (!statement_kind (classify n.type) || src.getD n.start_byte 0 != 10) &&
  (!(classify n.type == node_kind.as_expression && n.end_byte == stmt_end) ||
    (match n.children.head? with
      | some expr => src.getD expr.end_byte 0 != 10
      | none => true))

mutual
/-- Every node of the tree is `line_ok`; `stmt_end` is the end of the
enclosing top-level statement. -/
def lines_ok (src : List Nat) (stmt_end : Nat) : TSNode → Bool
  | .mk ty f s e cs =>
    line_ok src stmt_end (.mk ty f s e cs) && lines_ok_list src stmt_end cs
/-- All trees of a list are `lines_ok`. -/
def lines_ok_list (src : List Nat) (stmt_end : Nat) : List TSNode → Bool
  | [] => true
  | c :: cs => lines_ok src stmt_end c && lines_ok_list src stmt_end cs
end

/-- State of the traversal inside the top-level statement that ends at
`stmt_end`: the source is `src`, the enclosing statement ends at `stmt_end`,
and no recorded semicolon edit starts on a `\n` byte. -/
structure Calm (src : List Nat) (stmt_end : Nat) (ctx : parse_ctx_t) : Prop where
  source_eq : ctx.source = src
  stmt : ∀ p, ctx.parent_statement = some p → p.end_byte = stmt_end
  semis : ∀ e ∈ ctx.ranges.data, e.flag = FLAG_REPLACE_WITH_SEMI → src[e.start]? ≠ some 10

theorem indexed_append (k : Nat) (l1 l2 : List Nat) :
    indexed k (l1 ++ l2) = indexed k l1 ++ indexed (k + l1.length) l2 := by
  induction l1 generalizing k with
  | nil => simp [indexed]
  | cons c cs ih =>
    have h := ih (k + 1)
    rw [show k + 1 + cs.length = k + (cs.length + 1) by omega] at h
    show (k, c) :: indexed (k + 1) (cs ++ l2) =
      (k, c) :: (indexed (k + 1) cs ++ indexed (k + (cs.length + 1)) l2)
    rw [h]

theorem indexed_length (k : Nat) (l : List Nat) : (indexed k l).length = l.length := by
  induction l generalizing k with
  | nil => rfl
  | cons c cs ih => simp [indexed, ih]

theorem mem_indexed {k : Nat} {l : List Nat} {p : Nat × Nat} (h : p ∈ indexed k l) :
    k ≤ p.1 ∧ p.1 < k + l.length ∧ l[p.1 - k]? = some p.2 := by
  induction l generalizing k with
  | nil => simp [indexed] at h
  | cons c cs ih =>
    simp only [indexed, List.mem_cons] at h
    rcases h with h | h
    · subst h
      simp
    · have := ih h
      obtain ⟨h1, h2, h3⟩ := this
      refine ⟨by omega, by simp; omega, ?_⟩
      have : p.1 - k = (p.1 - (k + 1)) + 1 := by omega
      rw [this]
      simpa using h3

theorem copy_bytes_length (src : List Nat) (lo hi : Nat) (h : hi ≤ src.length) :
    (copy_bytes src lo hi).length = hi - lo := by
  simp [copy_bytes]
  omega

theorem copy_bytes_split (src : List Nat) (a b c : Nat) (hab : a ≤ b) (hbc : b ≤ c) :
    copy_bytes src a c = copy_bytes src a b ++ copy_bytes src b c := by
  unfold copy_bytes
  have h1 : c - a = (b - a) + (c - b) := by omega
  rw [h1, List.take_add, List.drop_drop]
  congr 3
  omega

theorem copy_bytes_get (src : List Nat) (a b i : Nat) (h : i < b - a) :
    (copy_bytes src a b)[i]? = src[a + i]? := by
  simp [copy_bytes, List.getElem?_take, h]

theorem copy_bytes_all (src : List Nat) : copy_bytes src 0 src.length = src := by
  simp [copy_bytes]

theorem forall2_map_indexed (R : Nat → Nat × Nat → Prop) (f : Nat → Nat) (k : Nat)
    (l : List Nat) (h : ∀ p ∈ indexed k l, R (f p.2) p) :
    List.Forall₂ R (l.map f) (indexed k l) := by
  induction l generalizing k with
  | nil => exact List.Forall₂.nil
  | cons c cs ih =>
    simp only [List.map_cons, indexed]
    refine List.Forall₂.cons ?_ (ih (k + 1) ?_)
    · exact h (k, c) (by simp [indexed])
    · intro p hp
      exact h p (by simp [indexed, hp])

theorem mem_indexed_copy {src : List Nat} {a b : Nat} {p : Nat × Nat}
    (h : p ∈ indexed a (copy_bytes src a b)) : a ≤ p.1 ∧ p.1 < b ∧ src[p.1]? = some p.2 := by
  obtain ⟨h1, h2, h3⟩ := mem_indexed h
  have hlen : (copy_bytes src a b).length ≤ b - a := by
    simp only [copy_bytes, List.length_take]
    omega
  have hi : p.1 - a < b - a := by omega
  rw [copy_bytes_get src a b _ hi] at h3
  refine ⟨h1, by omega, ?_⟩
  rw [show a + (p.1 - a) = p.1 by omega] at h3
  exact h3

theorem copy_bytes_one (src : List Nat) (c : Nat) (h : c < src.length) :
    copy_bytes src c (c + 1) = [src[c]] := by
  simp only [copy_bytes, Nat.add_sub_cancel_left]
  rw [List.drop_eq_getElem_cons h, List.take_succ_cons, List.take_zero]

theorem blank_bytes_eq (src : List Nat) (a b : Nat) (h : b ≤ src.length) :
    blank_bytes src a b = (copy_bytes src a b).map get_space_char := by
  simp [blank_bytes, Nat.min_eq_left h]

theorem indexed_copy_split (src : List Nat) (a b c : Nat) (hab : a ≤ b) (hbc : b ≤ c)
    (hc : c ≤ src.length) :
    indexed a (copy_bytes src a c) =
      indexed a (copy_bytes src a b) ++ indexed b (copy_bytes src b c) := by
  rw [copy_bytes_split src a b c hab hbc, indexed_append,
    copy_bytes_length src a b (by omega)]
  rw [show a + (b - a) = b by omega]

theorem build_step_rel (src : List Nat) (all : List Edit) (out : List Nat) (prev : Nat)
    (e : Edit) (he : edit_ok src.length prev e) (hmem : e ∈ all)
    (h : List.Forall₂ (byte_rel all) out (indexed 0 (copy_bytes src 0 prev))) :
    List.Forall₂ (byte_rel all) (build_step src (out, prev) e).1
        (indexed 0 (copy_bytes src 0 e.stop)) ∧
      (build_step src (out, prev) e).2 = e.stop := by
  obtain ⟨hse, hpe, hel, hsemi⟩ := he
  refine ⟨?_, rfl⟩
  by_cases hflag : e.flag = FLAG_REPLACE_WITH_SEMI
  · obtain ⟨hps, hlt⟩ := hsemi hflag
    have hclamp : (if e.start < prev then prev else e.start) = e.start := by
      rw [if_neg (by omega)]
    simp only [build_step, hclamp, hflag, if_true]
    rw [indexed_copy_split src 0 prev e.stop (by omega) hpe hel,
      indexed_copy_split src prev e.start e.stop hps hse hel,
      indexed_copy_split src e.start (e.start + 1) e.stop (by omega) (by omega) hel,
      copy_bytes_one src e.start (by omega), blank_bytes_eq src _ _ hel]
    simp only [List.append_assoc]
    refine List.rel_append h (List.rel_append ?_ (List.rel_append ?_ ?_))
    · have := forall2_map_indexed (byte_rel all) id prev (copy_bytes src prev e.start)
        (fun p _ => Or.inl rfl)
      simpa using this
    · simp only [indexed]
      refine List.Forall₂.cons ?_ List.Forall₂.nil
      exact Or.inr ⟨e, hmem, le_refl _, hlt, Or.inr ⟨hflag, rfl, rfl⟩⟩
    · refine forall2_map_indexed (byte_rel all) get_space_char _ _ ?_
      intro p hp
      obtain ⟨h1, h2, _⟩ := mem_indexed_copy hp
      exact Or.inr ⟨e, hmem, by omega, h2, Or.inl rfl⟩
  · simp only [build_step, hflag, if_false, List.append_assoc]
    have hc1 : prev ≤ (if e.start < prev then prev else e.start) := by split <;> omega
    have hc2 : (if e.start < prev then prev else e.start) ≤ e.stop := by split <;> omega
    have hc3 : e.start ≤ (if e.start < prev then prev else e.start) := by split <;> omega
    generalize (if e.start < prev then prev else e.start) = c at hc1 hc2 hc3
    rw [indexed_copy_split src 0 prev e.stop (by omega) hpe hel,
      indexed_copy_split src prev c e.stop hc1 hc2 hel, blank_bytes_eq src _ _ hel]
    refine List.rel_append h (List.rel_append ?_ ?_)
    · have := forall2_map_indexed (byte_rel all) id prev (copy_bytes src prev c)
        (fun p _ => Or.inl rfl)
      simpa using this
    · refine forall2_map_indexed (byte_rel all) get_space_char _ _ ?_
      intro p hp
      obtain ⟨h1, h2, _⟩ := mem_indexed_copy hp
      exact Or.inr ⟨e, hmem, by omega, h2, Or.inl rfl⟩

theorem fold_rel (src : List Nat) (all : List Edit) (todo : List Edit) (out : List Nat)
    (prev : Nat) (hok : edits_ok src.length prev todo) (hprev : prev ≤ src.length)
    (hmem : ∀ e ∈ todo, e ∈ all)
    (h : List.Forall₂ (byte_rel all) out (indexed 0 (copy_bytes src 0 prev))) :
    List.Forall₂ (byte_rel all) (todo.foldl (build_step src) (out, prev)).1
        (indexed 0 (copy_bytes src 0 (todo.foldl (build_step src) (out, prev)).2)) ∧
      (todo.foldl (build_step src) (out, prev)).2 ≤ src.length := by
  induction todo generalizing out prev with
  | nil => exact ⟨h, hprev⟩
  | cons e es ih =>
    obtain ⟨he, hes⟩ := hok
    obtain ⟨h1, h2⟩ := build_step_rel src all out prev e he (hmem e (by simp)) h
    simp only [List.foldl_cons]
    have hst : build_step src (out, prev) e =
        ((build_step src (out, prev) e).1, e.stop) := by rw [← h2]
    rw [hst]
    exact ih _ _ hes he.2.2.1 (fun x hx => hmem x (by simp [hx])) h1

/-- Every byte of the replayed output relates to the source byte at the
same offset by `byte_rel`, for an edit list that is `edits_ok`. -/
theorem replay_rel (src : List Nat) (edits : List Edit)
    (hok : edits_ok src.length 0 edits) :
    List.Forall₂ (byte_rel edits) (replay src edits) (indexed 0 src) := by
  unfold replay
  split
  · have := forall2_map_indexed (byte_rel edits) id 0 src (fun p _ => Or.inl rfl)
    simpa using this
  · obtain ⟨h1, h2⟩ := fold_rel src edits edits [] 0 hok (Nat.zero_le _) (fun _ h => h)
      (by simp [copy_bytes, indexed])
    generalize edits.foldl (build_step src) ([], 0) = st at h1 h2
    have hsplit : indexed 0 src =
        indexed 0 (copy_bytes src 0 st.2) ++ indexed st.2 (copy_bytes src st.2 src.length) := by
      have := indexed_copy_split src 0 st.2 src.length (Nat.zero_le _) h2 (le_refl _)
      rwa [copy_bytes_all] at this
    show List.Forall₂ (byte_rel edits) (st.1 ++ copy_bytes src st.2 src.length) (indexed 0 src)
    rw [hsplit]
    refine List.rel_append h1 ?_
    have := forall2_map_indexed (byte_rel edits) id st.2 (copy_bytes src st.2 src.length)
      (fun p _ => Or.inl rfl)
    simpa using this

/-- The replayed output has the length of the source. -/
theorem replay_length (src : List Nat) (edits : List Edit)
    (hok : edits_ok src.length 0 edits) : (replay src edits).length = src.length := by
  have := (replay_rel src edits hok).length_eq
  rwa [indexed_length] at this

theorem indexed_get (k : Nat) (l : List Nat) (i : Nat) :
    (indexed k l)[i]? = (l[i]?).map (fun c => (k + i, c)) := by
  induction l generalizing k i with
  | nil => simp [indexed]
  | cons c cs ih =>
    cases i with
    | zero => simp [indexed]
    | succ j =>
      simp only [indexed, List.getElem?_cons_succ, ih]
      rw [show k + 1 + j = k + (j + 1) by omega]

theorem forall2_get {α β : Type} {R : α → β → Prop} {l1 : List α} {l2 : List β}
    (h : List.Forall₂ R l1 l2) (i : Nat) (a : α) (ha : l1[i]? = some a) :
    ∃ b, l2[i]? = some b ∧ R a b := by
  induction h generalizing i with
  | nil => simp at ha
  | cons hab _ ih =>
    cases i with
    | zero =>
      simp only [List.getElem?_cons_zero, Option.some.injEq] at ha
      subst ha
      exact ⟨_, by simp, hab⟩
    | succ j =>
      simp only [List.getElem?_cons_succ] at ha ⊢
      exact ih j ha

/-- Byte `i` of the replayed output relates to byte `i` of the source. -/
theorem replay_get (src : List Nat) (edits : List Edit)
    (hok : edits_ok src.length 0 edits) (i b : Nat) (hb : (replay src edits)[i]? = some b) :
    ∃ c, src[i]? = some c ∧ byte_rel edits b (i, c) := by
  obtain ⟨p, hp, hrel⟩ := forall2_get (replay_rel src edits hok) i b hb
  rw [indexed_get] at hp
  cases hc : src[i]? with
  | none => simp [hc] at hp
  | some c =>
    simp only [hc, Option.map_some', Nat.zero_add, Option.some.injEq] at hp
    subst hp
    exact ⟨c, rfl, hrel⟩

theorem height_lt_heightList {c : TSNode} {cs : List TSNode} (h : c ∈ cs) :
    c.height < TSNode.heightList cs := by
  induction cs with
  | nil => simp at h
  | cons x xs ih =>
    simp only [List.mem_cons] at h
    simp only [TSNode.heightList]
    rcases h with rfl | h
    · omega
    · have := ih h
      omega

theorem height_child {n c : TSNode} (h : c ∈ n.children) : c.height < n.height := by
  cases n with
  | mk ty f s e cs => exact height_lt_heightList h

theorem well_formed_list_iff (len : Nat) (cs : List TSNode) :
    well_formed_list len cs = true ↔ ∀ c ∈ cs, well_formed len c = true := by
  induction cs with
  | nil => simp [well_formed_list]
  | cons c cs ih => simp [well_formed_list, ih]

theorem well_formed_iff (len : Nat) (n : TSNode) :
    well_formed len n = true ↔
      n.start_byte < n.end_byte ∧ n.end_byte ≤ len ∧
      ordered_from n.start_byte n.children = true ∧
      (∀ c ∈ n.children, c.end_byte ≤ n.end_byte) ∧
      operand_ok n = true ∧ operands_ok n = true ∧
      ∀ c ∈ n.children, well_formed len c = true := by
  cases n with
  | mk ty f s e cs =>
    simp only [well_formed, Bool.and_eq_true, decide_eq_true_eq, List.all_eq_true,
      well_formed_list_iff, TSNode.start_byte, TSNode.end_byte, TSNode.children]
    tauto

theorem tree_ok_list_iff (strict : Bool) (len : Nat) (cs : List TSNode) :
    tree_ok_list strict len cs = true ↔ ∀ c ∈ cs, tree_ok strict len c = true := by
  induction cs with
  | nil => simp [tree_ok_list]
  | cons c cs ih => simp [tree_ok_list, ih]

theorem tree_ok_iff (strict : Bool) (len : Nat) (n : TSNode) :
    tree_ok strict len n = true ↔
      range_ok strict n = true ∧ n.end_byte ≤ len ∧
      ordered_from n.start_byte n.children = true ∧
      (∀ c ∈ n.children, c.end_byte ≤ n.end_byte) ∧
      operand_ok n = true ∧ operands_ok n = true ∧
      ∀ c ∈ n.children, tree_ok strict len c = true := by
  cases n with
  | mk ty f s e cs =>
    simp only [tree_ok, Bool.and_eq_true, decide_eq_true_eq, List.all_eq_true,
      tree_ok_list_iff, TSNode.start_byte, TSNode.end_byte, TSNode.children]
    tauto

theorem range_ok_le {strict : Bool} {n : TSNode} (h : range_ok strict n = true) :
    n.start_byte ≤ n.end_byte := by
  unfold range_ok at h
  split at h
  · exact le_of_lt (of_decide_eq_true h)
  · exact of_decide_eq_true h

theorem range_ok_lt {strict : Bool} {n : TSNode} (h : range_ok strict n = true)
    (hs : strict = true ∨ needs_bytes (classify n.type) = true) :
    n.start_byte < n.end_byte := by
  unfold range_ok at h
  rw [if_pos (by simpa using hs)] at h
  exact of_decide_eq_true h

/-- A well-formed tree is a tree a parser can deliver, without empty nodes. -/
theorem well_formed_tree_ok (len : Nat) (n : TSNode) (h : well_formed len n = true) :
    tree_ok true len n = true := by
  have aux : ∀ k (m : TSNode), m.height < k → well_formed len m = true →
      tree_ok true len m = true := by
    intro k
    induction k with
    | zero => intro m hm; omega
    | succ k ih =>
      intro m hm hw
      obtain ⟨h1, h2, h3, h4, h5, h6, h7⟩ := (well_formed_iff len m).mp hw
      refine (tree_ok_iff true len m).mpr ⟨?_, h2, h3, h4, h5, h6, fun c hc => ?_⟩
      · unfold range_ok
        rw [if_pos (by simp)]
        exact decide_eq_true h1
      · exact ih c (by have := height_child hc; omega) (h7 c hc)
  exact aux (n.height + 1) n (Nat.lt_succ_self _) h

theorem well_formed_root_tree_ok (len : Nat) (root : TSNode)
    (h : well_formed_root len root = true) : tree_ok_root true len root = true := by
  simp only [well_formed_root, tree_ok_root, Bool.and_eq_true, well_formed_list_iff,
    tree_ok_list_iff] at h ⊢
  exact ⟨h.1, fun c hc => well_formed_tree_ok len c (h.2 c hc)⟩

theorem ordered_from_le {p : Nat} {cs : List TSNode} (h : ordered_from p cs = true)
    (hwf : ∀ c ∈ cs, c.start_byte ≤ c.end_byte) : ∀ c ∈ cs, p ≤ c.start_byte := by
  induction cs generalizing p with
  | nil => simp
  | cons c cs ih =>
    simp only [ordered_from, Bool.and_eq_true, decide_eq_true_eq] at h
    intro x hx
    simp only [List.mem_cons] at hx
    rcases hx with rfl | hx
    · exact h.1
    · have := ih h.2 (fun y hy => hwf y (by simp [hy])) x hx
      have := hwf c (by simp)
      omega

theorem tree_ok_range {strict : Bool} {len : Nat} {n : TSNode}
    (h : tree_ok strict len n = true) :
    n.start_byte ≤ n.end_byte ∧ n.end_byte ≤ len ∧ (strict = true → n.start_byte < n.end_byte) :=
  ⟨range_ok_le ((tree_ok_iff strict len n).mp h).1, ((tree_ok_iff strict len n).mp h).2.1,
    fun hs => range_ok_lt ((tree_ok_iff strict len n).mp h).1 (Or.inl hs)⟩

theorem tree_ok_bytes {strict : Bool} {len : Nat} {n : TSNode}
    (h : tree_ok strict len n = true) (hk : needs_bytes (classify n.type) = true) :
    n.start_byte < n.end_byte :=
  range_ok_lt ((tree_ok_iff strict len n).mp h).1 (Or.inr hk)

theorem tree_ok_child {strict : Bool} {len : Nat} {n c : TSNode}
    (h : tree_ok strict len n = true) (hc : c ∈ n.children) :
    tree_ok strict len c = true ∧ n.start_byte ≤ c.start_byte ∧ c.end_byte ≤ n.end_byte := by
  obtain ⟨_, _, hord, hin, _, _, hcs⟩ := (tree_ok_iff strict len n).mp h
  refine ⟨hcs c hc, ?_, hin c hc⟩
  exact ordered_from_le hord (fun x hx => (tree_ok_range (hcs x hx)).1) c hc

/-! ## The traversal invariant -/

theorem Inv.mono {strict : Bool} {src : List Nat} {ctx : parse_ctx_t} {p q : Nat}
    (h : Inv strict src ctx p) (hpq : p ≤ q) : Inv strict src ctx q :=
  ⟨h.source_eq, h.ok, fun e he => le_trans (h.stops e he) hpq,
    fun m hm => le_trans (h.marks m hm) hpq, h.apart, h.flagged, h.spaced, h.nonempty,
    h.sorted⟩

theorem Inv.congr {strict : Bool} {src : List Nat} {ctx ctx2 : parse_ctx_t} {p : Nat}
    (h : Inv strict src ctx p)
    (h1 : ctx2.source = ctx.source) (h2 : ctx2.ranges.data = ctx.ranges.data)
    (h3 : ctx2.marked = ctx.marked) (h4 : ctx2.has_unsupported = ctx.has_unsupported) :
    Inv strict src ctx2 p :=
  ⟨by rw [h1]; exact h.source_eq, by rw [h2]; exact h.ok, by rw [h2]; exact h.stops,
    by rw [h3]; exact h.marks, by rw [h2, h3]; exact h.apart, by rw [h3, h4]; exact h.flagged,
    by rw [h2]; exact h.spaced, by rw [h2]; exact h.nonempty, by rw [h2]; exact h.sorted⟩

theorem edits_ok_snoc (len prev : Nat) (es : List Edit) (e : Edit) :
    edits_ok len prev (es ++ [e]) ↔ edits_ok len prev es ∧ edit_ok len (last_stop prev es) e := by
  induction es generalizing prev with
  | nil => simp [edits_ok, last_stop]
  | cons x xs ih =>
    show edit_ok len prev x ∧ edits_ok len x.stop (xs ++ [e]) ↔
      (edit_ok len prev x ∧ edits_ok len x.stop xs) ∧ edit_ok len (last_stop x.stop xs) e
    rw [ih]
    tauto

theorem last_stop_le {prev p : Nat} {es : List Edit} (hprev : prev ≤ p)
    (h : ∀ e ∈ es, e.stop ≤ p) : last_stop prev es ≤ p := by
  induction es generalizing prev with
  | nil => exact hprev
  | cons x xs ih =>
    exact ih (h x (by simp)) (fun e he => h e (by simp [he]))

/-- Recording an edit keeps the invariant, when the edit is a range of the
source that ends at or after the frontier and starts at or after it (one byte
before it at most, on a `:`, for a plain blank). -/
theorem Inv.push {strict : Bool} {src : List Nat} {ctx : parse_ctx_t} {p q : Nat}
    (h : Inv strict src ctx p)
    (flag : range_flag) (s t : Nat) (hst : s ≤ t) (hne : strict = true → s < t)
    (hpt : p ≤ t) (htq : t ≤ q) (hlen : t ≤ src.length)
    (hsemi : flag = FLAG_REPLACE_WITH_SEMI → p ≤ s ∧ s < t)
    (hsep : p ≤ s ∨ (p ≤ s + 1 ∧ src[s]? = some 58)) :
    Inv strict src (range_array_push ctx flag s t).1 q := by
  have hpq : p ≤ q := le_trans hpt htq
  have happ : ∀ ctx2 : parse_ctx_t, ctx2.source = ctx.source →
      ctx2.ranges.data = ctx.ranges.data ++ [⟨flag, s, t⟩] → ctx2.marked = ctx.marked →
      ctx2.has_unsupported = ctx.has_unsupported → Inv strict src ctx2 q := by
    intro ctx2 h1 h2 h3 h4
    refine ⟨by rw [h1]; exact h.source_eq, ?_, ?_, ?_, ?_, by rw [h3, h4]; exact h.flagged,
      ?_, ?_, ?_⟩
    · rw [h2, edits_ok_snoc]
      refine ⟨h.ok, hst, ?_, hlen, ?_⟩
      · exact le_trans (last_stop_le (Nat.zero_le _) h.stops) hpt
      · intro hf
        have := last_stop_le (Nat.zero_le p) h.stops
        exact ⟨le_trans this (hsemi hf).1, (hsemi hf).2⟩
    · rw [h2]
      intro e he
      simp only [List.mem_append, List.mem_singleton] at he
      rcases he with he | rfl
      · exact le_trans (h.stops e he) hpq
      · exact htq
    · rw [h3]
      exact fun m hm => le_trans (h.marks m hm) hpq
    · rw [h2, h3]
      intro e he m hm
      simp only [List.mem_append, List.mem_singleton] at he
      rcases he with he | rfl
      · exact h.apart e he m hm
      · have := h.marks m hm
        rcases hsep with h1 | ⟨h1, h2⟩
        · exact Or.inr (Or.inl (le_trans this h1))
        · exact Or.inr (Or.inr ⟨le_trans this h1, h2⟩)
    · rw [h2, List.pairwise_append]
      refine ⟨h.spaced, List.pairwise_singleton _ _, fun a ha b hb => ?_⟩
      rw [List.mem_singleton.mp hb]
      have ha2 := h.stops a ha
      rcases hsep with h5 | ⟨h5, h6⟩
      · exact Or.inl (le_trans ha2 h5)
      · exact Or.inr ⟨le_trans ha2 h5, h6⟩
    · rw [h2]
      intro hs e he
      simp only [List.mem_append, List.mem_singleton] at he
      rcases he with he | rfl
      · exact h.nonempty hs e he
      · exact hne hs
    · rw [h2, List.pairwise_append]
      intro hs
      refine ⟨h.sorted hs, List.pairwise_singleton _ _, fun a ha b hb => ?_⟩
      rw [List.mem_singleton.mp hb]
      have ha1 := h.nonempty hs a ha
      have ha2 := h.stops a ha
      show a.start ≤ s
      rcases hsep with h5 | ⟨h5, _⟩ <;> omega
  unfold range_array_push
  split
  · split
    · exact happ _ rfl rfl rfl rfl
    · exact (h.mono hpq).congr rfl rfl rfl rfl
  · exact happ _ rfl rfl rfl rfl

/-- Logging an unsupported node keeps the invariant. -/
theorem Inv.mark {strict : Bool} {src : List Nat} {ctx : parse_ctx_t} {p q : Nat}
    (h : Inv strict src ctx p)
    (n : TSNode) (hp : p ≤ n.start_byte) (hq : n.end_byte ≤ q)
    (hn : n.start_byte ≤ n.end_byte) : Inv strict src (mark_unsupported ctx n) q := by
  have hpq : p ≤ q := by omega
  refine ⟨h.source_eq, h.ok, fun e he => le_trans (h.stops e he) hpq, ?_, ?_,
    by simp [mark_unsupported], h.spaced, h.nonempty, h.sorted⟩
  · intro m hm
    simp only [mark_unsupported, List.mem_append, List.mem_singleton] at hm
    rcases hm with hm | rfl
    · exact le_trans (h.marks m hm) hpq
    · exact hq
  · intro e he m hm
    simp only [mark_unsupported, List.mem_append, List.mem_singleton] at hm
    rcases hm with hm | rfl
    · exact h.apart e he m hm
    · exact Or.inl (le_trans (h.stops e he) hp)

/-- A loop over children in source order keeps the invariant, when its
body does so for each child. -/
theorem Inv.fold {strict : Bool} {src : List Nat} (step : parse_ctx_t → TSNode → parse_ctx_t)
    (cs : List TSNode) (p q : Nat) (ctx : parse_ctx_t)
    (hord : ordered_from p cs = true) (hends : ∀ c ∈ cs, c.end_byte ≤ q) (hpq : p ≤ q)
    (h : Inv strict src ctx p)
    (hstep : ∀ c ∈ cs, ∀ ctx2 p2, Inv strict src ctx2 p2 → p2 ≤ c.start_byte →
      Inv strict src (step ctx2 c) c.end_byte) :
    Inv strict src (cs.foldl step ctx) q := by
  induction cs generalizing ctx p with
  | nil => exact h.mono hpq
  | cons c cs ih =>
    simp only [ordered_from, Bool.and_eq_true, decide_eq_true_eq] at hord
    simp only [List.foldl_cons]
    exact ih c.end_byte (step ctx c) hord.2 (fun x hx => hends x (by simp [hx]))
      (hends c (by simp)) (hstep c (by simp) ctx p h hord.1)
      (fun x hx => hstep x (by simp [hx]))

theorem blank_range_inv {strict : Bool} {src : List Nat} {ctx : parse_ctx_t} {p q : Nat}
    (h : Inv strict src ctx p)
    (s t : Nat) (hps : p ≤ s) (hst : s ≤ t) (hne : strict = true → s < t) (htq : t ≤ q)
    (hlen : t ≤ src.length) :
    Inv strict src (blank_range ctx s t).1 q :=
  h.push FLAG_BLANK s t hst hne (le_trans hps hst) htq hlen (fun hf => by cases hf)
    (Or.inl hps)

theorem blank_semi_inv {strict : Bool} {src : List Nat} {ctx : parse_ctx_t} {p q : Nat}
    (h : Inv strict src ctx p)
    (s t : Nat) (hps : p ≤ s) (hst : s < t) (htq : t ≤ q) (hlen : t ≤ src.length) :
    Inv strict src (blank_semi ctx s t).1 q :=
  h.push FLAG_REPLACE_WITH_SEMI s t (le_of_lt hst) (fun _ => hst) (by omega) htq hlen
    (fun _ => ⟨hps, hst⟩) (Or.inl hps)

theorem blank_node_inv {strict : Bool} {src : List Nat} {ctx : parse_ctx_t} {p : Nat}
    {c : TSNode}
    (hwf : tree_ok strict src.length c = true) (h : Inv strict src ctx p)
    (hp : p ≤ c.start_byte) :
    Inv strict src (blank_node ctx c).1 c.end_byte :=
  blank_range_inv h _ _ hp (tree_ok_range hwf).1 (tree_ok_range hwf).2.2 (le_refl _)
    (tree_ok_range hwf).2.1

theorem blank_stmt_inv {strict : Bool} {src : List Nat} {ctx : parse_ctx_t} {p : Nat}
    {n : TSNode}
    (hwf : tree_ok strict src.length n = true) (hk : needs_bytes (classify n.type) = true)
    (h : Inv strict src ctx p) (hp : p ≤ n.start_byte) :
    Inv strict src (blank_stmt ctx n).1 n.end_byte := by
  have hlt := tree_ok_bytes hwf hk
  unfold blank_stmt
  split
  · exact blank_semi_inv h _ _ hp hlt (le_refl _) (tree_ok_range hwf).2.1
  · exact blank_range_inv h _ _ hp (le_of_lt hlt) (fun _ => hlt) (le_refl _)
      (tree_ok_range hwf).2.1

theorem getD_eq_some {l : List Nat} {i v : Nat} (h : l.getD i 0 = v) (hv : v ≠ 0) :
    l[i]? = some v := by
  rw [List.getD_eq_getElem?_getD] at h
  cases hi : l[i]? with
  | none => simp [hi] at h; omega
  | some x => simp [hi] at h; rw [h]

theorem blank_type_anno_inv {strict : Bool} {src : List Nat} {ctx : parse_ctx_t} {p : Nat}
    {c : TSNode}
    (hwf : tree_ok strict src.length c = true) (h : Inv strict src ctx p)
    (hp : p ≤ c.start_byte) :
    Inv strict src (blank_type_anno ctx c).1 c.end_byte := by
  have hr := tree_ok_range hwf
  unfold blank_type_anno
  try simp only []
  split
  · rename_i hcond
    simp only [Bool.and_eq_true, decide_eq_true_eq, beq_iff_eq] at hcond
    have hsrc : src[c.start_byte - 1]? = some 58 := by
      rw [← h.source_eq]
      exact getD_eq_some hcond.2 (by decide)
    exact h.push FLAG_BLANK _ _ (by omega) (fun _ => by omega) (by omega) (le_refl _) hr.2.1
      (fun hf => by cases hf) (Or.inr ⟨by omega, hsrc⟩)
  · exact blank_range_inv h _ _ hp hr.1 hr.2.2 (le_refl _) hr.2.1

/-- A loop over the children of a node keeps the invariant and moves the
frontier to the end of the node, when its body does so for each child. -/
theorem children_fold_inv {strict : Bool} {src : List Nat} {n : TSNode}
    (hwf : tree_ok strict src.length n = true) (step : parse_ctx_t → TSNode → parse_ctx_t)
    (hstep : ∀ c ∈ n.children, tree_ok strict src.length c = true → ∀ ctx2 p2,
      Inv strict src ctx2 p2 → p2 ≤ c.start_byte → Inv strict src (step ctx2 c) c.end_byte)
    {ctx : parse_ctx_t} {p : Nat} (h : Inv strict src ctx p) (hp : p ≤ n.start_byte) :
    Inv strict src (n.children.foldl step ctx) n.end_byte := by
  obtain ⟨hr, _, hord, hin, _, _, hcs⟩ := (tree_ok_iff strict src.length n).mp hwf
  exact Inv.fold step n.children n.start_byte n.end_byte ctx hord hin (range_ok_le hr)
    (h.mono hp) (fun c hc => hstep c hc (hcs c hc))

theorem visit_children_inv {strict : Bool} {src : List Nat} {V : Visitor}
    (hV : VisitorSpec strict src V)
    {n : TSNode} (hwf : tree_ok strict src.length n = true) {ctx : parse_ctx_t} {p : Nat}
    (h : Inv strict src ctx p) (hp : p ≤ n.start_byte) :
    Inv strict src (visit_children V ctx n).1 n.end_byte := by
  unfold visit_children
  refine children_fold_inv hwf _ ?_ h hp
  intro c _ hc ctx2 p2 h2 hp2
  have := hV ctx2 c p2 hc h2 hp2
  try simp only []
  split
  · exact this.congr rfl rfl rfl rfl
  · exact this

theorem visit_parameter_inv {strict : Bool} {src : List Nat} {V : Visitor}
    (hV : VisitorSpec strict src V)
    {n : TSNode} (hwf : tree_ok strict src.length n = true) {ctx : parse_ctx_t} {p : Nat}
    (h : Inv strict src ctx p) (hp : p ≤ n.start_byte) :
    Inv strict src (visit_parameter V ctx n) n.end_byte := by
  unfold visit_parameter
  refine children_fold_inv hwf _ ?_ h hp
  intro c _ hc ctx2 p2 h2 hp2
  try simp only []
  split
  · exact blank_node_inv hc h2 hp2
  · exact hV ctx2 c p2 hc h2 hp2

theorem visit_formal_parameters_inv {strict : Bool} {src : List Nat} {V : Visitor}
    (hV : VisitorSpec strict src V)
    {n : TSNode} (hwf : tree_ok strict src.length n = true) {ctx : parse_ctx_t} {p : Nat}
    (h : Inv strict src ctx p) (hp : p ≤ n.start_byte) :
    Inv strict src (visit_formal_parameters V ctx n) n.end_byte := by
  unfold visit_formal_parameters
  exact children_fold_inv hwf _ (fun c _ hc ctx2 p2 h2 hp2 => visit_parameter_inv hV hc h2 hp2)
    h hp

theorem visit_signature_children_inv {strict : Bool} {src : List Nat} {V : Visitor}
    (hV : VisitorSpec strict src V)
    {n : TSNode} (hwf : tree_ok strict src.length n = true) {ctx : parse_ctx_t} {p : Nat}
    (h : Inv strict src ctx p) (hp : p ≤ n.start_byte) :
    Inv strict src (visit_signature_children V ctx n) n.end_byte := by
  unfold visit_signature_children
  refine children_fold_inv hwf _ ?_ h hp
  intro c _ hc ctx2 p2 h2 hp2
  try simp only []
  split
  · exact blank_node_inv hc h2 hp2
  · split
    · exact visit_formal_parameters_inv hV hc h2 hp2
    · exact hV ctx2 c p2 hc h2 hp2

theorem visit_function_like_inv {strict : Bool} {src : List Nat} {V : Visitor}
    (hV : VisitorSpec strict src V)
    {n : TSNode} (hwf : tree_ok strict src.length n = true)
    (hk : needs_bytes (classify n.type) = true) {ctx : parse_ctx_t} {p : Nat}
    (h : Inv strict src ctx p) (hp : p ≤ n.start_byte) :
    Inv strict src (visit_function_like V ctx n).1 n.end_byte := by
  have hr := tree_ok_range hwf
  unfold visit_function_like
  split
  · exact blank_stmt_inv hwf hk h hp
  · split
    · exact h.mark n hp (le_refl _) hr.1
    · have h1 : Inv strict src { ctx with in_function_body := ctx.in_function_body + 1 } p :=
        h.congr rfl rfl rfl rfl
      exact (visit_signature_children_inv hV hwf h1 hp).congr rfl rfl rfl rfl

theorem visit_arrow_function_inv {strict : Bool} {src : List Nat} {V : Visitor}
    (hV : VisitorSpec strict src V)
    {n : TSNode} (hwf : tree_ok strict src.length n = true) {ctx : parse_ctx_t} {p : Nat}
    (h : Inv strict src ctx p) (hp : p ≤ n.start_byte) :
    Inv strict src (visit_arrow_function V ctx n).1 n.end_byte :=
  visit_signature_children_inv hV hwf h hp

theorem visit_heritage_inv {strict : Bool} {src : List Nat} {V : Visitor}
    (hV : VisitorSpec strict src V)
    {n : TSNode} (hwf : tree_ok strict src.length n = true) {ctx : parse_ctx_t} {p : Nat}
    (h : Inv strict src ctx p) (hp : p ≤ n.start_byte) :
    Inv strict src (visit_heritage V ctx n) n.end_byte := by
  unfold visit_heritage
  refine children_fold_inv hwf _ ?_ h hp
  intro c _ hc ctx2 p2 h2 hp2
  try simp only []
  split
  · exact blank_node_inv hc h2 hp2
  · exact hV ctx2 c p2 hc h2 hp2

theorem visit_class_declaration_inv {strict : Bool} {src : List Nat} {V : Visitor}
    (hV : VisitorSpec strict src V)
    {n : TSNode} (hwf : tree_ok strict src.length n = true) {ctx : parse_ctx_t} {p : Nat}
    (h : Inv strict src ctx p) (hp : p ≤ n.start_byte) :
    Inv strict src (visit_class_declaration V ctx n).1 n.end_byte := by
  unfold visit_class_declaration
  refine children_fold_inv hwf _ ?_ h hp
  intro c _ hc ctx2 p2 h2 hp2
  try simp only []
  split
  · exact blank_node_inv hc h2 hp2
  · split
    · exact visit_heritage_inv hV hc h2 hp2
    · exact hV ctx2 c p2 hc h2 hp2

theorem get_child_by_field_mem {n c : TSNode} {f : String}
    (h : get_child_by_field n f = some c) : c ∈ n.children :=
  List.mem_of_find?_eq_some h

theorem generic_call_ident_spec {n inner : TSNode} (h : generic_call_ident n = some inner) :
    ∃ l, get_child_by_field n "left" = some l ∧ get_child_by_field l "left" = some inner := by
  unfold generic_call_ident at h
  simp only [] at h
  split at h
  · split at h
    · cases h
    · rename_i l hl
      split at h
      · split at h
        · rename_i il hil
          split at h
          · cases h
            exact ⟨l, hl, hil⟩
          · cases h
        · cases h
      · cases h
  · cases h

theorem call_candidate_spec {ch c : TSNode} (h : call_candidate ch = some c) :
    c = ch ∨ c ∈ ch.children := by
  unfold call_candidate at h
  split at h
  · split at h
    · rename_i r hr
      split at h
      · cases h
        exact Or.inr (get_child_by_field_mem hr)
      · cases h
    · cases h
  · split at h
    · cases h
      exact Or.inl rfl
    · cases h

theorem find_actual_call_spec {strict : Bool} {len : Nat} {r : TSNode}
    (hwf : tree_ok strict len r = true) :
    ∃ c, find_actual_call (some r) = some c ∧ tree_ok strict len c = true ∧
      r.start_byte ≤ c.start_byte ∧ c.end_byte ≤ r.end_byte := by
  unfold find_actual_call
  simp only []
  split
  · split
    · rename_i c hc
      obtain ⟨ch, hch, hcand⟩ := List.exists_of_findSome?_eq_some hc
      rw [List.mem_reverse] at hch
      obtain ⟨hwch, h1, h2⟩ := tree_ok_child hwf hch
      rcases call_candidate_spec hcand with rfl | hmem
      · exact ⟨c, rfl, hwch, h1, h2⟩
      · obtain ⟨hwc, h3, h4⟩ := tree_ok_child hwch hmem
        exact ⟨c, rfl, hwc, by omega, by omega⟩
    · exact ⟨r, rfl, hwf, le_refl _, le_refl _⟩
  · exact ⟨r, rfl, hwf, le_refl _, le_refl _⟩

theorem generic_call_ident_left {n inner : TSNode} (h : generic_call_ident n = some inner) :
    ∃ l, get_child_by_field n "left" = some l ∧ (l.type == "binary_expression") = true := by
  unfold generic_call_ident at h
  simp only [] at h
  split at h
  · rename_i hcond
    split at h
    · cases h
    · rename_i l hl
      rw [hl] at hcond
      simp only [Bool.and_eq_true, is_type] at hcond
      exact ⟨l, hl, hcond.2⟩
  · cases h

/-- In a binary expression of a tree a parser can deliver the left operand
ends at or before the end of the node, and before it when the right operand
that follows it is not empty. -/
theorem left_operand_inside {strict : Bool} {len : Nat} {l inner : TSNode}
    (hwl : tree_ok strict len l = true)
    (hty : (l.type == "binary_expression") = true)
    (hil : get_child_by_field l "left" = some inner) :
    inner.end_byte ≤ l.end_byte ∧ (strict = true → inner.end_byte < l.end_byte) := by
  have hops := ((tree_ok_iff strict len l).mp hwl).2.2.2.2.2.1
  unfold operands_ok at hops
  rw [if_pos hty] at hops
  simp only [hil] at hops
  split at hops
  · rename_i r hr
    simp only [decide_eq_true_eq] at hops
    obtain ⟨hwr, _, hr2⟩ := tree_ok_child hwl (get_child_by_field_mem hr)
    have h1 := (tree_ok_range hwr).1
    refine ⟨by omega, fun hs => ?_⟩
    have h2 := (tree_ok_range hwr).2.2 hs
    omega
  · cases hops

theorem visit_binary_expression_inv {strict : Bool} {src : List Nat} {V : Visitor}
    (hV : VisitorSpec strict src V)
    {n : TSNode} (hwf : tree_ok strict src.length n = true)
    (hty : (n.type == "binary_expression") = true) {ctx : parse_ctx_t} {p : Nat}
    (h : Inv strict src ctx p) (hp : p ≤ n.start_byte) :
    Inv strict src (visit_binary_expression V ctx n).1 n.end_byte := by
  unfold visit_binary_expression
  split
  · rename_i inner hinner
    obtain ⟨l, hl, hil⟩ := generic_call_ident_spec hinner
    obtain ⟨hwl, hl1, hl2⟩ := tree_ok_child hwf (get_child_by_field_mem hl)
    obtain ⟨hwi, hi1, hi2⟩ := tree_ok_child hwl (get_child_by_field_mem hil)
    have hinside : inner.end_byte ≤ l.end_byte ∧
        (strict = true → inner.end_byte < l.end_byte) := by
      obtain ⟨l2, hl2eq, hlty⟩ := generic_call_ident_left hinner
      rw [hl] at hl2eq
      rw [← Option.some.inj hl2eq] at hlty
      exact left_operand_inside hwl hlty hil
    have hops := ((tree_ok_iff strict src.length n).mp hwf).2.2.2.2.2.1
    unfold operands_ok at hops
    rw [if_pos hty] at hops
    simp only [hl] at hops
    split at hops
    · rename_i r hr
      simp only [decide_eq_true_eq] at hops
      obtain ⟨hwr, hr1, hr2⟩ := tree_ok_child hwf (get_child_by_field_mem hr)
      obtain ⟨c, hc, hwc, hc1, hc2⟩ := find_actual_call_spec hwr
      simp only [hr, hc, ts_node_start_byte, visit_opt]
      have h1 := hV ctx inner p hwi h (by omega)
      have h2 : Inv strict src (blank_range (V ctx inner).1 inner.end_byte c.start_byte).1
          c.start_byte :=
        blank_range_inv h1 _ _ (le_refl _) (by omega)
          (fun hs => by have := hinside.2 hs; omega) (le_refl _)
          (by have := (tree_ok_range hwc); omega)
      exact (hV _ c _ hwc h2 (le_refl _)).mono (by omega)
    · cases hops
  · exact visit_children_inv hV hwf h hp

theorem wrap_pred (e : Nat) (h0 : 0 < e) (h : e < 4294967296) :
    (e + 4294967295) % 4294967296 = e - 1 := by
  omega

theorem classify_mem {t : String} {k : node_kind} (h : classify t = k)
    (hk : k ≠ node_kind.other) : (t, k) ∈ kind_table := by
  unfold classify at h
  split at h
  · rename_i entry hfind
    have h1 := List.find?_some hfind
    have h2 := List.mem_of_find?_eq_some hfind
    simp only [beq_iff_eq] at h1
    rw [h1, ← h]
    exact h2
  · exact absurd h.symm hk

theorem classify_as {t : String} (h : classify t = node_kind.as_expression) :
    (t == "as_expression" || t == "satisfies_expression") = true := by
  have := classify_mem h (by decide)
  simp [kind_table] at this
  simp [this]

theorem classify_non_null {t : String} (h : classify t = node_kind.non_null_expression) :
    (t == "non_null_expression") = true := by
  have := classify_mem h (by decide)
  simp [kind_table] at this
  simp [this]

theorem classify_binary {t : String} (h : classify t = node_kind.binary_expression) :
    (t == "binary_expression") = true := by
  have := classify_mem h (by decide)
  simp [kind_table] at this
  simp [this]

/-- The body of `visit_node` keeps the traversal invariant, when the
recursive calls do.  The source is shorter than 2^31 bytes, so that every
offset is a value the `int`s of the edit array hold. -/
theorem visit_node_body_inv {strict : Bool} {src : List Nat} (hlen : src.length < 2147483648)
    {V : Visitor} (hV : VisitorSpec strict src V) :
    VisitorSpec strict src (visit_node_body V) := by
  intro ctx n p hwf h hp
  have hr := tree_ok_range hwf
  have hmark : Inv strict src (mark_unsupported ctx n) n.end_byte :=
    h.mark n hp (le_refl _) hr.1
  have hstmt : needs_bytes (classify n.type) = true →
      Inv strict src (blank_stmt ctx n).1 n.end_byte := fun hk => blank_stmt_inv hwf hk h hp
  have hkids : Inv strict src (visit_children V ctx n).1 n.end_byte :=
    visit_children_inv hV hwf h hp
  have hsame : Inv strict src ctx n.end_byte := h.mono (by omega)
  have hopd := ((tree_ok_iff strict src.length n).mp hwf).2.2.2.2.1
  unfold visit_node_body
  cases hk : classify n.type <;> simp only []
  case error => exact hmark
  case ambient_declaration =>
    split
    · exact hmark
    · exact hstmt (by rw [hk]; rfl)
  case type_declaration => exact hstmt (by rw [hk]; rfl)
  case import_statement =>
    split
    · exact hmark
    · split
      · exact hstmt (by rw [hk]; rfl)
      · exact hsame
  case import_alias => exact hsame
  case export_statement =>
    split
    · exact hstmt (by rw [hk]; rfl)
    · split <;> assumption
  case variable_declarator =>
    refine children_fold_inv hwf _ ?_ h hp
    intro c _ hc ctx2 p2 h2 hp2
    try simp only []
    split
    · exact blank_type_anno_inv hc h2 hp2
    · split
      · exact blank_node_inv hc h2 hp2
      · exact hV ctx2 c p2 hc h2 hp2
  case declaration_list => exact hkids
  case function_like => exact visit_function_like_inv hV hwf (by rw [hk]; rfl) h hp
  case arrow_function => exact visit_arrow_function_inv hV hwf h hp
  case binary_expression => exact visit_binary_expression_inv hV hwf (classify_binary hk) h hp
  case class_declaration => exact visit_class_declaration_inv hV hwf h hp
  case field_definition =>
    refine children_fold_inv hwf _ ?_ h hp
    intro c _ hc ctx2 p2 h2 hp2
    try simp only []
    split
    · exact blank_node_inv hc h2 hp2
    · exact hV ctx2 c p2 hc h2 hp2
  case enum_declaration => exact hmark
  case module => exact hmark
  case internal_module =>
    split
    · exact hmark
    · exact hstmt (by rw [hk]; rfl)
  case as_expression =>
    unfold operand_ok at hopd
    have hty := classify_as hk
    rw [if_pos (by simp only [Bool.or_eq_true] at hty ⊢; exact Or.inl hty)] at hopd
    split
    · rename_i expr hexpr
      simp only [hexpr, decide_eq_true_eq] at hopd
      obtain ⟨hwe, he1, he2⟩ := tree_ok_child hwf (List.mem_of_mem_head? hexpr)
      have h1 := hV ctx expr p hwe h (by omega)
      split
      · exact blank_semi_inv h1 _ _ (le_refl _) hopd (le_refl _) hr.2.1
      · exact blank_range_inv h1 _ _ (le_refl _) (le_of_lt hopd) (fun _ => hopd) (le_refl _)
          hr.2.1
    · exact hsame
  case type_assertion => exact hmark
  case non_null_expression =>
    have hlt := tree_ok_bytes hwf (by rw [hk]; rfl)
    unfold operand_ok at hopd
    have hty := classify_non_null hk
    rw [if_pos (by simp only [Bool.or_eq_true]; exact Or.inr hty)] at hopd
    rw [wrap_pred n.end_byte (by omega) (by omega)]
    split
    · rename_i expr hexpr
      simp only [hexpr, decide_eq_true_eq] at hopd
      obtain ⟨hwe, he1, he2⟩ := tree_ok_child hwf (List.mem_of_mem_head? hexpr)
      have h1 := hV ctx expr p hwe h (by omega)
      exact blank_range_inv h1 _ _ (by omega) (by omega) (fun _ => by omega) (le_refl _) hr.2.1
    · exact blank_range_inv h _ _ (by omega) (by omega) (fun _ => by omega) (le_refl _) hr.2.1
  case call_expression =>
    refine children_fold_inv hwf _ ?_ h hp
    intro c _ hc ctx2 p2 h2 hp2
    try simp only []
    split
    · exact blank_node_inv hc h2 hp2
    · exact hV ctx2 c p2 hc h2 hp2
  case type_node => exact blank_node_inv hwf h hp
  case other => exact hkids

/-- The visitor keeps the traversal invariant, whatever the bound on its depth. -/
theorem visit_node_fuel_inv {strict : Bool} {src : List Nat} (hlen : src.length < 2147483648)
    (fuel : Nat) : VisitorSpec strict src (visit_node_fuel fuel) := by
  induction fuel with
  | zero =>
    intro ctx n p hwf h hp
    exact h.mono (by have := tree_ok_range hwf; omega)
  | succ f ih => exact visit_node_body_inv hlen ih

theorem visit_node_inv {strict : Bool} {src : List Nat} (hlen : src.length < 2147483648) :
    VisitorSpec strict src visit_node :=
  fun ctx n p hwf h hp => visit_node_fuel_inv hlen (n.height + 1) ctx n p hwf h hp

/-! ## The entry point -/

theorem initial_ctx_inv (strict : Bool) (alloc : ts_strip_allocator_t) (requests : Nat)
    (src : List Nat) : Inv strict src (initial_ctx alloc requests src) 0 :=
  ⟨rfl, trivial, by simp [initial_ctx], by simp [initial_ctx], by simp [initial_ctx],
    by simp [initial_ctx], by simp [initial_ctx], by simp [initial_ctx],
    by simp [initial_ctx]⟩

theorem visit_top_level_inv {strict : Bool} {src : List Nat} (hlen : src.length < 2147483648)
    (root : TSNode)
    (hwf : tree_ok_root strict src.length root = true) (ctx : parse_ctx_t)
    (h : Inv strict src ctx 0) :
    Inv strict src (visit_top_level ctx root) src.length := by
  simp only [tree_ok_root, Bool.and_eq_true, tree_ok_list_iff] at hwf
  unfold visit_top_level
  refine Inv.fold _ root.children 0 src.length ctx hwf.1
    (fun c hc => (tree_ok_range (hwf.2 c hc)).2.1) (Nat.zero_le _) h ?_
  intro c hc ctx2 p2 h2 hp2
  have h3 : Inv strict src { ctx2 with parent_statement := some c } p2 :=
    h2.congr rfl rfl rfl rfl
  have := visit_node_inv hlen _ c p2 (hwf.2 c hc) h3 hp2
  simp only []
  split
  · exact this.congr rfl rfl rfl rfl
  · exact this

/-- The state after the traversal of a tree a parser can deliver, for a
source shorter than 2^31 bytes, satisfies the traversal invariant, with the
frontier at the end of the source. -/
theorem traversal_inv {strict : Bool} {src : List Nat} (hlen : src.length < 2147483648)
    (alloc : ts_strip_allocator_t) (requests : Nat) (root : TSNode)
    (hwf : tree_ok_root strict src.length root = true) :
    Inv strict src (traversal alloc requests src root) src.length :=
  visit_top_level_inv hlen root hwf _ (initial_ctx_inv strict alloc (requests + 1) src)

/-- The non-fatal results of `ts_strip_with_ctx`: the empty output for the
empty source, and otherwise the replay of the edits of the traversal, with
the status the unsupported flag decides. -/
theorem strip_nonfatal (alloc : ts_strip_allocator_t) (requests : Nat)
    (parse : List Nat → Option TSNode) (src : List Nat)
    (h : (ts_strip_with_ctx alloc requests parse (some src)).1 = TS_STRIP_SUCCESS ∨
      (ts_strip_with_ctx alloc requests parse (some src)).1 = TS_STRIP_ERROR_UNSUPPORTED) :
    (src = [] ∧ ts_strip_with_ctx alloc requests parse (some src) = (TS_STRIP_SUCCESS, some [])) ∨
    (src ≠ [] ∧ ∃ root, parse src = some root ∧
      ts_strip_with_ctx alloc requests parse (some src) =
        (if (traversal alloc requests src root).has_unsupported then TS_STRIP_ERROR_UNSUPPORTED
          else TS_STRIP_SUCCESS,
         some (replay (traversal alloc requests src root).source
          (traversal alloc requests src root).ranges.data))) := by
  unfold ts_strip_with_ctx at h ⊢
  simp only [] at h ⊢
  by_cases h0 : src.length = 0
  · left
    rw [if_pos h0] at h ⊢
    refine ⟨List.length_eq_zero.mp h0, ?_⟩
    split
    · rfl
    · rename_i hg
      rw [if_neg hg] at h
      simp at h
  · right
    refine ⟨fun hs => h0 (by rw [hs]; rfl), ?_⟩
    rw [if_neg h0] at h ⊢
    cases hp : parse src with
    | none =>
      rw [hp] at h
      simp at h
    | some root =>
      refine ⟨root, rfl, ?_⟩
      rw [hp] at h
      try simp only [] at h ⊢
      by_cases hg : alloc.grants requests = true
      · rw [if_pos hg] at h ⊢
        unfold traversal
        generalize visit_top_level (initial_ctx alloc (requests + 1) src) root = T at h ⊢
        have hbo : ∀ o, build_output T = some o → o = replay T.source T.ranges.data := by
          intro o ho
          unfold build_output at ho
          split at ho
          · exact (Option.some.inj ho).symm
          · cases ho
        cases hb : build_output T with
        | none =>
          rw [hb] at h
          simp at h
        | some o => rw [hbo o hb]
      · rw [if_neg hg] at h
        simp at h

/-- C1. Length invariance: whenever `ts_strip_with_ctx` returns Success or
Unsupported on a source for which the parser delivers a tree with node
ranges inside the source and children ordered and nested in their parent
(`tree_ok_root`, tokens without bytes allowed), the output exists and has
exactly as many bytes as the source, semicolon edits included.  The source is
shorter than 2^31 bytes: every offset is then a value the `int`s of the edit
array hold. -/
theorem length_invariance (alloc : ts_strip_allocator_t) (requests : Nat)
    (parse : List Nat → Option TSNode) (src : List Nat) (hlen : src.length < 2147483648)
    (hwf : ∀ root, parse src = some root → tree_ok_root false src.length root = true)
    (h : (ts_strip_with_ctx alloc requests parse (some src)).1 = TS_STRIP_SUCCESS ∨
      (ts_strip_with_ctx alloc requests parse (some src)).1 = TS_STRIP_ERROR_UNSUPPORTED) :
    ∃ out, (ts_strip_with_ctx alloc requests parse (some src)).2 = some out ∧
      out.length = src.length := by
  rcases strip_nonfatal alloc requests parse src h with ⟨hs, hr⟩ | ⟨_, root, hp, hr⟩
  · exact ⟨[], by rw [hr], by rw [hs]⟩
  · have hinv := traversal_inv hlen alloc requests root (hwf root hp)
    refine ⟨_, by rw [hr], ?_⟩
    rw [hinv.source_eq]
    exact replay_length src _ hinv.ok

/-- Instance of `length_invariance` on `f(1;` followed by a type alias: the
tree has a `)` without bytes, inserted by the parser, and the alias is erased
with a semicolon edit. -/
theorem length_invariance_witness :
    ∃ out, (ts_strip_with_ctx default_alloc 0 (fun _ => some tree_missing_paren)
        (some src_missing_paren)).2 = some out ∧
      out.length = src_missing_paren.length :=
  length_invariance default_alloc 0 (fun _ => some tree_missing_paren) src_missing_paren
    (by decide) (fun root h => by cases h; decide) (by decide)

theorem get_space_char_cases (c : Nat) : get_space_char c = c ∨ get_space_char c = 32 := by
  unfold get_space_char
  split
  · exact Or.inl rfl
  · exact Or.inr rfl

/-- C4. Whitespace-only diff: when `ts_strip_with_ctx` returns Success on a
source shorter than 2^31 bytes for which the parser delivers a tree with node
ranges inside the source and children ordered and nested in their parent
(`tree_ok_root`, tokens without bytes allowed), every byte of the output that
differs from the source byte at the same offset is an ASCII space, or it is a
`;` at the first offset of a recorded semicolon edit. -/
theorem whitespace_only_diff (alloc : ts_strip_allocator_t) (requests : Nat)
    (parse : List Nat → Option TSNode) (src : List Nat) (hlen : src.length < 2147483648)
    (hwf : ∀ root, parse src = some root → tree_ok_root false src.length root = true)
    (out : List Nat)
    (h : ts_strip_with_ctx alloc requests parse (some src) = (TS_STRIP_SUCCESS, some out))
    (i b c : Nat) (hb : out[i]? = some b) (hc : src[i]? = some c) (hne : b ≠ c) :
    b = 32 ∨ (b = 59 ∧ ∃ root, parse src = some root ∧
      ∃ e ∈ (traversal alloc requests src root).ranges.data,
        e.flag = FLAG_REPLACE_WITH_SEMI ∧ e.start = i ∧ i < e.stop) := by
  rcases strip_nonfatal alloc requests parse src (Or.inl (by rw [h])) with
    ⟨hs, _⟩ | ⟨_, root, hp, hr⟩
  · rw [hs] at hc
    simp at hc
  · have hinv := traversal_inv hlen alloc requests root (hwf root hp)
    rw [h, hinv.source_eq] at hr
    have hout : out = replay src (traversal alloc requests src root).ranges.data :=
      Option.some.inj (congrArg Prod.snd hr)
    rw [hout] at hb
    obtain ⟨c2, hc2, hrel⟩ := replay_get src _ hinv.ok i b hb
    rw [hc] at hc2
    cases hc2
    rcases hrel with h1 | ⟨e, he, _, h3, h4 | ⟨h5, h6, h7⟩⟩
    · exact absurd h1 hne
    · rcases get_space_char_cases c with h8 | h8
      · exact absurd (h4.trans h8) hne
      · exact Or.inl (h4.trans h8)
    · exact Or.inr ⟨h7, root, hp, e, he, h5, h6.symm, by simpa [h6] using h3⟩

/-- Instance of `whitespace_only_diff`: in the output for a type alias after
runtime JavaScript, byte 3 is the `;` of the semicolon edit. -/
theorem whitespace_only_diff_witness :
    (59 : Nat) = 32 ∨ ((59 : Nat) = 59 ∧ ∃ root,
      (fun _ => some tree_alias_after_js) src_alias_after_js = some root ∧
      ∃ e ∈ (traversal default_alloc 0 src_alias_after_js root).ranges.data,
        e.flag = FLAG_REPLACE_WITH_SEMI ∧ e.start = 3 ∧ 3 < e.stop) :=
  whitespace_only_diff default_alloc 0 (fun _ => some tree_alias_after_js) src_alias_after_js
    (by decide) (fun root h => by cases h; decide) (ascii "a;\n;          \n") (by decide)
    3 59 116 (by decide) (by decide) (by decide)

/-- The nodes logged as unsupported and the recorded edits, after the
traversal of a tree a parser can deliver: the Unsupported flag is set exactly
when some node was logged; every recorded edit is apart from every logged
node (it ends before the node, or starts after it, or starts on the last byte
of the node, that byte being a `:`); and every byte the output builder writes
in the range of a logged node is the source byte, unless it is that last
`:`. -/
theorem logged_nodes_verbatim (alloc : ts_strip_allocator_t) (requests : Nat)
    (src : List Nat) (hlen : src.length < 2147483648) (root : TSNode)
    (hwf : tree_ok_root false src.length root = true) :
    ((traversal alloc requests src root).has_unsupported = true ↔
      (traversal alloc requests src root).marked ≠ []) ∧
    (∀ m ∈ (traversal alloc requests src root).marked,
      ∀ e ∈ (traversal alloc requests src root).ranges.data, sep src e m) ∧
    (∀ m ∈ (traversal alloc requests src root).marked, ∀ i, m.1 ≤ i → i < m.2 →
      ¬ (i + 1 = m.2 ∧ src[i]? = some 58) →
      (replay src (traversal alloc requests src root).ranges.data)[i]? = src[i]?) := by
  have hinv := traversal_inv hlen alloc requests root hwf
  refine ⟨hinv.flagged, fun m hm e he => hinv.apart e he m hm, ?_⟩
  intro m hm i hi1 hi2 hex
  cases hb : (replay src (traversal alloc requests src root).ranges.data)[i]? with
  | none =>
    have := replay_length src _ hinv.ok
    rw [List.getElem?_eq_none_iff] at hb
    exact (List.getElem?_eq_none_iff.mpr (by omega)).symm
  | some b =>
    obtain ⟨c, hc, hrel⟩ := replay_get src _ hinv.ok i b hb
    rw [hc]
    rcases hrel with h1 | ⟨e, he, h2, h3, _⟩
    · rw [h1]
    · exfalso
      rcases hinv.apart e he m hm with h4 | h4 | ⟨h4, h5⟩
      · omega
      · omega
      · have hie : i = e.start := by omega
        exact hex ⟨by omega, by rw [hie]; exact h5⟩

/-- C3 (code defect). On `let x::T;`, in the tree in which the stray `:`
is an ERROR node just before the type annotation, the ERROR node (bytes 5 to
6) is marked Unsupported, and the edit of the annotation, which
`blank_type_anno` extends over a `:` directly before it, covers bytes 5 to 8:
byte 5 of the output is a space where the source has the `:` of the
unsupported node, and the output of an Unsupported result differs from the
input. -/
theorem stray_colon_blanked :
    tree_ok_root false src_stray_colon.length tree_stray_colon = true ∧
    ts_strip_with_ctx default_alloc 0 (fun _ => some tree_stray_colon) (some src_stray_colon) =
      (TS_STRIP_ERROR_UNSUPPORTED, some (ascii "let x   ;")) ∧
    (traversal default_alloc 0 src_stray_colon tree_stray_colon).marked = [(5, 6)] ∧
    (traversal default_alloc 0 src_stray_colon tree_stray_colon).ranges.data =
      [⟨FLAG_BLANK, 5, 8⟩] ∧
    (ascii "let x   ;")[5]? = some 32 ∧ src_stray_colon[5]? = some 58 := by
  decide

/-! ## The bound on the depth of the recursion is never reached -/

theorem foldl_congr_mem {α β : Type} (f g : α → β → α) (l : List β) (a : α)
    (h : ∀ b ∈ l, ∀ x, f x b = g x b) : l.foldl f a = l.foldl g a := by
  induction l generalizing a with
  | nil => rfl
  | cons b bs ih =>
    simp only [List.foldl_cons]
    rw [h b (by simp), ih _ (fun c hc => h c (by simp [hc]))]

theorem visit_children_congr {V W : Visitor} {n : TSNode}
    (h : ∀ ctx m, m.height < n.height → V ctx m = W ctx m) (ctx : parse_ctx_t) :
    visit_children V ctx n = visit_children W ctx n := by
  unfold visit_children
  rw [foldl_congr_mem _ _ n.children ctx (fun c hc x => by rw [h x c (height_child hc)])]

theorem visit_parameter_congr {V W : Visitor} {n : TSNode}
    (h : ∀ ctx m, m.height < n.height → V ctx m = W ctx m) (ctx : parse_ctx_t) :
    visit_parameter V ctx n = visit_parameter W ctx n := by
  unfold visit_parameter
  exact foldl_congr_mem _ _ n.children ctx (fun c hc x => by rw [h x c (height_child hc)])

theorem visit_formal_parameters_congr {V W : Visitor} {n : TSNode}
    (h : ∀ ctx m, m.height < n.height → V ctx m = W ctx m) (ctx : parse_ctx_t) :
    visit_formal_parameters V ctx n = visit_formal_parameters W ctx n := by
  unfold visit_formal_parameters
  exact foldl_congr_mem _ _ n.children ctx (fun c hc x =>
    visit_parameter_congr (fun ctx m hm => h ctx m (lt_trans hm (height_child hc))) x)

theorem visit_signature_children_congr {V W : Visitor} {n : TSNode}
    (h : ∀ ctx m, m.height < n.height → V ctx m = W ctx m) (ctx : parse_ctx_t) :
    visit_signature_children V ctx n = visit_signature_children W ctx n := by
  unfold visit_signature_children
  refine foldl_congr_mem _ _ n.children ctx (fun c hc x => ?_)
  rw [h x c (height_child hc),
    visit_formal_parameters_congr (fun ctx m hm => h ctx m (lt_trans hm (height_child hc))) x]

theorem visit_function_like_congr {V W : Visitor} {n : TSNode}
    (h : ∀ ctx m, m.height < n.height → V ctx m = W ctx m) (ctx : parse_ctx_t) :
    visit_function_like V ctx n = visit_function_like W ctx n := by
  unfold visit_function_like
  simp only [visit_signature_children_congr h]

theorem visit_heritage_congr {V W : Visitor} {n : TSNode}
    (h : ∀ ctx m, m.height < n.height → V ctx m = W ctx m) (ctx : parse_ctx_t) :
    visit_heritage V ctx n = visit_heritage W ctx n := by
  unfold visit_heritage
  exact foldl_congr_mem _ _ n.children ctx (fun c hc x => by rw [h x c (height_child hc)])

theorem visit_class_declaration_congr {V W : Visitor} {n : TSNode}
    (h : ∀ ctx m, m.height < n.height → V ctx m = W ctx m) (ctx : parse_ctx_t) :
    visit_class_declaration V ctx n = visit_class_declaration W ctx n := by
  unfold visit_class_declaration
  congr 1
  refine foldl_congr_mem _ _ n.children ctx (fun c hc x => ?_)
  rw [h x c (height_child hc),
    visit_heritage_congr (fun ctx m hm => h ctx m (lt_trans hm (height_child hc))) x]

theorem find_actual_call_height {r c : TSNode} (h : find_actual_call (some r) = some c) :
    c.height ≤ r.height := by
  unfold find_actual_call at h
  simp only [] at h
  split at h
  · split at h
    · rename_i c2 hc
      cases h
      obtain ⟨ch, hch, hcand⟩ := List.exists_of_findSome?_eq_some hc
      rw [List.mem_reverse] at hch
      have h1 := height_child hch
      rcases call_candidate_spec hcand with rfl | hmem
      · omega
      · have := height_child hmem
        omega
    · cases h
      exact le_refl _
  · cases h
    exact le_refl _

theorem visit_binary_expression_congr {V W : Visitor} {n : TSNode}
    (h : ∀ ctx m, m.height < n.height → V ctx m = W ctx m) (ctx : parse_ctx_t) :
    visit_binary_expression V ctx n = visit_binary_expression W ctx n := by
  unfold visit_binary_expression
  split
  · rename_i inner hinner
    obtain ⟨l, hl, hil⟩ := generic_call_ident_spec hinner
    have h1 := height_child (get_child_by_field_mem hl)
    have h2 := height_child (get_child_by_field_mem hil)
    rw [h ctx inner (by omega)]
    simp only []
    cases hr : get_child_by_field n "right" with
    | none => simp [find_actual_call, visit_opt]
    | some r =>
      have h3 := height_child (get_child_by_field_mem hr)
      cases hc : find_actual_call (some r) with
      | none => simp [visit_opt]
      | some c =>
        have := find_actual_call_height hc
        simp only [visit_opt]
        rw [h _ c (by omega)]
  · rw [visit_children_congr h]

/-- The body of `visit_node` only calls the visitor on nodes of smaller
height. -/
theorem visit_node_body_congr {V W : Visitor} {n : TSNode}
    (h : ∀ ctx m, m.height < n.height → V ctx m = W ctx m) (ctx : parse_ctx_t) :
    visit_node_body V ctx n = visit_node_body W ctx n := by
  have hloop : ∀ (c : TSNode), c ∈ n.children → ∀ x, V x c = W x c :=
    fun c hc x => h x c (height_child hc)
  unfold visit_node_body
  cases hk : classify n.type <;> simp only []
  case export_statement => rw [visit_children_congr h]
  case variable_declarator =>
    congr 1
    exact foldl_congr_mem _ _ n.children ctx (fun c hc x => by rw [hloop c hc])
  case declaration_list => rw [visit_children_congr h]
  case function_like => exact visit_function_like_congr h ctx
  case arrow_function =>
    unfold visit_arrow_function
    rw [visit_signature_children_congr h]
  case binary_expression => exact visit_binary_expression_congr h ctx
  case class_declaration => exact visit_class_declaration_congr h ctx
  case field_definition =>
    congr 1
    exact foldl_congr_mem _ _ n.children ctx (fun c hc x => by rw [hloop c hc])
  case as_expression =>
    cases he : n.children.head? with
    | none => rfl
    | some expr => simp only [hloop expr (List.mem_of_mem_head? he)]
  case non_null_expression =>
    cases he : n.children.head? with
    | none => rfl
    | some expr => simp only [hloop expr (List.mem_of_mem_head? he)]
  case call_expression =>
    congr 1
    exact foldl_congr_mem _ _ n.children ctx (fun c hc x => by rw [hloop c hc])
  case other => rw [visit_children_congr h]

theorem visit_node_fuel_agree (f g : Nat) (ctx : parse_ctx_t) (n : TSNode)
    (hf : n.height < f) (hg : n.height < g) :
    visit_node_fuel f ctx n = visit_node_fuel g ctx n := by
  induction f generalizing g ctx n with
  | zero => omega
  | succ f ih =>
    cases g with
    | zero => omega
    | succ g =>
      exact visit_node_body_congr (fun ctx2 m hm => ih g ctx2 m (by omega) (by omega)) ctx

/-- With any bound above the height of the node the visitor computes what
`visit_node` computes. -/
theorem visit_node_fuel_stable (f : Nat) (ctx : parse_ctx_t) (n : TSNode) (hf : n.height < f) :
    visit_node_fuel f ctx n = visit_node ctx n :=
  visit_node_fuel_agree f (n.height + 1) ctx n hf (Nat.lt_succ_self _)

/-- The recursion equation of `visit_node`: the visitor is the body applied
to the visitor itself. -/
theorem visit_node_eq (ctx : parse_ctx_t) (n : TSNode) :
    visit_node ctx n = visit_node_body visit_node ctx n := by
  show visit_node_body (visit_node_fuel n.height) ctx n = visit_node_body visit_node ctx n
  exact visit_node_body_congr (fun ctx2 m hm => visit_node_fuel_stable _ ctx2 m hm) ctx

/-! ## Fields the traversal never writes -/

theorem same_frame_refl (a : parse_ctx_t) : same_frame a a := ⟨rfl, rfl, rfl⟩

theorem same_frame_trans {a b c : parse_ctx_t} (h1 : same_frame a b) (h2 : same_frame b c) :
    same_frame a c :=
  ⟨h2.1.trans h1.1, h2.2.1.trans h1.2.1, h2.2.2.trans h1.2.2⟩

theorem same_frame_push (ctx : parse_ctx_t) (flag : range_flag) (s t : Nat) :
    same_frame ctx (range_array_push ctx flag s t).1 := by
  unfold range_array_push
  split
  · split <;> exact ⟨rfl, rfl, rfl⟩
  · exact ⟨rfl, rfl, rfl⟩

theorem same_frame_blank_node (ctx : parse_ctx_t) (n : TSNode) :
    same_frame ctx (blank_node ctx n).1 := same_frame_push _ _ _ _

theorem same_frame_blank_stmt (ctx : parse_ctx_t) (n : TSNode) :
    same_frame ctx (blank_stmt ctx n).1 := by
  unfold blank_stmt
  split <;> exact same_frame_push _ _ _ _

theorem same_frame_blank_type_anno (ctx : parse_ctx_t) (n : TSNode) :
    same_frame ctx (blank_type_anno ctx n).1 := same_frame_push _ _ _ _

theorem same_frame_fold (step : parse_ctx_t → TSNode → parse_ctx_t) (cs : List TSNode)
    (ctx : parse_ctx_t) (h : ∀ c ∈ cs, ∀ x, same_frame x (step x c)) :
    same_frame ctx (cs.foldl step ctx) := by
  induction cs generalizing ctx with
  | nil => exact same_frame_refl _
  | cons c cs ih =>
    simp only [List.foldl_cons]
    exact same_frame_trans (h c (by simp) ctx) (ih _ (fun d hd => h d (by simp [hd])))

theorem same_frame_visit_children {V : Visitor} (hV : ∀ ctx n, same_frame ctx (V ctx n).1)
    (ctx : parse_ctx_t) (n : TSNode) : same_frame ctx (visit_children V ctx n).1 := by
  unfold visit_children
  refine same_frame_fold _ _ _ (fun c _ x => ?_)
  try simp only []
  split
  · exact hV x c
  · exact hV x c

theorem same_frame_visit_formal_parameters {V : Visitor}
    (hV : ∀ ctx n, same_frame ctx (V ctx n).1) (ctx : parse_ctx_t) (n : TSNode) :
    same_frame ctx (visit_formal_parameters V ctx n) := by
  unfold visit_formal_parameters
  refine same_frame_fold _ _ _ (fun c _ x => ?_)
  unfold visit_parameter
  refine same_frame_fold _ _ _ (fun d _ y => ?_)
  try simp only []
  split
  · exact same_frame_blank_node _ _
  · exact hV y d

theorem same_frame_visit_signature_children {V : Visitor}
    (hV : ∀ ctx n, same_frame ctx (V ctx n).1) (ctx : parse_ctx_t) (n : TSNode) :
    same_frame ctx (visit_signature_children V ctx n) := by
  unfold visit_signature_children
  refine same_frame_fold _ _ _ (fun c _ x => ?_)
  try simp only []
  split
  · exact same_frame_blank_node _ _
  · split
    · exact same_frame_visit_formal_parameters hV _ _
    · exact hV x c

theorem same_frame_visit_node_body {V : Visitor} (hV : ∀ ctx n, same_frame ctx (V ctx n).1)
    (ctx : parse_ctx_t) (n : TSNode) : same_frame ctx (visit_node_body V ctx n).1 := by
  have hmark : same_frame ctx (mark_unsupported ctx n) := ⟨rfl, rfl, rfl⟩
  have hstmt := same_frame_blank_stmt ctx n
  have hkids := same_frame_visit_children hV ctx n
  have hsame := same_frame_refl ctx
  unfold visit_node_body
  cases hk : classify n.type <;> simp only []
  case error => exact hmark
  case ambient_declaration => split <;> assumption
  case type_declaration => exact hstmt
  case import_statement =>
    split
    · exact hmark
    · split <;> assumption
  case import_alias => exact hsame
  case export_statement =>
    split
    · exact hstmt
    · split <;> assumption
  case variable_declarator =>
    refine same_frame_fold _ _ _ (fun c _ x => ?_)
    try simp only []
    split
    · exact same_frame_blank_type_anno _ _
    · split
      · exact same_frame_blank_node _ _
      · exact hV x c
  case declaration_list => exact hkids
  case function_like =>
    unfold visit_function_like
    split
    · exact hstmt
    · split
      · exact hmark
      · have h1 : same_frame ctx { ctx with in_function_body := ctx.in_function_body + 1 } :=
          ⟨rfl, rfl, rfl⟩
        have h2 := same_frame_visit_signature_children hV
          { ctx with in_function_body := ctx.in_function_body + 1 } n
        exact same_frame_trans (same_frame_trans h1 h2) ⟨rfl, rfl, rfl⟩
  case arrow_function => exact same_frame_visit_signature_children hV ctx n
  case binary_expression =>
    unfold visit_binary_expression
    split
    · rename_i inner _
      simp only []
      have h1 := hV ctx inner
      have h2 := same_frame_push (V ctx inner).1 FLAG_BLANK inner.end_byte
        (ts_node_start_byte (find_actual_call (get_child_by_field n "right")))
      refine same_frame_trans h1 (same_frame_trans h2 ?_)
      unfold visit_opt
      split
      · exact same_frame_refl _
      · exact hV _ _
    · exact hkids
  case class_declaration =>
    unfold visit_class_declaration
    refine same_frame_fold _ _ _ (fun c _ x => ?_)
    try simp only []
    split
    · exact same_frame_blank_node _ _
    · split
      · unfold visit_heritage
        refine same_frame_fold _ _ _ (fun d _ y => ?_)
        try simp only []
        split
        · exact same_frame_blank_node _ _
        · exact hV y d
      · exact hV x c
  case field_definition =>
    refine same_frame_fold _ _ _ (fun c _ x => ?_)
    try simp only []
    split
    · exact same_frame_blank_node _ _
    · exact hV x c
  case enum_declaration => exact hmark
  case module => exact hmark
  case internal_module => split <;> assumption
  case as_expression =>
    split
    · split
      · exact same_frame_trans (hV ctx _) (same_frame_push _ _ _ _)
      · exact same_frame_trans (hV ctx _) (same_frame_push _ _ _ _)
    · exact hsame
  case type_assertion => exact hmark
  case non_null_expression =>
    split
    · exact same_frame_trans (hV ctx _) (same_frame_push _ _ _ _)
    · exact same_frame_push _ _ _ _
  case call_expression =>
    refine same_frame_fold _ _ _ (fun c _ x => ?_)
    try simp only []
    split
    · exact same_frame_blank_node _ _
    · exact hV x c
  case type_node => exact same_frame_blank_node _ _
  case other => exact hkids

theorem same_frame_visit_node_fuel (fuel : Nat) (ctx : parse_ctx_t) (n : TSNode) :
    same_frame ctx (visit_node_fuel fuel ctx n).1 := by
  induction fuel generalizing ctx n with
  | zero => exact same_frame_refl _
  | succ f ih => exact same_frame_visit_node_body ih ctx n

/-- A visit leaves the source, the enclosing statement and the allocator
of the traversal state as they were. -/
theorem same_frame_visit_node (ctx : parse_ctx_t) (n : TSNode) :
    same_frame ctx (visit_node ctx n).1 :=
  same_frame_visit_node_fuel _ ctx n

/-! ## What one call records -/

theorem push_data (ctx : parse_ctx_t) (flag : range_flag) (s t : Nat) (h : can_record ctx) :
    (range_array_push ctx flag s t).1.ranges.data = ctx.ranges.data ++ [⟨flag, s, t⟩] := by
  unfold range_array_push
  split
  · rename_i h1
    rcases h with h | h
    · omega
    · rw [if_pos h]
  · rfl

/-! ## The rules for automatic semicolon insertion -/

/-- On a node of a shape erased as a whole statement the visit is
`blank_stmt`, and nothing else. -/
theorem visit_whole_statement (ctx : parse_ctx_t) (n : TSNode)
    (h : erases_whole_statement n = true) :
    visit_node ctx n = ((blank_stmt ctx n).1, VISIT_BLANKED) := by
  rw [visit_node_eq]
  unfold erases_whole_statement at h
  unfold visit_node_body
  cases hk : classify n.type <;> rw [hk] at h <;> simp only [] at h ⊢ <;>
    first
      | cases h
      | rfl
      | skip
  · simp only [Bool.not_eq_true'] at h
    rw [if_neg (by simp [h])]
  · simp only [Bool.and_eq_true, Bool.not_eq_true'] at h
    rw [if_neg (by simp [h.1]), if_pos h.2]
  · rw [if_pos h]
  · unfold visit_function_like
    cases hb : get_child_by_field n "body" with
    | none => rfl
    | some b => simp [hb] at h
  · simp only [Bool.not_eq_true'] at h
    rw [if_neg (by simp [h])]

/-- The edit `blank_stmt` records, when it can record one. -/
theorem blank_stmt_data (ctx : parse_ctx_t) (n : TSNode) (hrec : can_record ctx) :
    (blank_stmt ctx n).1.ranges.data = ctx.ranges.data ++
      [⟨if ctx.seen_js = true ∧ ctx.in_function_body = 0 then FLAG_REPLACE_WITH_SEMI
        else FLAG_BLANK, n.start_byte, n.end_byte⟩] := by
  unfold blank_stmt
  by_cases hc : ctx.seen_js = true ∧ ctx.in_function_body = 0
  · rw [if_pos (by simp [hc.1, hc.2]), if_pos hc]
    exact push_data ctx _ _ _ hrec
  · rw [if_neg (by simpa using hc), if_neg hc]
    exact push_data ctx _ _ _ hrec

/-- The rule of `blank_stmt` on the traversal state: for every node of a
shape the visitor erases as a whole statement, the visit is `blank_stmt` and
reports `VISIT_BLANKED`; when the edit can be recorded it is the one edit over
the whole node, a semicolon edit exactly when `seen_js` is true and
`in_function_body` is 0, and a plain blank in every other case. -/
theorem asi_rule_whole_statement (ctx : parse_ctx_t) (n : TSNode)
    (h : erases_whole_statement n = true) (hrec : can_record ctx) :
    visit_node ctx n = ((blank_stmt ctx n).1, VISIT_BLANKED) ∧
    (visit_node ctx n).1.ranges.data = ctx.ranges.data ++
      [⟨if ctx.seen_js = true ∧ ctx.in_function_body = 0 then FLAG_REPLACE_WITH_SEMI
        else FLAG_BLANK, n.start_byte, n.end_byte⟩] ∧
    ((ctx.seen_js = false ∨ ctx.in_function_body ≠ 0) →
      (visit_node ctx n).1.ranges.data =
        ctx.ranges.data ++ [⟨FLAG_BLANK, n.start_byte, n.end_byte⟩]) := by
  have hvisit := visit_whole_statement ctx n h
  have hdata := blank_stmt_data ctx n hrec
  refine ⟨hvisit, by rw [hvisit]; exact hdata, ?_⟩
  intro hplain
  rw [hvisit]
  show (blank_stmt ctx n).1.ranges.data = _
  rw [hdata, if_neg]
  rintro ⟨h1, h2⟩
  rcases hplain with h3 | h3
  · rw [h1] at h3
    cases h3
  · exact h3 h2

/-- Instance of `asi_rule_whole_statement`: a type alias visited at top
level after runtime JavaScript is erased with a semicolon edit. -/
theorem asi_rule_whole_statement_witness :
    visit_node { initial_ctx default_alloc 0 src_alias_after_js with seen_js := true }
        node_alias_after_js =
      ((blank_stmt { initial_ctx default_alloc 0 src_alias_after_js with seen_js := true }
        node_alias_after_js).1, VISIT_BLANKED) ∧
    (visit_node { initial_ctx default_alloc 0 src_alias_after_js with seen_js := true }
        node_alias_after_js).1.ranges.data =
      [] ++ [⟨if true = true ∧ (0 : Int) = 0 then FLAG_REPLACE_WITH_SEMI else FLAG_BLANK, 3, 14⟩] ∧
    (((true : Bool) = false ∨ (0 : Int) ≠ 0) →
      (visit_node { initial_ctx default_alloc 0 src_alias_after_js with seen_js := true }
        node_alias_after_js).1.ranges.data = [] ++ [⟨FLAG_BLANK, 3, 14⟩]) :=
  asi_rule_whole_statement { initial_ctx default_alloc 0 src_alias_after_js with seen_js := true }
    node_alias_after_js (by decide) (Or.inl (by decide))

/-- The two cases of the ASI rule on whole sources: a type alias at top
level after runtime JavaScript is erased with a semicolon edit, and the same
alias inside a function body with a plain blank. -/
theorem asi_rule_on_sources :
    (traversal default_alloc 0 src_alias_after_js tree_alias_after_js).ranges.data =
      [⟨FLAG_REPLACE_WITH_SEMI, 3, 14⟩] ∧
    ts_strip_with_ctx default_alloc 0 (fun _ => some tree_alias_after_js)
        (some src_alias_after_js) = (TS_STRIP_SUCCESS, some (ascii "a;\n;          \n")) ∧
    (traversal default_alloc 0 src_alias_in_function tree_alias_in_function).ranges.data =
      [⟨FLAG_BLANK, 15, 23⟩] ∧
    ts_strip_with_ctx default_alloc 0 (fun _ => some tree_alias_in_function)
        (some src_alias_in_function) =
      (TS_STRIP_SUCCESS, some (ascii "a;function f()\x7b        \x7d")) := by
  decide

/-- C7 (code defect). A type-only statement that precedes all runtime
JavaScript is erased with a `;` when a comment precedes it: on the source of
the suite's strict-directive test with a comment line in front, `// c`,
`interface I {}`, `"use strict"`, the visit of the comment reports runtime
JavaScript, so that `seen_js` is true when the interface is erased, and the
edit over the interface (bytes 5 to 19) is a semicolon edit: the output has a
`;` before the directive.  Without the comment line the interface is erased
by a plain blank. -/
theorem comment_counts_as_runtime_js :
    tree_ok_root false src_comment_interface.length tree_comment_interface = true ∧
    (visit_node (initial_ctx default_alloc 1 src_comment_interface)
      (leaf "comment" 0 4)).2 = VISITED_JS ∧
    (traversal default_alloc 0 src_comment_interface tree_comment_interface).ranges.data =
      [⟨FLAG_REPLACE_WITH_SEMI, 5, 19⟩] ∧
    ts_strip_with_ctx default_alloc 0 (fun _ => some tree_comment_interface)
        (some src_comment_interface) =
      (TS_STRIP_SUCCESS, some (ascii "// c\n;             \n\"use strict\"\n")) ∧
    ts_strip_with_ctx default_alloc 0 (fun _ => some tree_interface_directive)
        (some src_interface_directive) =
      (TS_STRIP_SUCCESS, some (ascii "              \n\"use strict\"\n")) := by
  refine ⟨by decide, by decide, by decide, by decide, by decide⟩

theorem as_needs_semi_iff (ctx : parse_ctx_t) (node_end : Nat) :
    as_needs_semi ctx node_end = true ↔
      (∃ p, ctx.parent_statement = some p ∧ node_end = p.end_byte) ∧
        node_end < ctx.source.length ∧ ctx.source.getD node_end 0 ≠ 59 := by
  unfold as_needs_semi parse_ctx_t.source_len
  cases ctx.parent_statement with
  | none => simp
  | some p => simp [and_assoc]

theorem as_needs_semi_frame {a b : parse_ctx_t} (h : same_frame a b) (node_end : Nat) :
    as_needs_semi b node_end = as_needs_semi a node_end := by
  unfold as_needs_semi parse_ctx_t.source_len
  rw [h.1, h.2.1]

/-- The visit of an `as` or `satisfies` expression with operand `E`: the
visit of `E`, then one edit from the end of `E` to the end of the node. -/
theorem visit_as_expression (ctx : parse_ctx_t) (n E : TSNode)
    (hty : n.type = "as_expression" ∨ n.type = "satisfies_expression")
    (hE : n.children.head? = some E) :
    visit_node ctx n =
      ((range_array_push (visit_node ctx E).1
        (if as_needs_semi ctx n.end_byte then FLAG_REPLACE_WITH_SEMI else FLAG_BLANK)
        E.end_byte n.end_byte).1, VISITED_JS) := by
  have hk : classify n.type = node_kind.as_expression := by
    rcases hty with h | h <;> rw [h] <;> decide
  have hframe := as_needs_semi_frame (same_frame_visit_node ctx E) n.end_byte
  rw [visit_node_eq]
  unfold visit_node_body
  rw [hk]
  simp only [hE, hframe]
  split <;> rfl

/-- C8. ASI rule for `as`/`satisfies`: for every `as_expression` or
`satisfies_expression` with operand `E` (child 0), the visitor visits `E`
and then records one edit from the end of `E` to the end of the node; the
edit is a semicolon edit exactly when the node ends where the enclosing
top-level statement ends and the byte after it exists and is not `;`, and a
plain blank in every other case. -/
theorem asi_rule_as_satisfies (ctx : parse_ctx_t) (n E : TSNode)
    (hty : n.type = "as_expression" ∨ n.type = "satisfies_expression")
    (hE : n.children.head? = some E) :
    visit_node ctx n =
      ((range_array_push (visit_node ctx E).1
        (if as_needs_semi ctx n.end_byte then FLAG_REPLACE_WITH_SEMI else FLAG_BLANK)
        E.end_byte n.end_byte).1, VISITED_JS) ∧
    (as_needs_semi ctx n.end_byte = true ↔
      (∃ p, ctx.parent_statement = some p ∧ n.end_byte = p.end_byte) ∧
        n.end_byte < ctx.source.length ∧ ctx.source.getD n.end_byte 0 ≠ 59) ∧
    (can_record (visit_node ctx E).1 →
      (visit_node ctx n).1.ranges.data = (visit_node ctx E).1.ranges.data ++
        [⟨if as_needs_semi ctx n.end_byte then FLAG_REPLACE_WITH_SEMI else FLAG_BLANK,
          E.end_byte, n.end_byte⟩]) := by
  have hvisit := visit_as_expression ctx n E hty hE
  refine ⟨hvisit, as_needs_semi_iff ctx n.end_byte, ?_⟩
  intro hrec
  rw [hvisit]
  exact push_data _ _ _ _ hrec

/-- Instance of `asi_rule_as_satisfies`: the `as` expression of `x` newline
`as T` newline, visited as the whole of its statement. -/
theorem asi_rule_as_satisfies_witness :
    (visit_node { initial_ctx default_alloc 0 src_as_newline with
        parent_statement := some node_as_newline } node_as_newline).1.ranges.data =
      [⟨FLAG_REPLACE_WITH_SEMI, 1, 6⟩] := by
  have h := (asi_rule_as_satisfies { initial_ctx default_alloc 0 src_as_newline with
    parent_statement := some node_as_newline } node_as_newline (leaf "identifier" 0 1)
    (Or.inl (by decide)) rfl).2.2 (Or.inl (by decide))
  rw [h]
  decide

/-! ## Inputs on which the code departs from its specification -/

/-- C2 (code defect). On the plain JavaScript source `a << 1 > b;` the
repair of `visit_binary_expression` fires: the traversal records a blank from
byte 1 to byte 9, the result is Success and the output is `a        b;`,
not the source. -/
theorem passthrough_shift_compare :
    well_formed_root src_shift_compare.length tree_shift_compare = true ∧
    (traversal default_alloc 0 src_shift_compare tree_shift_compare).ranges.data =
      [⟨FLAG_BLANK, 1, 9⟩] ∧
    ts_strip_with_ctx default_alloc 0 (fun _ => some tree_shift_compare)
        (some src_shift_compare) =
      (TS_STRIP_SUCCESS, some (ascii "a        b;\n")) ∧
    ascii "a        b;\n" ≠ src_shift_compare := by
  decide

/-- C9 (code defect). On `export interface I {}` the export statement has
no direct `type` child, so its children are visited: the `export` token counts
as runtime JavaScript and the interface alone is erased, with a semicolon
edit from byte 7 to byte 21; the output is `export ;` followed by blanks. -/
theorem export_interface_keeps_export :
    well_formed_root src_export_interface.length tree_export_interface = true ∧
    (traversal default_alloc 0 src_export_interface tree_export_interface).ranges.data =
      [⟨FLAG_REPLACE_WITH_SEMI, 7, 21⟩] ∧
    ts_strip_with_ctx default_alloc 0 (fun _ => some tree_export_interface)
        (some src_export_interface) =
      (TS_STRIP_SUCCESS, some (ascii "export ;             ")) := by
  decide

/-- C10 (code defect). On `namespace N { type T = 1 }`, a namespace whose
body holds one type alias, `has_runtime_values` is true (the body itself is a
`statement_block` child of the namespace), no edit is recorded, and the
result is Unsupported with the source as output. -/
theorem type_namespace_reported :
    well_formed_root src_type_namespace.length tree_type_namespace = true ∧
    has_runtime_values (some node_type_namespace) = true ∧
    (traversal default_alloc 0 src_type_namespace tree_type_namespace).ranges.data = [] ∧
    ts_strip_with_ctx default_alloc 0 (fun _ => some tree_type_namespace)
        (some src_type_namespace) =
      (TS_STRIP_ERROR_UNSUPPORTED, some src_type_namespace) := by
  decide

/-! ## The output builder against its reference definition -/

theorem map_indexed_eq (R : Nat × Nat → Nat) (f : Nat → Nat) (k : Nat) (l : List Nat)
    (h : ∀ p ∈ indexed k l, R p = f p.2) : (indexed k l).map R = l.map f := by
  induction l generalizing k with
  | nil => rfl
  | cons c cs ih =>
    simp only [indexed, List.map_cons]
    rw [h (k, c) (by simp [indexed]), ih (k + 1) (fun p hp => h p (by simp [indexed, hp]))]

theorem edits_disjoint_mem {len prev : Nat} {es : List Edit} (h : edits_disjoint len prev es) :
    ∀ t ∈ es, prev ≤ t.start ∧ t.start ≤ t.stop ∧
      (t.flag = FLAG_REPLACE_WITH_SEMI → t.start < t.stop) := by
  induction es generalizing prev with
  | nil => simp
  | cons e es ih =>
    obtain ⟨h1, h2, _, h4, h5⟩ := h
    intro t ht
    simp only [List.mem_cons] at ht
    rcases ht with rfl | ht
    · exact ⟨h1, h2, h4⟩
    · obtain ⟨h6, h7, h8⟩ := ih h5 t ht
      exact ⟨by omega, h7, h8⟩

theorem reference_unchanged {edits : List Edit} {p q i : Nat} (c : Nat)
    (h : ∀ x ∈ edits, (x.start ≤ x.stop ∧ x.stop ≤ p ∧
      (x.flag = FLAG_REPLACE_WITH_SEMI → x.start < x.stop)) ∨ q ≤ x.start)
    (hp : p ≤ i) (hq : i < q) : reference_byte edits i c = c := by
  unfold reference_byte
  rw [if_neg, if_neg]
  · simp only [List.any_eq_true, Bool.and_eq_true, decide_eq_true_eq, not_exists, not_and]
    intro x hx h1
    rcases h x hx with ⟨_, h3, _⟩ | h3 <;> omega
  · simp only [List.any_eq_true, Bool.and_eq_true, beq_iff_eq, not_exists, not_and]
    intro x hx hf
    rcases h x hx with ⟨_, h3, h4⟩ | h3
    · have := h4 hf
      omega
    · omega

theorem reference_blank {edits : List Edit} {e : Edit} {p i : Nat} (c : Nat)
    (h : ∀ x ∈ edits, (x.start ≤ x.stop ∧ x.stop ≤ p ∧
      (x.flag = FLAG_REPLACE_WITH_SEMI → x.start < x.stop)) ∨ x = e ∨ e.stop ≤ x.start)
    (he : e ∈ edits) (hp : p ≤ e.start) (h1 : e.start ≤ i) (h2 : i < e.stop)
    (h3 : e.flag = FLAG_REPLACE_WITH_SEMI → e.start < i) :
    reference_byte edits i c = get_space_char c := by
  unfold reference_byte get_space_char
  rw [if_neg, if_pos]
  · simp only [List.any_eq_true, Bool.and_eq_true, decide_eq_true_eq]
    exact ⟨e, he, h1, h2⟩
  · simp only [List.any_eq_true, Bool.and_eq_true, beq_iff_eq, not_exists, not_and]
    intro x hx hf
    rcases h x hx with ⟨_, h5, h6⟩ | rfl | h5
    · have := h6 hf
      omega
    · have := h3 hf
      omega
    · omega

theorem reference_semi {edits : List Edit} {e : Edit} (c : Nat) (he : e ∈ edits)
    (hf : e.flag = FLAG_REPLACE_WITH_SEMI) : reference_byte edits e.start c = 59 := by
  unfold reference_byte
  rw [if_pos]
  simp only [List.any_eq_true, Bool.and_eq_true, beq_iff_eq]
  exact ⟨e, he, hf, rfl⟩

theorem fold_reference (src : List Nat) (edits : List Edit) (todo done : List Edit)
    (out : List Nat) (prev : Nat) (hsplit : edits = done ++ todo)
    (hok : edits_disjoint src.length prev todo) (hprev : prev ≤ src.length)
    (hdone : ∀ d ∈ done, d.start ≤ d.stop ∧ d.stop ≤ prev ∧
      (d.flag = FLAG_REPLACE_WITH_SEMI → d.start < d.stop))
    (h : out = (indexed 0 (copy_bytes src 0 prev)).map (fun p => reference_byte edits p.1 p.2)) :
    (todo.foldl (build_step src) (out, prev)).1 =
        (indexed 0 (copy_bytes src 0 (todo.foldl (build_step src) (out, prev)).2)).map
          (fun p => reference_byte edits p.1 p.2) ∧
      (todo.foldl (build_step src) (out, prev)).2 ≤ src.length ∧
      ∀ d ∈ edits, d.start ≤ d.stop ∧ d.stop ≤ (todo.foldl (build_step src) (out, prev)).2 ∧
        (d.flag = FLAG_REPLACE_WITH_SEMI → d.start < d.stop) := by
  induction todo generalizing done out prev with
  | nil =>
    refine ⟨h, hprev, ?_⟩
    rw [hsplit, List.append_nil]
    exact hdone
  | cons e es ih =>
    obtain ⟨h1, h2, h3, h4, h5⟩ := hok
    have hes := edits_disjoint_mem h5
    have hmem : e ∈ edits := by rw [hsplit]; simp
    have hall : ∀ x ∈ edits, (x.start ≤ x.stop ∧ x.stop ≤ prev ∧
        (x.flag = FLAG_REPLACE_WITH_SEMI → x.start < x.stop)) ∨ x = e ∨ e.stop ≤ x.start := by
      intro x hx
      rw [hsplit] at hx
      simp only [List.mem_append, List.mem_cons] at hx
      rcases hx with hx | rfl | hx
      · exact Or.inl (hdone x hx)
      · exact Or.inr (Or.inl rfl)
      · exact Or.inr (Or.inr (hes x hx).1)
    simp only [List.foldl_cons]
    have hstep : build_step src (out, prev) e =
        ((indexed 0 (copy_bytes src 0 e.stop)).map (fun p => reference_byte edits p.1 p.2),
          e.stop) := by
      have hclamp : (if e.start < prev then prev else e.start) = e.start := by
        rw [if_neg (by omega)]
      have hcopy : copy_bytes src prev e.start =
          (indexed prev (copy_bytes src prev e.start)).map
            (fun p => reference_byte edits p.1 p.2) := by
        rw [map_indexed_eq _ id prev _ (fun p hp => ?_)]
        · simp
        · obtain ⟨h6, h7, _⟩ := mem_indexed_copy hp
          refine reference_unchanged p.2 (fun x hx => ?_) h6 h7
          rcases hall x hx with h8 | rfl | h8
          · exact Or.inl h8
          · exact Or.inr (le_refl _)
          · exact Or.inr (by omega)
      by_cases hflag : e.flag = FLAG_REPLACE_WITH_SEMI
      · have hlt := h4 hflag
        simp only [build_step, hclamp, hflag, if_true]
        rw [indexed_copy_split src 0 prev e.stop (by omega) (by omega) h3,
          indexed_copy_split src prev e.start e.stop h1 h2 h3,
          indexed_copy_split src e.start (e.start + 1) e.stop (by omega) (by omega) h3,
          copy_bytes_one src e.start (by omega), blank_bytes_eq src _ _ h3]
        simp only [List.map_append, ← h, ← hcopy, List.append_assoc]
        congr 3
        simp only [indexed, List.map_cons, List.map_nil]
        rw [reference_semi _ hmem hflag, map_indexed_eq _ get_space_char _ _ (fun p hp => ?_)]
        obtain ⟨h6, h7, _⟩ := mem_indexed_copy hp
        exact reference_blank p.2 hall hmem h1 (by omega) h7 (fun _ => by omega)
      · simp only [build_step, hclamp, hflag, if_false]
        rw [indexed_copy_split src 0 prev e.stop (by omega) (by omega) h3,
          indexed_copy_split src prev e.start e.stop h1 h2 h3, blank_bytes_eq src _ _ h3]
        simp only [List.map_append, ← h, ← hcopy, List.append_assoc]
        congr 3
        rw [map_indexed_eq _ get_space_char _ _ (fun p hp => ?_)]
        obtain ⟨h6, h7, _⟩ := mem_indexed_copy hp
        exact reference_blank p.2 hall hmem h1 h6 h7 (fun hf => absurd hf hflag)
    rw [hstep]
    refine ih (done ++ [e]) _ e.stop (by rw [hsplit]; simp) h5 h3 ?_ rfl
    intro d hd
    simp only [List.mem_append, List.mem_singleton] at hd
    rcases hd with hd | rfl
    · obtain ⟨h6, h7, h8⟩ := hdone d hd
      exact ⟨h6, by omega, h8⟩
    · exact ⟨h2, le_refl _, h4⟩

/-- Replaying an ordered, non-overlapping, in-bounds edit list gives the
reference output. -/
theorem replay_eq_reference (src : List Nat) (edits : List Edit)
    (hok : edits_disjoint src.length 0 edits) : replay src edits = reference_output src edits := by
  unfold replay reference_output
  split
  · rename_i h0
    rw [List.length_eq_zero.mp h0]
    rw [map_indexed_eq _ id 0 src (fun p _ => ?_)]
    · simp
    · simp [reference_byte]
  · obtain ⟨h1, h2, h3⟩ := fold_reference src edits edits [] [] 0 rfl hok (Nat.zero_le _)
      (by simp) (by simp [copy_bytes, indexed])
    generalize edits.foldl (build_step src) ([], 0) = st at h1 h2 h3
    have hsplit : indexed 0 src =
        indexed 0 (copy_bytes src 0 st.2) ++ indexed st.2 (copy_bytes src st.2 src.length) := by
      have := indexed_copy_split src 0 st.2 src.length (Nat.zero_le _) h2 (le_refl _)
      rwa [copy_bytes_all] at this
    show st.1 ++ copy_bytes src st.2 src.length = _
    rw [hsplit, List.map_append, ← h1]
    congr 1
    rw [map_indexed_eq _ id st.2 _ (fun p hp => ?_)]
    · simp
    · obtain ⟨h6, h7, _⟩ := mem_indexed_copy hp
      exact reference_unchanged p.2 (fun x hx => Or.inl (h3 x hx)) h6 h7

/-- C6. `build_output` equals its reference definition: for every source
and every edit list that is ordered, non-overlapping and in bounds, with
non-empty semicolon ranges, the bytes `build_output` writes are, offset by
offset, those of `reference_output`: `;` at the first offset of a semicolon
range, otherwise inside an edit range the byte itself when it is `\n` or
`\r` and a space for any other byte, and the source byte outside all ranges. -/
theorem build_output_reference (ctx : parse_ctx_t)
    (hok : edits_disjoint ctx.source.length 0 ctx.ranges.data)
    (hgrant : ctx.allocator.grants ctx.requests = true) :
    build_output ctx = some (reference_output ctx.source ctx.ranges.data) ∧
      ∀ i c, ctx.source[i]? = some c →
        (reference_output ctx.source ctx.ranges.data)[i]? =
          some (reference_byte ctx.ranges.data i c) := by
  refine ⟨?_, ?_⟩
  · unfold build_output
    rw [if_pos hgrant, replay_eq_reference _ _ hok]
  · intro i c hc
    unfold reference_output
    rw [List.getElem?_map, indexed_get, hc]
    simp

/-- Instance of `build_output_reference` on a type annotation that holds a
four-byte character: each of its bytes becomes one space. -/
theorem build_output_reference_witness :
    build_output { initial_ctx default_alloc 0 src_multibyte with
        ranges := ⟨edits_multibyte, initial_capacity⟩ } =
      some (ascii "function f()         \x7b\x7d") := by
  rw [(build_output_reference { initial_ctx default_alloc 0 src_multibyte with
    ranges := ⟨edits_multibyte, initial_capacity⟩ }
    ⟨by decide, by decide, by decide, by decide, trivial⟩ rfl).1]
  decide

/-! ## Runtime-evidence detection -/

theorem any_congr_mem {α : Type} (p q : α → Bool) (l : List α) (h : ∀ a ∈ l, p a = q a) :
    l.any p = l.any q := by
  induction l with
  | nil => rfl
  | cons a as ih =>
    simp only [List.any_cons]
    rw [h a (by simp), ih (fun b hb => h b (by simp [hb]))]

theorem runtime_child_congr (r1 r2 : Option TSNode → Bool) (child : TSNode)
    (hc : r1 (some child) = r2 (some child))
    (hd : ∀ decl ∈ child.children, r1 (some decl) = r2 (some decl)) :
    runtime_child r1 child = runtime_child r2 child := by
  unfold runtime_child
  simp only [hc]
  cases hdecl : get_child_by_field child "declaration" with
  | none => rfl
  | some decl => simp only [hd decl (get_child_by_field_mem hdecl)]

theorem has_runtime_values_fuel_agree (f g : Nat) (n : TSNode) (hf : n.height < f)
    (hg : n.height < g) :
    has_runtime_values_fuel f (some n) = has_runtime_values_fuel g (some n) := by
  induction f generalizing g n with
  | zero => omega
  | succ f ih =>
    cases g with
    | zero => omega
    | succ g =>
      simp only [has_runtime_values_fuel]
      refine any_congr_mem _ _ _ (fun c hc => ?_)
      have h1 := height_child hc
      refine runtime_child_congr _ _ c (ih g c (by omega) (by omega)) (fun d hd => ?_)
      have h2 := height_child hd
      exact ih g d (by omega) (by omega)

/-- The recursion equation of `has_runtime_values`: a node has runtime
values when the loop body finds them in one of its children. -/
theorem has_runtime_values_eq (n : TSNode) :
    has_runtime_values (some n) = n.children.any (runtime_child has_runtime_values) := by
  show has_runtime_values_fuel (n.height + 1) (some n) = _
  simp only [has_runtime_values_fuel]
  refine any_congr_mem _ _ _ (fun c hc => ?_)
  have h1 := height_child hc
  refine runtime_child_congr _ _ c ?_ (fun d hd => ?_)
  · exact has_runtime_values_fuel_agree _ _ c h1 (Nat.lt_succ_self _)
  · have h2 := height_child hd
    exact has_runtime_values_fuel_agree _ _ d (by omega) (Nat.lt_succ_self _)

theorem runtime_child_iff (child : TSNode) :
    runtime_child has_runtime_values child = true ↔ is_runtime_evidence child := by
  unfold runtime_child is_runtime_evidence is_value_declaration
  simp only []
  by_cases h1 : child.type = "ambient_declaration"
  · simp [h1]
  by_cases h2 : child.type = "expression_statement"
  · simp [h2]
  by_cases h3 : child.type = "statement_block"
  · simp [h3]
  by_cases h4 : child.type = "lexical_declaration"
  · simp [h4]
  by_cases h5 : child.type = "variable_declaration"
  · simp [h5]
  by_cases h6 : child.type = "class_declaration"
  · simp [h6]
  by_cases h7 : child.type = "function_declaration"
  · simp [h7]
  by_cases h8 : child.type = "internal_module"
  · simp [h8]
  by_cases h9 : child.type = "export_statement"
  · cases hd : get_child_by_field child "declaration" with
    | none => simp [h9, hd, Option.isSome_iff_exists]
    | some decl =>
      simp only [h9, hd]
      simp [Option.isSome_iff_exists, or_assoc]
  · simp [h1, h2, h3, h4, h5, h6, h7, h8, h9]

/-- C11. Runtime-evidence detection equals its definition:
`has_runtime_values` is false for a null node, and for a node `n` it is true
exactly when some direct child of `n` is runtime evidence as the
specification words it (`is_runtime_evidence`: not an ambient declaration,
and an expression statement, a statement block, a value declaration, a
namespace with runtime values, or an export statement wrapping a value
declaration or such a namespace or having an `import_alias` child). -/
theorem has_runtime_values_spec :
    has_runtime_values none = false ∧
    ∀ n : TSNode, has_runtime_values (some n) = true ↔
      ∃ child ∈ n.children, is_runtime_evidence child := by
  refine ⟨rfl, fun n => ?_⟩
  rw [has_runtime_values_eq, List.any_eq_true]
  constructor
  · rintro ⟨c, hc, h⟩
    exact ⟨c, hc, (runtime_child_iff c).mp h⟩
  · rintro ⟨c, hc, h⟩
    exact ⟨c, hc, (runtime_child_iff c).mpr h⟩

/-! ## The cases of the visitor -/

theorem visit_node_unsupported_kind (ctx : parse_ctx_t) (n : TSNode)
    (hk : classify n.type = node_kind.error ∨ classify n.type = node_kind.enum_declaration ∨
      classify n.type = node_kind.module ∨ classify n.type = node_kind.type_assertion) :
    visit_node ctx n = (mark_unsupported ctx n, VISITED_JS) := by
  rw [visit_node_eq]
  unfold visit_node_body
  rcases hk with h | h | h | h <;> rw [h]

theorem visit_node_internal_module (ctx : parse_ctx_t) (n : TSNode)
    (hk : classify n.type = node_kind.internal_module) :
    visit_node ctx n =
      if has_runtime_values (some n) then (mark_unsupported ctx n, VISITED_JS)
      else ((blank_stmt ctx n).1, VISIT_BLANKED) := by
  rw [visit_node_eq]
  unfold visit_node_body
  rw [hk]

theorem visit_node_ambient (ctx : parse_ctx_t) (n : TSNode)
    (hk : classify n.type = node_kind.ambient_declaration) :
    visit_node ctx n =
      if ambient_legacy_module n then (mark_unsupported ctx n, VISITED_JS)
      else ((blank_stmt ctx n).1, VISIT_BLANKED) := by
  rw [visit_node_eq]
  unfold visit_node_body
  rw [hk]

theorem visit_node_import (ctx : parse_ctx_t) (n : TSNode)
    (hk : classify n.type = node_kind.import_statement) :
    visit_node ctx n =
      if (find_child_type n "import_require_clause").isSome then
        (mark_unsupported ctx n, VISITED_JS)
      else if (match get_child_by_field n "import_clause" with
          | some clause => (find_child_type clause "type").isSome
          | none => false) then
        ((blank_stmt ctx n).1, VISIT_BLANKED)
      else (ctx, VISITED_JS) := by
  rw [visit_node_eq]
  unfold visit_node_body
  rw [hk]

theorem visit_node_function_like (ctx : parse_ctx_t) (n : TSNode)
    (hk : classify n.type = node_kind.function_like) :
    visit_node ctx n = visit_function_like visit_node ctx n := by
  rw [visit_node_eq]
  unfold visit_node_body
  rw [hk]

theorem visit_node_binary (ctx : parse_ctx_t) (n : TSNode)
    (hk : classify n.type = node_kind.binary_expression) :
    visit_node ctx n = visit_binary_expression visit_node ctx n := by
  rw [visit_node_eq]
  unfold visit_node_body
  rw [hk]

theorem push_data_cases (ctx : parse_ctx_t) (flag : range_flag) (s t : Nat) :
    (range_array_push ctx flag s t).1.ranges.data = ctx.ranges.data ∨
      (range_array_push ctx flag s t).1.ranges.data = ctx.ranges.data ++ [⟨flag, s, t⟩] := by
  unfold range_array_push
  split
  · split
    · exact Or.inr rfl
    · exact Or.inl rfl
  · exact Or.inr rfl

theorem push_flags (ctx : parse_ctx_t) (flag : range_flag) (s t : Nat) :
    (range_array_push ctx flag s t).1.has_unsupported = ctx.has_unsupported ∧
      (range_array_push ctx flag s t).1.marked = ctx.marked ∧
      (range_array_push ctx flag s t).1.in_function_body = ctx.in_function_body ∧
      (range_array_push ctx flag s t).1.seen_js = ctx.seen_js := by
  unfold range_array_push
  split
  · split <;> exact ⟨rfl, rfl, rfl, rfl⟩
  · exact ⟨rfl, rfl, rfl, rfl⟩

theorem blank_stmt_flags (ctx : parse_ctx_t) (n : TSNode) :
    (blank_stmt ctx n).1.has_unsupported = ctx.has_unsupported ∧
      (blank_stmt ctx n).1.marked = ctx.marked ∧
      (blank_stmt ctx n).1.in_function_body = ctx.in_function_body ∧
      (blank_stmt ctx n).1.seen_js = ctx.seen_js := by
  unfold blank_stmt
  split <;> exact push_flags _ _ _ _

theorem blank_stmt_data_cases (ctx : parse_ctx_t) (n : TSNode) :
    (blank_stmt ctx n).1.ranges.data = ctx.ranges.data ∨
      ∃ flag, (blank_stmt ctx n).1.ranges.data =
        ctx.ranges.data ++ [⟨flag, n.start_byte, n.end_byte⟩] := by
  unfold blank_stmt
  split
  · rcases push_data_cases ctx FLAG_REPLACE_WITH_SEMI n.start_byte n.end_byte with h | h
    · exact Or.inl h
    · exact Or.inr ⟨_, h⟩
  · rcases push_data_cases ctx FLAG_BLANK n.start_byte n.end_byte with h | h
    · exact Or.inl h
    · exact Or.inr ⟨_, h⟩

theorem ambient_legacy_module_iff (n : TSNode) :
    ambient_legacy_module n = true ↔
      ∃ m, find_child_type n "module" = some m ∧
        ∃ name, get_child_by_field m "name" = some name ∧ name.type ≠ "string" := by
  unfold ambient_legacy_module
  cases hm : find_child_type n "module" with
  | none => simp
  | some m =>
    cases hn : get_child_by_field m "name" with
    | none => simp [hn]
    | some name => simp [hn, is_type]

/-- C20. Ambient declarations: for every `ambient_declaration` node, when
its first child of type `module` has a name that is not a string literal the
visit marks Unsupported and records no edit; in every other case the visit
is the whole-statement erasure of the node: the children are not visited, the
Unsupported flag is left as it was, and, when the edit can be recorded,
exactly one edit over the whole node is added. -/
theorem ambient_declarations (ctx : parse_ctx_t) (n : TSNode)
    (hty : n.type = "ambient_declaration") :
    ((∃ m, find_child_type n "module" = some m ∧
        ∃ name, get_child_by_field m "name" = some name ∧ name.type ≠ "string") →
      visit_node ctx n = (mark_unsupported ctx n, VISITED_JS) ∧
      (visit_node ctx n).1.has_unsupported = true ∧
      (visit_node ctx n).1.ranges.data = ctx.ranges.data) ∧
    (¬ (∃ m, find_child_type n "module" = some m ∧
        ∃ name, get_child_by_field m "name" = some name ∧ name.type ≠ "string") →
      visit_node ctx n = ((blank_stmt ctx n).1, VISIT_BLANKED) ∧
      (visit_node ctx n).1.has_unsupported = ctx.has_unsupported ∧
      (can_record ctx → (visit_node ctx n).1.ranges.data = ctx.ranges.data ++
        [⟨if ctx.seen_js = true ∧ ctx.in_function_body = 0 then FLAG_REPLACE_WITH_SEMI
          else FLAG_BLANK, n.start_byte, n.end_byte⟩])) := by
  have hk : classify n.type = node_kind.ambient_declaration := by rw [hty]; decide
  have hv := visit_node_ambient ctx n hk
  refine ⟨fun h => ?_, fun h => ?_⟩
  · rw [if_pos ((ambient_legacy_module_iff n).mpr h)] at hv
    rw [hv]
    exact ⟨rfl, rfl, rfl⟩
  · rw [if_neg (fun hl => h ((ambient_legacy_module_iff n).mp hl))] at hv
    rw [hv]
    exact ⟨rfl, (blank_stmt_flags ctx n).1, fun hrec => blank_stmt_data ctx n hrec⟩

/-- Instance of `ambient_declarations`: `declare module M {}` is marked
Unsupported, and `declare enum E1 {}` is erased by one plain edit over the
whole declaration. -/
theorem ambient_declarations_witness :
    (visit_node (initial_ctx default_alloc 0 src_declare_module) node_declare_module).1.has_unsupported
        = true ∧
    (visit_node (initial_ctx default_alloc 0 src_declare_enum) node_declare_enum).1.ranges.data =
      [⟨FLAG_BLANK, 0, 18⟩] := by
  refine ⟨((ambient_declarations (initial_ctx default_alloc 0 src_declare_module)
      node_declare_module rfl).1 ?_).2.1, ?_⟩
  · exact ⟨_, rfl, _, rfl, by decide⟩
  · have h := ((ambient_declarations (initial_ctx default_alloc 0 src_declare_enum)
      node_declare_enum rfl).2 ?_).2.2 (Or.inl (by decide))
    · rw [h]
      decide
    · rintro ⟨m, hm, _⟩
      have : find_child_type node_declare_enum "module" = none := rfl
      rw [this] at hm
      cases hm

theorem has_param_props_iff (params : TSNode) :
    has_param_props params = true ↔
      ∃ param ∈ params.children, ∃ child ∈ param.children,
        child.type = "accessibility_modifier" ∨ child.type = "public" ∨
          child.type = "private" ∨ child.type = "protected" ∨ child.type = "readonly" := by
  unfold has_param_props is_param_prop_type
  simp only [List.any_eq_true, Bool.or_eq_true, beq_iff_eq, or_assoc]

/-- C19. Parameter properties are reported: for every `function_declaration`
or `method_definition` that has a body and whose parameter list has a
parameter with a direct child of type `accessibility_modifier`, `public`,
`private`, `protected` or `readonly`, the visit marks Unsupported, records no
edit and leaves `in_function_body` as it was; and for a parameter list with
no such child `has_param_props` is false. -/
theorem parameter_properties_reported (ctx : parse_ctx_t) (n body params : TSNode)
    (hty : n.type = "function_declaration" ∨ n.type = "method_definition")
    (hbody : get_child_by_field n "body" = some body)
    (hparams : get_child_by_field n "parameters" = some params)
    (hprop : ∃ param ∈ params.children, ∃ child ∈ param.children,
      child.type = "accessibility_modifier" ∨ child.type = "public" ∨
        child.type = "private" ∨ child.type = "protected" ∨ child.type = "readonly") :
    visit_node ctx n = (mark_unsupported ctx n, VISITED_JS) ∧
    (visit_node ctx n).1.has_unsupported = true ∧
    (visit_node ctx n).1.ranges.data = ctx.ranges.data ∧
    (visit_node ctx n).1.in_function_body = ctx.in_function_body ∧
    (∀ ps : TSNode, (∀ param ∈ ps.children, ∀ child ∈ param.children,
        ¬ (child.type = "accessibility_modifier" ∨ child.type = "public" ∨
          child.type = "private" ∨ child.type = "protected" ∨ child.type = "readonly")) →
      has_param_props ps = false) := by
  have hk : classify n.type = node_kind.function_like := by
    rcases hty with h | h <;> rw [h] <;> decide
  have hv : visit_node ctx n = (mark_unsupported ctx n, VISITED_JS) := by
    rw [visit_node_function_like ctx n hk]
    unfold visit_function_like
    simp only [hbody, hparams]
    rw [if_pos ((has_param_props_iff params).mpr hprop)]
  rw [hv]
  refine ⟨rfl, rfl, rfl, rfl, fun ps hps => ?_⟩
  cases h : has_param_props ps with
  | false => rfl
  | true =>
    obtain ⟨p, hp, c, hc, hcc⟩ := (has_param_props_iff ps).mp h
    exact absurd hcc (hps p hp c hc)

/-- Instance of `parameter_properties_reported` on `constructor(public a) {}`. -/
theorem parameter_properties_reported_witness :
    (visit_node (initial_ctx default_alloc 0 src_constructor_props)
        node_constructor_props).1.has_unsupported = true ∧
    (visit_node (initial_ctx default_alloc 0 src_constructor_props)
        node_constructor_props).1.ranges.data = [] :=
  ⟨(parameter_properties_reported (initial_ctx default_alloc 0 src_constructor_props)
      node_constructor_props node_props_body node_props_parameters (Or.inr rfl) rfl rfl
      ⟨_, List.mem_cons_of_mem _ (List.mem_cons_self _ _), _, List.mem_cons_self _ _,
        Or.inl rfl⟩).2.1,
    (parameter_properties_reported (initial_ctx default_alloc 0 src_constructor_props)
      node_constructor_props node_props_body node_props_parameters (Or.inr rfl) rfl rfl
      ⟨_, List.mem_cons_of_mem _ (List.mem_cons_self _ _), _, List.mem_cons_self _ _,
        Or.inl rfl⟩).2.2.1⟩

/-! ## The generic-call repair -/

theorem findSome?_reverse_of_getLast? {α β : Type} (f : α → Option β) (l : List α) (a : α)
    (b : β) (hl : l.getLast? = some a) (hf : f a = some b) :
    l.reverse.findSome? f = some b := by
  rw [← List.head?_reverse] at hl
  cases hr : l.reverse with
  | nil => rw [hr] at hl; cases hl
  | cons x xs =>
    rw [hr] at hl
    simp only [List.head?_cons, Option.some.injEq] at hl
    subst hl
    simp [List.findSome?_cons, hf]

theorem visit_leaf_other (ctx : parse_ctx_t) (n : TSNode)
    (hk : classify n.type = node_kind.other) (hleaf : n.children = []) :
    visit_node ctx n = (ctx, VISITED_JS) := by
  rw [visit_node_eq]
  unfold visit_node_body
  rw [hk]
  simp [visit_children, hleaf]

/-- The visit of a node of the generic-call shape whose right operand is an
arrow function ending in a comparison with a parenthesized right operand. -/
theorem visit_generic_call (ctx : parse_ctx_t) (n L I R B P : TSNode)
    (hty : n.type = "binary_expression")
    (hop : is_type (get_child_by_field n "operator") ">" = true)
    (hL : get_child_by_field n "left" = some L) (hLty : L.type = "binary_expression")
    (hLop : is_type (get_child_by_field L "operator") "<<" = true)
    (hI : get_child_by_field L "left" = some I) (hIty : I.type = "identifier")
    (hR : get_child_by_field n "right" = some R) (hRty : R.type = "arrow_function")
    (hB : R.children.getLast? = some B) (hBty : B.type = "binary_expression")
    (hP : get_child_by_field B "right" = some P)
    (hPty : P.type = "parenthesized_expression") :
    visit_node ctx n =
      ((visit_node (blank_range (visit_node ctx I).1 I.end_byte P.start_byte).1 P).1,
        VISITED_JS) := by
  have hk : classify n.type = node_kind.binary_expression := by rw [hty]; decide
  have hident : generic_call_ident n = some I := by
    have h1 : is_type (some L) "binary_expression" = true := by simp [is_type, hLty]
    have h2 : is_type (some I) "identifier" = true := by simp [is_type, hIty]
    unfold generic_call_ident
    simp only [hop, hL, h1, hLop, hI, h2, Bool.and_self, if_true]
  have hcand : call_candidate B = some P := by
    unfold call_candidate
    simp [is_type, hBty, hP, hPty]
  have hcall : find_actual_call (some R) = some P := by
    unfold find_actual_call
    simp [is_type, hRty, findSome?_reverse_of_getLast? call_candidate _ B P hB hcand]
  rw [visit_node_binary ctx n hk]
  unfold visit_binary_expression
  simp only [hident, hR, hcall, ts_node_start_byte, visit_opt]

/-- C13. Generic-call repair: for every `binary_expression` with operator
`>` whose left operand is a `binary_expression` with operator `<<` whose own
left operand is an identifier `I` (a leaf), and whose right operand is an
`arrow_function` whose last child, its body, is a `binary_expression` with a
`parenthesized_expression` `P` as right operand, the visit records the edit
Blank from the end of `I` to the start of `P` and then visits `P`; nothing
else of the node is visited. -/
theorem generic_call_repair (ctx : parse_ctx_t) (n L I R B P : TSNode)
    (hty : n.type = "binary_expression")
    (hop : is_type (get_child_by_field n "operator") ">" = true)
    (hL : get_child_by_field n "left" = some L) (hLty : L.type = "binary_expression")
    (hLop : is_type (get_child_by_field L "operator") "<<" = true)
    (hI : get_child_by_field L "left" = some I) (hIty : I.type = "identifier")
    (hleaf : I.children = [])
    (hR : get_child_by_field n "right" = some R) (hRty : R.type = "arrow_function")
    (hB : R.children.getLast? = some B) (hBty : B.type = "binary_expression")
    (hP : get_child_by_field B "right" = some P)
    (hPty : P.type = "parenthesized_expression") :
    visit_node ctx n =
      ((visit_node (blank_range ctx I.end_byte P.start_byte).1 P).1, VISITED_JS) ∧
    (can_record ctx → (blank_range ctx I.end_byte P.start_byte).1.ranges.data =
      ctx.ranges.data ++ [⟨FLAG_BLANK, I.end_byte, P.start_byte⟩]) := by
  have hvI : visit_node ctx I = (ctx, VISITED_JS) :=
    visit_leaf_other ctx I (by rw [hIty]; decide) hleaf
  refine ⟨?_, fun hrec => push_data ctx _ _ _ hrec⟩
  rw [visit_generic_call ctx n L I R B P hty hop hL hLty hLop hI hIty hR hRty hB hBty hP hPty,
    hvI]

/-- Instance of `generic_call_repair` on `foo<<T>(x: T) => number>(() => 1)`:
the one edit blanks bytes 3 to 24, between `foo` and the argument list. -/
theorem generic_call_repair_witness :
    (visit_node (initial_ctx default_alloc 0 src_generic_call) node_generic_call).1.ranges.data =
      [⟨FLAG_BLANK, 3, 24⟩] ∧
    replay src_generic_call [⟨FLAG_BLANK, 3, 24⟩] =
      ascii "foo                     (() => 1)" := by
  refine ⟨?_, by decide⟩
  rw [(generic_call_repair (initial_ctx default_alloc 0 src_generic_call) node_generic_call
    node_generic_left node_generic_ident node_generic_arrow node_generic_body node_generic_args
    rfl rfl rfl rfl rfl rfl rfl rfl rfl rfl rfl rfl rfl rfl).1]
  decide

/-- C14 (code defect). On the JavaScript expression `a << 1 > b` the
repair applies although the right operand holds no argument list: the node
at which blanking stops and the traversal resumes is the identifier `b`,
and the visit records a blank from byte 1 to byte 9, where ordinary
recursion over the children records nothing. -/
theorem repair_resumes_at_identifier :
    (generic_call_ident node_shift_compare).isSome = true ∧
    (find_actual_call (get_child_by_field node_shift_compare "right")).map TSNode.type =
      some "identifier" ∧
    (visit_node (initial_ctx default_alloc 0 src_shift_compare) node_shift_compare).1.ranges.data =
      [⟨FLAG_BLANK, 1, 9⟩] ∧
    (visit_children visit_node (initial_ctx default_alloc 0 src_shift_compare)
      node_shift_compare).1.ranges.data = [] := by
  decide

/-! ## Import statements -/

/-- C16 (code defect). On `import type {A} from 'm'`, where the `type`
keyword is a direct child of the statement, the visitor looks for a `type`
child inside a child held under the field `import_clause`, finds none,
records no edit and reports runtime JavaScript: the result is Success and
the output is the source, type-only import included. -/
theorem import_type_kept :
    well_formed_root src_import_type.length tree_import_type = true ∧
    (find_child_type node_import_type "import_require_clause").isSome = false ∧
    (find_child_type node_import_type "type").isSome = true ∧
    (visit_node (initial_ctx default_alloc 0 src_import_type) node_import_type).2 = VISITED_JS ∧
    (traversal default_alloc 0 src_import_type tree_import_type).ranges.data = [] ∧
    ts_strip_with_ctx default_alloc 0 (fun _ => some tree_import_type) (some src_import_type) =
      (TS_STRIP_SUCCESS, some src_import_type) := by
  decide

/-- C17 (code defect). An ordinary import is not traversed: on
`import a b from 'm';`, an import without a require-style clause and without
`type`, whose stray identifier is an ERROR child, the visit returns the state
as it was, where visiting each child in order sets the Unsupported flag; the
result for the whole source is Success with the input as output, although
the tree holds an ERROR node. -/
theorem import_children_not_visited :
    (find_child_type node_import_error "import_require_clause").isSome = false ∧
    (find_child_type node_import_error "type").isSome = false ∧
    (get_child_by_field node_import_error "import_clause").isSome = false ∧
    visit_node (initial_ctx default_alloc 1 src_import_error) node_import_error =
      (initial_ctx default_alloc 1 src_import_error, VISITED_JS) ∧
    (visit_children visit_node (initial_ctx default_alloc 1 src_import_error)
      node_import_error).1.has_unsupported = true ∧
    tree_ok_root false src_import_error.length tree_import_error = true ∧
    ts_strip_with_ctx default_alloc 0 (fun _ => some tree_import_error)
      (some src_import_error) = (TS_STRIP_SUCCESS, some src_import_error) := by
  refine ⟨by decide, by decide, by decide, rfl, by decide, by decide, by decide⟩

/-! ## Recording is append-only and the depth is balanced -/

theorem Grows.refl (a : parse_ctx_t) : Grows a a :=
  ⟨⟨[], by simp⟩, ⟨[], by simp⟩, fun h => h⟩

theorem Grows.trans {a b c : parse_ctx_t} (h1 : Grows a b) (h2 : Grows b c) : Grows a c := by
  obtain ⟨e1, he1⟩ := h1.edits
  obtain ⟨e2, he2⟩ := h2.edits
  obtain ⟨m1, hm1⟩ := h1.marks
  obtain ⟨m2, hm2⟩ := h2.marks
  exact ⟨⟨e1 ++ e2, by rw [he2, he1, List.append_assoc]⟩,
    ⟨m1 ++ m2, by rw [hm2, hm1, List.append_assoc]⟩, fun h => h2.flag (h1.flag h)⟩

theorem Grows.of_eq {a b : parse_ctx_t} (h1 : b.ranges.data = a.ranges.data)
    (h2 : b.marked = a.marked) (h3 : b.has_unsupported = a.has_unsupported) : Grows a b :=
  ⟨⟨[], by simp [h1]⟩, ⟨[], by simp [h2]⟩, fun h => by rw [h3]; exact h⟩

theorem grows_push (ctx : parse_ctx_t) (flag : range_flag) (s t : Nat) :
    Grows ctx (range_array_push ctx flag s t).1 := by
  refine ⟨?_, ⟨[], by simp [(push_flags ctx flag s t).2.1]⟩,
    fun h => by rw [(push_flags ctx flag s t).1]; exact h⟩
  rcases push_data_cases ctx flag s t with h | h
  · exact ⟨[], by simp [h]⟩
  · exact ⟨_, h⟩

theorem grows_mark (ctx : parse_ctx_t) (n : TSNode) : Grows ctx (mark_unsupported ctx n) :=
  ⟨⟨[], by simp [mark_unsupported]⟩, ⟨_, rfl⟩, fun _ => rfl⟩

theorem grows_blank_stmt (ctx : parse_ctx_t) (n : TSNode) :
    Grows ctx (blank_stmt ctx n).1 ∧
      (blank_stmt ctx n).1.in_function_body = ctx.in_function_body := by
  unfold blank_stmt
  split <;> exact ⟨grows_push _ _ _ _, (push_flags _ _ _ _).2.2.1⟩

theorem grows_blank_node (ctx : parse_ctx_t) (n : TSNode) :
    Grows ctx (blank_node ctx n).1 ∧
      (blank_node ctx n).1.in_function_body = ctx.in_function_body :=
  ⟨grows_push _ _ _ _, (push_flags _ _ _ _).2.2.1⟩

theorem grows_blank_type_anno (ctx : parse_ctx_t) (n : TSNode) :
    Grows ctx (blank_type_anno ctx n).1 ∧
      (blank_type_anno ctx n).1.in_function_body = ctx.in_function_body :=
  ⟨grows_push _ _ _ _, (push_flags _ _ _ _).2.2.1⟩

theorem grows_fold (step : parse_ctx_t → TSNode → parse_ctx_t) (cs : List TSNode)
    (ctx : parse_ctx_t)
    (h : ∀ c ∈ cs, ∀ x, Grows x (step x c) ∧ (step x c).in_function_body = x.in_function_body) :
    Grows ctx (cs.foldl step ctx) ∧
      (cs.foldl step ctx).in_function_body = ctx.in_function_body := by
  induction cs generalizing ctx with
  | nil => exact ⟨Grows.refl _, rfl⟩
  | cons c cs ih =>
    simp only [List.foldl_cons]
    have h1 := h c (by simp) ctx
    have h2 := ih (step ctx c) (fun d hd => h d (by simp [hd]))
    exact ⟨h1.1.trans h2.1, h2.2.trans h1.2⟩

theorem grows_visit_children {V : Visitor} (hV : GrowsSpec V) (ctx : parse_ctx_t)
    (n : TSNode) :
    Grows ctx (visit_children V ctx n).1 ∧
      (visit_children V ctx n).1.in_function_body = ctx.in_function_body := by
  unfold visit_children
  refine grows_fold _ _ _ (fun c _ x => ?_)
  have := hV x c
  try simp only []
  split
  · exact ⟨this.1.trans (Grows.of_eq rfl rfl rfl), this.2⟩
  · exact this

theorem grows_visit_formal_parameters {V : Visitor} (hV : GrowsSpec V) (ctx : parse_ctx_t)
    (n : TSNode) :
    Grows ctx (visit_formal_parameters V ctx n) ∧
      (visit_formal_parameters V ctx n).in_function_body = ctx.in_function_body := by
  unfold visit_formal_parameters
  refine grows_fold _ _ _ (fun c _ x => ?_)
  unfold visit_parameter
  refine grows_fold _ _ _ (fun d _ y => ?_)
  try simp only []
  split
  · exact grows_blank_node _ _
  · exact hV y d

theorem grows_visit_signature_children {V : Visitor} (hV : GrowsSpec V) (ctx : parse_ctx_t)
    (n : TSNode) :
    Grows ctx (visit_signature_children V ctx n) ∧
      (visit_signature_children V ctx n).in_function_body = ctx.in_function_body := by
  unfold visit_signature_children
  refine grows_fold _ _ _ (fun c _ x => ?_)
  try simp only []
  split
  · exact grows_blank_node _ _
  · split
    · exact grows_visit_formal_parameters hV _ _
    · exact hV x c

theorem grows_visit_node_body {V : Visitor} (hV : GrowsSpec V) :
    GrowsSpec (visit_node_body V) := by
  intro ctx n
  have hmark : Grows ctx (mark_unsupported ctx n) ∧
      (mark_unsupported ctx n).in_function_body = ctx.in_function_body :=
    ⟨grows_mark ctx n, rfl⟩
  have hstmt := grows_blank_stmt ctx n
  have hkids := grows_visit_children hV ctx n
  have hsame : Grows ctx ctx ∧ ctx.in_function_body = ctx.in_function_body :=
    ⟨Grows.refl ctx, rfl⟩
  unfold visit_node_body
  cases hk : classify n.type <;> simp only []
  case error => exact hmark
  case ambient_declaration => split <;> assumption
  case type_declaration => exact hstmt
  case import_statement =>
    split
    · exact hmark
    · split <;> assumption
  case import_alias => exact ⟨Grows.refl ctx, trivial⟩
  case export_statement =>
    split
    · exact hstmt
    · split <;> assumption
  case variable_declarator =>
    refine grows_fold _ _ _ (fun c _ x => ?_)
    try simp only []
    split
    · exact grows_blank_type_anno _ _
    · split
      · exact grows_blank_node _ _
      · exact hV x c
  case declaration_list => exact hkids
  case function_like =>
    unfold visit_function_like
    split
    · exact hstmt
    · split
      · exact hmark
      · have h2 := grows_visit_signature_children hV
          { ctx with in_function_body := ctx.in_function_body + 1 } n
        have g1 : Grows ctx { ctx with in_function_body := ctx.in_function_body + 1 } :=
          Grows.of_eq rfl rfl rfl
        have g3 : Grows
            (visit_signature_children V
              { ctx with in_function_body := ctx.in_function_body + 1 } n)
            { visit_signature_children V
                { ctx with in_function_body := ctx.in_function_body + 1 } n with
              in_function_body := ctx.in_function_body } := Grows.of_eq rfl rfl rfl
        exact ⟨g1.trans (h2.1.trans g3), rfl⟩
  case arrow_function => exact grows_visit_signature_children hV ctx n
  case binary_expression =>
    unfold visit_binary_expression
    split
    · rename_i inner _
      simp only []
      have h1 := hV ctx inner
      have h2 := grows_push (V ctx inner).1 FLAG_BLANK inner.end_byte
        (ts_node_start_byte (find_actual_call (get_child_by_field n "right")))
      have h3 := (push_flags (V ctx inner).1 FLAG_BLANK inner.end_byte
        (ts_node_start_byte (find_actual_call (get_child_by_field n "right")))).2.2.1
      unfold visit_opt
      split
      · exact ⟨h1.1.trans h2, h3.trans h1.2⟩
      · have h4 := hV (blank_range (V ctx inner).1 inner.end_byte
          (ts_node_start_byte (find_actual_call (get_child_by_field n "right")))).1
        rename_i m _
        exact ⟨h1.1.trans (h2.trans (h4 m).1), (h4 m).2.trans (h3.trans h1.2)⟩
    · exact hkids
  case class_declaration =>
    unfold visit_class_declaration
    refine grows_fold _ _ _ (fun c _ x => ?_)
    try simp only []
    split
    · exact grows_blank_node _ _
    · split
      · unfold visit_heritage
        refine grows_fold _ _ _ (fun d _ y => ?_)
        try simp only []
        split
        · exact grows_blank_node _ _
        · exact hV y d
      · exact hV x c
  case field_definition =>
    refine grows_fold _ _ _ (fun c _ x => ?_)
    try simp only []
    split
    · exact grows_blank_node _ _
    · exact hV x c
  case enum_declaration => exact hmark
  case module => exact hmark
  case internal_module => split <;> assumption
  case as_expression =>
    split
    · rename_i expr _
      have h1 := hV ctx expr
      split
      · exact ⟨h1.1.trans (grows_push _ _ _ _), ((push_flags _ _ _ _).2.2.1).trans h1.2⟩
      · exact ⟨h1.1.trans (grows_push _ _ _ _), ((push_flags _ _ _ _).2.2.1).trans h1.2⟩
    · exact hsame
  case type_assertion => exact hmark
  case non_null_expression =>
    split
    · rename_i expr _
      have h1 := hV ctx expr
      exact ⟨h1.1.trans (grows_push _ _ _ _), ((push_flags _ _ _ _).2.2.1).trans h1.2⟩
    · exact ⟨grows_push _ _ _ _, (push_flags _ _ _ _).2.2.1⟩
  case call_expression =>
    refine grows_fold _ _ _ (fun c _ x => ?_)
    try simp only []
    split
    · exact grows_blank_node _ _
    · exact hV x c
  case type_node => exact grows_blank_node _ _
  case other => exact hkids

theorem grows_visit_node_fuel (fuel : Nat) : GrowsSpec (visit_node_fuel fuel) := by
  induction fuel with
  | zero => exact fun ctx _ => ⟨Grows.refl ctx, rfl⟩
  | succ f ih => exact grows_visit_node_body ih

/-- A visit only appends edits and log entries, never clears the
Unsupported flag, and returns with the function-body depth it started with. -/
theorem grows_visit_node : GrowsSpec visit_node :=
  fun ctx n => grows_visit_node_fuel (n.height + 1) ctx n

/-- The loop over the top-level statements only appends edits and log
entries and never clears the Unsupported flag. -/
theorem grows_visit_top_level (ctx : parse_ctx_t) (root : TSNode) :
    Grows ctx (visit_top_level ctx root) := by
  unfold visit_top_level
  refine (grows_fold _ root.children ctx (fun c _ x => ?_)).1
  have := grows_visit_node { x with parent_statement := some c } c
  try simp only []
  have g1 : Grows x { x with parent_statement := some c } := Grows.of_eq rfl rfl rfl
  split
  · have g3 : Grows (visit_node { x with parent_statement := some c } c).1
        { (visit_node { x with parent_statement := some c } c).1 with seen_js := true } :=
      Grows.of_eq rfl rfl rfl
    exact ⟨g1.trans (this.1.trans g3), this.2⟩
  · exact ⟨g1.trans this.1, this.2⟩

/-! ## The nodes a visit reaches -/

theorem mem_of_index {α : Type} (l : List α) (i : Nat) (a : α) (h : l[i]? = some a) : a ∈ l :=
  List.getElem?_mem h


theorem lasting_fold (P : parse_ctx_t → Prop) (hP : Lasting P)
    (step : parse_ctx_t → TSNode → parse_ctx_t) (cs : List TSNode) (c : TSNode) (hc : c ∈ cs)
    (hafter : ∀ d ∈ cs, ∀ x, After x (step x d))
    (hat : ∀ x, P (step x c)) (ctx : parse_ctx_t) : P (cs.foldl step ctx) := by
  have keep : ∀ (ds : List TSNode) (x : parse_ctx_t),
      (∀ d ∈ ds, ∀ y, After y (step y d)) → P x →
      P (ds.foldl step x) := by
    intro ds
    induction ds with
    | nil => intro x _ hx; exact hx
    | cons d ds ih =>
      intro x hds hx
      exact ih _ (fun e he => hds e (by simp [he]))
        (hP _ _ (hds d (by simp) x) hx)
  induction cs generalizing ctx with
  | nil => cases hc
  | cons d ds ih =>
    simp only [List.foldl_cons]
    rcases List.mem_cons.mp hc with h | h
    · subst h
      exact keep ds _ (fun e he => hafter e (by simp [he])) (hat ctx)
    · exact ih h (fun e he => hafter e (by simp [he])) _

theorem After.of {a b : parse_ctx_t} (g : Grows a b) (f : same_frame a b) : After a b :=
  ⟨g, f.1, f.2.2⟩

theorem After.next {a b c : parse_ctx_t} (h1 : After a b) (h2 : After b c) : After a c :=
  ⟨h1.1.trans h2.1, h2.2.1.trans h1.2.1, h2.2.2.trans h1.2.2⟩

theorem after_update {a b : parse_ctx_t} (h1 : b.ranges.data = a.ranges.data)
    (h2 : b.marked = a.marked) (h3 : b.has_unsupported = a.has_unsupported)
    (h4 : b.source = a.source) (h5 : b.allocator = a.allocator) : After a b :=
  ⟨Grows.of_eq h1 h2 h3, h4, h5⟩

theorem after_push (x : parse_ctx_t) (flag : range_flag) (s t : Nat) :
    After x (range_array_push x flag s t).1 :=
  After.of (grows_push x flag s t) (same_frame_push x flag s t)

theorem after_blank_node (x : parse_ctx_t) (c : TSNode) : After x (blank_node x c).1 :=
  After.of (grows_blank_node x c).1 (same_frame_blank_node x c)

theorem after_visit {V : Visitor} (hg : GrowsSpec V)
    (hf : ∀ ctx n, same_frame ctx (V ctx n).1) (x : parse_ctx_t) (c : TSNode) :
    After x (V x c).1 :=
  After.of (hg x c).1 (hf x c)

theorem reached_children (E : TSNode → parse_ctx_t → Prop) (hE : ∀ m, Lasting (E m))
    {V : Visitor} {R : TSNode → List TSNode} (hg : GrowsSpec V)
    (hf : ∀ ctx n, same_frame ctx (V ctx n).1)
    (hR : ∀ ctx n m, m ∈ R n → E m (V ctx n).1) (ctx : parse_ctx_t) (n m : TSNode)
    (hm : m ∈ n.children.flatMap R) : E m (visit_children V ctx n).1 := by
  obtain ⟨c, hc, hmc⟩ := List.mem_flatMap.mp hm
  unfold visit_children
  refine lasting_fold (E m) (hE m) _ _ c hc (fun d _ x => ?_) (fun x => ?_) ctx
  · have := after_visit hg hf x d
    simp only []
    split
    · exact this.next (after_update rfl rfl rfl rfl rfl)
    · exact this
  · have := hR x c m hmc
    simp only []
    split
    · refine hE m _ _ ?_ this
      exact after_update rfl rfl rfl rfl rfl
    · exact this

theorem reached_signature (E : TSNode → parse_ctx_t → Prop) (hE : ∀ m, Lasting (E m))
    {V : Visitor} {R : TSNode → List TSNode} (hg : GrowsSpec V)
    (hf : ∀ ctx n, same_frame ctx (V ctx n).1)
    (hR : ∀ ctx n m, m ∈ R n → E m (V ctx n).1) (ctx : parse_ctx_t) (n m : TSNode)
    (hm : m ∈ visited_signature R n) : E m (visit_signature_children V ctx n) := by
  unfold visited_signature at hm
  obtain ⟨c, hc, hmc⟩ := List.mem_flatMap.mp hm
  unfold visit_signature_children
  refine lasting_fold (E m) (hE m) _ _ c hc (fun d _ x => ?_) (fun x => ?_) ctx
  · split
    · exact after_blank_node _ _
    · split
      · exact After.of (grows_visit_formal_parameters hg x d).1
          (same_frame_visit_formal_parameters hf x d)
      · exact after_visit hg hf x d
  · split at hmc
    · cases hmc
    · rename_i h1
      rw [if_neg h1]
      split at hmc
      · rename_i h2
        rw [if_pos h2]
        obtain ⟨p, hp, hmp⟩ := List.mem_flatMap.mp hmc
        obtain ⟨g, hgm, hmg⟩ := List.mem_flatMap.mp hmp
        unfold visit_formal_parameters
        refine lasting_fold (E m) (hE m) _ _ p hp (fun d _ y => ?_) (fun y => ?_) x
        · unfold visit_parameter
          refine After.of (grows_fold _ _ _ (fun e _ z => ?_)).1
            (same_frame_fold _ _ _ (fun e _ z => ?_))
          · split
            · exact grows_blank_node _ _
            · exact hg z e
          · split
            · exact same_frame_blank_node _ _
            · exact hf z e
        · unfold visit_parameter
          refine lasting_fold (E m) (hE m) _ _ g hgm (fun e _ z => ?_) (fun z => ?_) y
          · split
            · exact after_blank_node _ _
            · exact after_visit hg hf z e
          · split at hmg
            · cases hmg
            · rename_i h3
              rw [if_neg h3]
              exact hR z g m hmg
      · rename_i h2
        rw [if_neg h2]
        exact hR x c m hmc

/-- Every node the body of `visit_node` reaches has the effect `E` that
its own visit has, when `E` is a lasting property and the recursive calls
reach the nodes `R` lists. -/
theorem reached_body (E : TSNode → parse_ctx_t → Prop) (hE : ∀ m, Lasting (E m))
    {V : Visitor} {R : TSNode → List TSNode} (hg : GrowsSpec V)
    (hf : ∀ ctx n, same_frame ctx (V ctx n).1)
    (hR : ∀ ctx n m, m ∈ R n → E m (V ctx n).1)
    (hself : ∀ ctx n, E n (visit_node_body V ctx n).1) (ctx : parse_ctx_t) (n m : TSNode)
    (hm : m ∈ visited_body R n) : E m (visit_node_body V ctx n).1 := by
  unfold visited_body at hm
  rcases List.mem_cons.mp hm with rfl | hm
  · exact hself ctx m
  · have hkids := reached_children E hE hg hf hR ctx n m
    unfold visit_node_body
    cases hk : classify n.type <;> rw [hk] at hm <;> simp only [] at hm ⊢ <;>
      first
        | cases hm
        | exact hkids hm
        | skip
    case export_statement =>
      split at hm
      · cases hm
      · rename_i h1
        rw [if_neg h1]
        split at hm
        · cases hm
        · rename_i h2
          rw [if_neg h2]
          exact hkids hm
    case variable_declarator =>
      obtain ⟨c, hc, hmc⟩ := List.mem_flatMap.mp hm
      refine lasting_fold (E m) (hE m) _ _ c hc (fun d _ x => ?_) (fun x => ?_) ctx
      · split
        · exact After.of (grows_blank_type_anno _ _).1 (same_frame_blank_type_anno _ _)
        · split
          · exact after_blank_node _ _
          · exact after_visit hg hf x d
      · split at hmc
        · cases hmc
        · rename_i h1
          rw [if_neg h1]
          split at hmc
          · cases hmc
          · rename_i h2
            rw [if_neg h2]
            exact hR x c m hmc
    case function_like =>
      unfold visit_function_like
      split at hm
      · cases hm
      · rename_i b hb
        split at hm
        · cases hm
        · rename_i h1
          rw [if_neg h1]
          have := reached_signature E hE hg hf hR
            { ctx with in_function_body := ctx.in_function_body + 1 } n m hm
          refine hE m _ _ ?_ this
          exact after_update rfl rfl rfl rfl rfl
    case arrow_function => exact reached_signature E hE hg hf hR ctx n m hm
    case binary_expression =>
      unfold visit_binary_expression
      split at hm
      · rename_i inner hinner
        simp only []
        rcases List.mem_append.mp hm with h1 | h1
        · have h2 := hR ctx inner m h1
          have h3 := grows_push (V ctx inner).1 FLAG_BLANK inner.end_byte
            (ts_node_start_byte (find_actual_call (get_child_by_field n "right")))
          have h4 := same_frame_push (V ctx inner).1 FLAG_BLANK inner.end_byte
            (ts_node_start_byte (find_actual_call (get_child_by_field n "right")))
          have h5 := hE m _ _ (After.of h3 h4) h2
          unfold visit_opt
          split
          · exact h5
          · rename_i c _
            exact hE m _ _ (after_visit hg hf _ c) h5
        · split at h1
          · rename_i c hc
            rw [hc]
            exact hR _ c m h1
          · cases h1
      · rename_i hnone
        exact hkids hm
    case class_declaration =>
      unfold visit_class_declaration
      obtain ⟨c, hc, hmc⟩ := List.mem_flatMap.mp hm
      refine lasting_fold (E m) (hE m) _ _ c hc (fun d _ x => ?_) (fun x => ?_) ctx
      · split
        · exact after_blank_node _ _
        · split
          · unfold visit_heritage
            refine After.of (grows_fold _ _ _ (fun e _ z => ?_)).1
              (same_frame_fold _ _ _ (fun e _ z => ?_))
            · split
              · exact grows_blank_node _ _
              · exact hg z e
            · split
              · exact same_frame_blank_node _ _
              · exact hf z e
          · exact after_visit hg hf x d
      · split at hmc
        · cases hmc
        · rename_i h1
          rw [if_neg h1]
          split at hmc
          · rename_i h2
            rw [if_pos h2]
            obtain ⟨g, hgm, hmg⟩ := List.mem_flatMap.mp hmc
            unfold visit_heritage
            refine lasting_fold (E m) (hE m) _ _ g hgm (fun e _ z => ?_) (fun z => ?_) x
            · split
              · exact after_blank_node _ _
              · exact after_visit hg hf z e
            · split at hmg
              · cases hmg
              · rename_i h3
                rw [if_neg h3]
                exact hR z g m hmg
          · rename_i h2
            rw [if_neg h2]
            exact hR x c m hmc
    case field_definition =>
      obtain ⟨c, hc, hmc⟩ := List.mem_flatMap.mp hm
      refine lasting_fold (E m) (hE m) _ _ c hc (fun d _ x => ?_) (fun x => ?_) ctx
      · split
        · exact after_blank_node _ _
        · exact after_visit hg hf x d
      · split at hmc
        · cases hmc
        · rename_i h1
          rw [if_neg h1]
          exact hR x c m hmc
    case as_expression =>
      split at hm
      · rename_i expr hexpr
        have h1 := hR ctx expr m hm
        split
        · exact hE m _ _ (after_push _ _ _ _) h1
        · exact hE m _ _ (after_push _ _ _ _) h1
      · cases hm
    case non_null_expression =>
      split at hm
      · rename_i expr hexpr
        have h1 := hR ctx expr m hm
        exact hE m _ _ (after_push _ _ _ _) h1
      · cases hm
    case call_expression =>
      obtain ⟨c, hc, hmc⟩ := List.mem_flatMap.mp hm
      refine lasting_fold (E m) (hE m) _ _ c hc (fun d _ x => ?_) (fun x => ?_) ctx
      · split
        · exact after_blank_node _ _
        · exact after_visit hg hf x d
      · split at hmc
        · cases hmc
        · rename_i h1
          rw [if_neg h1]
          exact hR x c m hmc

theorem reached_fuel (E : TSNode → parse_ctx_t → Prop) (hE : ∀ m, Lasting (E m))
    (hself : ∀ (V : Visitor), GrowsSpec V → (∀ ctx n, same_frame ctx (V ctx n).1) →
      ∀ ctx n, E n (visit_node_body V ctx n).1)
    (fuel : Nat) (ctx : parse_ctx_t) (n m : TSNode) (hm : m ∈ visited_fuel fuel n) :
    E m (visit_node_fuel fuel ctx n).1 := by
  induction fuel generalizing ctx n m with
  | zero => cases hm
  | succ f ih =>
    exact reached_body E hE (grows_visit_node_fuel f) (same_frame_visit_node_fuel f)
      (fun ctx2 n2 m2 h2 => ih ctx2 n2 m2 h2)
      (hself _ (grows_visit_node_fuel f) (same_frame_visit_node_fuel f)) ctx n m hm

/-- Every node the visitor reaches from `n` has, after the visit of `n`,
the lasting effect `E` that its own visit has. -/
theorem reached_visit (E : TSNode → parse_ctx_t → Prop) (hE : ∀ m, Lasting (E m))
    (hself : ∀ (V : Visitor), GrowsSpec V → (∀ ctx n, same_frame ctx (V ctx n).1) →
      ∀ ctx n, E n (visit_node_body V ctx n).1)
    (ctx : parse_ctx_t) (n m : TSNode) (hm : m ∈ visited n) : E m (visit_node ctx n).1 :=
  reached_fuel E hE hself (n.height + 1) ctx n m hm

/-- Every node the visitor reaches from a top-level statement has, after
the loop over the top-level statements, the lasting effect `E` that its own
visit has. -/
theorem reached_top_level (E : TSNode → parse_ctx_t → Prop) (hE : ∀ m, Lasting (E m))
    (hself : ∀ (V : Visitor), GrowsSpec V → (∀ ctx n, same_frame ctx (V ctx n).1) →
      ∀ ctx n, E n (visit_node_body V ctx n).1)
    (ctx : parse_ctx_t) (root c m : TSNode) (hc : c ∈ root.children) (hm : m ∈ visited c) :
    E m (visit_top_level ctx root) := by
  unfold visit_top_level
  refine lasting_fold (E m) (hE m) _ _ c hc (fun d _ x => ?_) (fun x => ?_) ctx
  · have h1 : After x { x with parent_statement := some d } :=
      after_update rfl rfl rfl rfl rfl
    have h2 := After.of (grows_visit_node { x with parent_statement := some d } d).1
      (same_frame_visit_node { x with parent_statement := some d } d)
    simp only []
    split
    · exact (h1.next h2).next (after_update rfl rfl rfl rfl rfl)
    · exact h1.next h2
  · have := reached_visit E hE hself { x with parent_statement := some c } c m hm
    simp only []
    split
    · refine hE m _ _ ?_ this
      exact after_update rfl rfl rfl rfl rfl
    · exact this

/-! ## Trees without erasable syntax are left alone -/

theorem fold_unchanged {β : Type} (proj : parse_ctx_t → β)
    (step : parse_ctx_t → TSNode → parse_ctx_t) (cs : List TSNode) (ctx : parse_ctx_t)
    (h : ∀ c ∈ cs, ∀ x, proj (step x c) = proj x) : proj (cs.foldl step ctx) = proj ctx := by
  induction cs generalizing ctx with
  | nil => rfl
  | cons c cs ih =>
    simp only [List.foldl_cons]
    rw [ih _ (fun d hd => h d (by simp [hd])), h c (by simp)]

/-- The part of the traversal state that recording an edit can change. -/
theorem quiet_visit_children {V : Visitor} {Q : TSNode → Bool}
    (hV : ∀ ctx n, Q n = true → ((V ctx n).1.ranges, (V ctx n).1.requests) =
      (ctx.ranges, ctx.requests))
    (ctx : parse_ctx_t) (n : TSNode) (h : n.children.all Q = true) :
    ((visit_children V ctx n).1.ranges, (visit_children V ctx n).1.requests) =
      (ctx.ranges, ctx.requests) := by
  unfold visit_children
  rw [List.all_eq_true] at h
  refine fold_unchanged (fun x => (x.ranges, x.requests)) _ _ _ (fun c hc x => ?_)
  have := hV x c (h c hc)
  try simp only []
  split
  · exact this
  · exact this

theorem quiet_visit_signature_children {V : Visitor} {Q : TSNode → Bool}
    (hV : ∀ ctx n, Q n = true → ((V ctx n).1.ranges, (V ctx n).1.requests) =
      (ctx.ranges, ctx.requests))
    (ctx : parse_ctx_t) (n : TSNode) (h : quiet_signature Q n = true) :
    ((visit_signature_children V ctx n).ranges, (visit_signature_children V ctx n).requests) =
      (ctx.ranges, ctx.requests) := by
  unfold visit_signature_children
  unfold quiet_signature at h
  rw [List.all_eq_true] at h
  refine fold_unchanged (fun x => (x.ranges, x.requests)) _ _ _ (fun c hc x => ?_)
  have hc2 := h c hc
  try simp only []
  split
  · rename_i h1
    rw [if_pos h1] at hc2
    cases hc2
  · rename_i h1
    rw [if_neg h1] at hc2
    split
    · rename_i h2
      rw [if_pos h2, List.all_eq_true] at hc2
      unfold visit_formal_parameters
      refine fold_unchanged (fun x => (x.ranges, x.requests)) _ _ _ (fun p hp y => ?_)
      have hp2 := hc2 p hp
      rw [List.all_eq_true] at hp2
      unfold visit_parameter
      refine fold_unchanged (fun x => (x.ranges, x.requests)) _ _ _ (fun g hg z => ?_)
      have hg2 := hp2 g hg
      simp only [Bool.and_eq_true, Bool.not_eq_true'] at hg2
      try simp only []
      rw [if_neg (by simp [hg2.1])]
      exact hV z g hg2.2
    · rename_i h2
      rw [if_neg h2] at hc2
      exact hV x c hc2

theorem quiet_visit_node_body {V : Visitor} {Q : TSNode → Bool}
    (hV : ∀ ctx n, Q n = true → ((V ctx n).1.ranges, (V ctx n).1.requests) =
      (ctx.ranges, ctx.requests))
    (ctx : parse_ctx_t) (n : TSNode) (h : quiet_body Q n = true) :
    ((visit_node_body V ctx n).1.ranges, (visit_node_body V ctx n).1.requests) =
      (ctx.ranges, ctx.requests) := by
  unfold quiet_body at h
  unfold visit_node_body
  cases hk : classify n.type <;> rw [hk] at h <;> simp only [] at h ⊢ <;>
    first
      | rfl
      | cases h
      | skip
  case ambient_declaration => rw [if_pos h]; rfl
  case import_statement =>
    split
    · rfl
    · rename_i h1
      simp only [h1, Bool.false_or, Bool.not_eq_true'] at h
      rw [if_neg (by simp [h])]
  case export_statement =>
    simp only [Bool.and_eq_true, Bool.not_eq_true', Bool.or_eq_true] at h
    rw [if_neg (by simp [h.1])]
    split
    · rfl
    · rename_i h1
      rcases h.2 with h2 | h2
      · exact absurd h2 h1
      · exact quiet_visit_children hV ctx n h2
  case variable_declarator =>
    rw [List.all_eq_true] at h
    refine fold_unchanged (fun x => (x.ranges, x.requests)) _ _ _ (fun c hc x => ?_)
    have hc2 := h c hc
    simp only [Bool.and_eq_true, Bool.not_eq_true', Bool.or_eq_false_iff] at hc2
    try simp only []
    rw [if_neg (by simp [hc2.1.1]), if_neg (by simp [hc2.1.2])]
    exact hV x c hc2.2
  case declaration_list => exact quiet_visit_children hV ctx n h
  case function_like =>
    simp only [Bool.and_eq_true, Bool.or_eq_true] at h
    unfold visit_function_like
    split
    · rename_i h1
      simp [h1] at h
    · split
      · rfl
      · rename_i h2
        rcases h.2 with h3 | h3
        · exact absurd h3 h2
        · exact quiet_visit_signature_children hV _ n h3
  case arrow_function => exact quiet_visit_signature_children hV ctx n h
  case binary_expression =>
    simp only [Bool.and_eq_true, Option.isNone_iff_eq_none] at h
    unfold visit_binary_expression
    rw [h.1]
    exact quiet_visit_children hV ctx n h.2
  case class_declaration =>
    rw [List.all_eq_true] at h
    unfold visit_class_declaration
    refine fold_unchanged (fun x => (x.ranges, x.requests)) _ _ _ (fun c hc x => ?_)
    have hc2 := h c hc
    try simp only []
    split
    · rename_i h1
      rw [if_pos h1] at hc2
      cases hc2
    · rename_i h1
      rw [if_neg h1] at hc2
      split
      · rename_i h2
        rw [if_pos h2, List.all_eq_true] at hc2
        unfold visit_heritage
        refine fold_unchanged (fun x => (x.ranges, x.requests)) _ _ _ (fun g hg z => ?_)
        have hg2 := hc2 g hg
        simp only [Bool.and_eq_true, Bool.not_eq_true'] at hg2
        try simp only []
        rw [if_neg (by simp [hg2.1])]
        exact hV z g hg2.2
      · rename_i h2
        rw [if_neg h2] at hc2
        exact hV x c hc2
  case field_definition =>
    rw [List.all_eq_true] at h
    refine fold_unchanged (fun x => (x.ranges, x.requests)) _ _ _ (fun c hc x => ?_)
    have hc2 := h c hc
    simp only [Bool.and_eq_true, Bool.not_eq_true'] at hc2
    try simp only []
    rw [if_neg (by simp [hc2.1])]
    exact hV x c hc2.2
  case internal_module => rw [if_pos h]; rfl
  case as_expression =>
    simp only [Option.isNone_iff_eq_none] at h
    rw [h]
  case call_expression =>
    rw [List.all_eq_true] at h
    refine fold_unchanged (fun x => (x.ranges, x.requests)) _ _ _ (fun c hc x => ?_)
    have hc2 := h c hc
    simp only [Bool.and_eq_true, Bool.not_eq_true'] at hc2
    try simp only []
    rw [if_neg (by simp [hc2.1])]
    exact hV x c hc2.2
  case other => exact quiet_visit_children hV ctx n h

theorem quiet_visit_node_fuel (fuel : Nat) (ctx : parse_ctx_t) (n : TSNode)
    (h : quiet_fuel fuel n = true) :
    ((visit_node_fuel fuel ctx n).1.ranges, (visit_node_fuel fuel ctx n).1.requests) =
      (ctx.ranges, ctx.requests) := by
  induction fuel generalizing ctx n with
  | zero => rfl
  | succ f ih => exact quiet_visit_node_body (fun ctx2 m hm => ih ctx2 m hm) ctx n h

/-- Visiting a tree without erasable syntax records no edit and makes no
allocator request. -/
theorem erasure_free_visit (ctx : parse_ctx_t) (n : TSNode) (h : erasure_free n = true) :
    (visit_node ctx n).1.ranges = ctx.ranges ∧ (visit_node ctx n).1.requests = ctx.requests := by
  have := quiet_visit_node_fuel (n.height + 1) ctx n h
  exact ⟨congrArg Prod.fst this, congrArg Prod.snd this⟩

theorem flag_fold (step : parse_ctx_t → TSNode → parse_ctx_t) (cs : List TSNode)
    (ctx : parse_ctx_t) (n : TSNode) (hn : n ∈ cs)
    (hset : ∀ x, (step x n).has_unsupported = true)
    (hkeep : ∀ c ∈ cs, ∀ x, x.has_unsupported = true → (step x c).has_unsupported = true) :
    (cs.foldl step ctx).has_unsupported = true := by
  have keep : ∀ (ds : List TSNode) (x : parse_ctx_t),
      (∀ c ∈ ds, ∀ y, y.has_unsupported = true → (step y c).has_unsupported = true) →
      x.has_unsupported = true → (ds.foldl step x).has_unsupported = true := by
    intro ds
    induction ds with
    | nil => intro x _ hx; exact hx
    | cons d ds ih =>
      intro x hds hx
      exact ih _ (fun c hc => hds c (by simp [hc])) (hds d (by simp) x hx)
  induction cs generalizing ctx with
  | nil => cases hn
  | cons c cs ih =>
    simp only [List.foldl_cons]
    rcases List.mem_cons.mp hn with h | h
    · subst h
      exact keep cs _ (fun d hd => hkeep d (by simp [hd])) (hset ctx)
    · exact ih _ h (fun d hd => hkeep d (by simp [hd]))

theorem classify_non_erasable {type : String} (h : is_non_erasable type) :
    classify type = node_kind.enum_declaration ∨ classify type = node_kind.module ∨
      classify type = node_kind.type_assertion := by
  rcases h with h | h | h <;> subst h
  · exact Or.inl (by decide)
  · exact Or.inr (Or.inl (by decide))
  · exact Or.inr (Or.inr (by decide))

/-- The traversal of a tree whose top-level statements have no erasable
syntax records nothing and asks the allocator for nothing. -/
theorem erasure_free_top_level (ctx : parse_ctx_t) (root : TSNode)
    (h : ∀ c ∈ root.children, erasure_free c = true) :
    (visit_top_level ctx root).source = ctx.source ∧
    (visit_top_level ctx root).allocator = ctx.allocator ∧
    (visit_top_level ctx root).ranges = ctx.ranges ∧
    (visit_top_level ctx root).requests = ctx.requests := by
  have key : (fun x : parse_ctx_t => (x.source, x.allocator, x.ranges, x.requests))
      (visit_top_level ctx root) =
      (fun x : parse_ctx_t => (x.source, x.allocator, x.ranges, x.requests)) ctx := by
    unfold visit_top_level
    refine fold_unchanged (fun x : parse_ctx_t => (x.source, x.allocator, x.ranges, x.requests))
      _ _ _ (fun c hc x => ?_)
    have h1 := same_frame_visit_node { x with parent_statement := some c } c
    have h2 := erasure_free_visit { x with parent_statement := some c } c (h c hc)
    have h3 : (fun y : parse_ctx_t => (y.source, y.allocator, y.ranges, y.requests))
        (visit_node { x with parent_statement := some c } c).1 =
        (x.source, x.allocator, x.ranges, x.requests) := by
      simp only [h1.1, h1.2.2, h2.1, h2.2]
    try simp only []
    split
    · exact h3
    · exact h3
  simp only [Prod.mk.injEq] at key
  exact key

/-- C18. Non-erasable declarations are reported and untouched: visiting a
node of type `enum_declaration`, `module` or `type_assertion` sets the
Unsupported flag, leaves the edit list as it was, returns without visiting any
child (the result is the state with the flag set, whatever the children are)
and reports runtime JavaScript; and when the visitor reaches such a node from
a top-level statement (`visited`: at top level or nested, as a type assertion
is), in a non-empty source whose statements have no erasable syntax, and the
allocator grants the two requests made, the status is Unsupported and the
output is the input. -/
theorem non_erasable_reported (ctx : parse_ctx_t) (n : TSNode)
    (hty : is_non_erasable n.type) :
    visit_node ctx n = (mark_unsupported ctx n, VISITED_JS) ∧
    (mark_unsupported ctx n).has_unsupported = true ∧
    (mark_unsupported ctx n).ranges = ctx.ranges ∧
    ∀ (alloc : ts_strip_allocator_t) (requests : Nat) (parse : List Nat → Option TSNode)
      (src : List Nat) (root : TSNode),
      src ≠ [] → parse src = some root →
      alloc.grants requests = true → alloc.grants (requests + 1) = true →
      (∀ c ∈ root.children, erasure_free c = true) →
      (∃ c ∈ root.children, n ∈ visited c) →
      ts_strip_with_ctx alloc requests parse (some src) =
        (TS_STRIP_ERROR_UNSUPPORTED, some src) := by
  have hk := classify_non_erasable hty
  have hvisit : ∀ x, visit_node x n = (mark_unsupported x n, VISITED_JS) := fun x =>
    visit_node_unsupported_kind x n (Or.inr hk)
  refine ⟨hvisit ctx, rfl, rfl, ?_⟩
  intro alloc requests parse src root hne hp hg0 hg1 hfree hn
  obtain ⟨c, hc, hnc⟩ := hn
  have hlen : ¬ src.length = 0 := fun h => hne (List.length_eq_zero.mp h)
  obtain ⟨hsrc, halloc, hranges, hreq⟩ :=
    erasure_free_top_level (initial_ctx alloc (requests + 1) src) root hfree
  have hflag : (visit_top_level (initial_ctx alloc (requests + 1) src) root).has_unsupported
      = true := by
    refine reached_top_level
      (fun m x => is_non_erasable m.type → x.has_unsupported = true)
      (fun m a b hab h hm => hab.1.flag (h hm)) ?_ _ root c n hc hnc hty
    intro V _ _ x m hm
    have hkm := classify_non_erasable hm
    unfold visit_node_body
    rcases hkm with h | h | h <;> rw [h] <;> rfl
  unfold ts_strip_with_ctx
  simp only [if_neg hlen, hp, if_pos hg0]
  have hb : build_output (visit_top_level (initial_ctx alloc (requests + 1) src) root) =
      some src := by
    unfold build_output
    rw [halloc, hreq, hsrc, hranges]
    show (if alloc.grants (requests + 1) = true then some (replay src []) else none) = some src
    rw [if_pos hg1]
    rfl
  rw [hb]
  simp only [hflag, if_true]

/-- Instance of `non_erasable_reported`: scenario C, an enum declaration at
top level, and the prefix type assertion of `let x = <string>"test";`, the
sixth node the visitor reaches from the declaration that holds it. -/
theorem non_erasable_reported_witness :
    visit_node (initial_ctx default_alloc 1 src_enum_color) node_enum_color =
      (mark_unsupported (initial_ctx default_alloc 1 src_enum_color) node_enum_color,
        VISITED_JS) ∧
    ts_strip_with_ctx default_alloc 0 (fun _ => some tree_enum_color) (some src_enum_color) =
      (TS_STRIP_ERROR_UNSUPPORTED, some src_enum_color) ∧
    ts_strip_with_ctx default_alloc 0 (fun _ => some tree_type_assertion)
      (some src_type_assertion) = (TS_STRIP_ERROR_UNSUPPORTED, some src_type_assertion) :=
  ⟨(non_erasable_reported (initial_ctx default_alloc 1 src_enum_color) node_enum_color
      (Or.inl rfl)).1,
   (non_erasable_reported (initial_ctx default_alloc 1 src_enum_color) node_enum_color
      (Or.inl rfl)).2.2.2
      default_alloc 0 (fun _ => some tree_enum_color) src_enum_color tree_enum_color
      (by decide) rfl rfl rfl (by decide)
      ⟨node_enum_color, List.mem_singleton.mpr rfl, mem_of_index _ 0 _ rfl⟩,
   (non_erasable_reported (initial_ctx default_alloc 1 src_type_assertion) node_type_assertion
      (Or.inr (Or.inr rfl))).2.2.2
      default_alloc 0 (fun _ => some tree_type_assertion) src_type_assertion
      tree_type_assertion (by decide) rfl rfl rfl (by decide)
      ⟨node_let_assertion, List.mem_singleton.mpr rfl, mem_of_index _ 5 _ rfl⟩⟩

set_option maxRecDepth 100000 in
/-- C15: the source of 43 statements `type T=0;` needs 43 edits, one more than
the initial capacity holds. When the allocator refuses the request that grows
the edit list for the 43rd edit, `range_array_push` returns false, and the
status is still Success: the output is the one in which that edit is missing,
the first 42 statements blank and the last one left as it was. With an
allocator that grants every request the whole output is blank. -/
theorem refused_growth_not_fatal :
    (range_array_push
      (visit_top_level (initial_ctx refuse_second 1 src_many_aliases)
        (.mk "program" none 0 378 ((List.range 42).map (fun i => node_alias_at (9 * i)))))
      FLAG_BLANK 378 387).2 = false ∧
    ts_strip_with_ctx refuse_second 0 (fun _ => some tree_many_aliases)
      (some src_many_aliases) =
        (TS_STRIP_SUCCESS, some (List.replicate 378 32 ++ ascii "type T=0;")) ∧
    ts_strip_with_ctx default_alloc 0 (fun _ => some tree_many_aliases)
      (some src_many_aliases) = (TS_STRIP_SUCCESS, some (List.replicate 387 32)) := by
  refine ⟨?_, ?_, ?_⟩ <;> decide

/-! ## Statements reported as Unsupported -/

theorem visit_node_export (ctx : parse_ctx_t) (n : TSNode)
    (hk : classify n.type = node_kind.export_statement) :
    visit_node ctx n =
      if (find_child_type n "type").isSome then ((blank_stmt ctx n).1, VISIT_BLANKED)
      else if (find_child_type n "=").isSome then (mark_unsupported ctx n, VISITED_JS)
      else ((visit_children visit_node ctx n).1, VISITED_JS) := by
  rw [visit_node_eq]
  unfold visit_node_body
  rw [hk]

/-- A top-level statement at which the visit always sets the Unsupported
flag, in a source whose top-level statements have no erasable syntax: the
status is Unsupported and the output is the input. -/
theorem unsupported_top_level (alloc : ts_strip_allocator_t) (requests : Nat)
    (parse : List Nat → Option TSNode) (src : List Nat) (root n : TSNode)
    (hne : src ≠ []) (hp : parse src = some root)
    (hg0 : alloc.grants requests = true) (hg1 : alloc.grants (requests + 1) = true)
    (hfree : ∀ c ∈ root.children, erasure_free c = true) (hn : n ∈ root.children)
    (hvisit : ∀ x, (visit_node x n).1.has_unsupported = true) :
    ts_strip_with_ctx alloc requests parse (some src) =
      (TS_STRIP_ERROR_UNSUPPORTED, some src) := by
  have hlen : ¬ src.length = 0 := fun h => hne (List.length_eq_zero.mp h)
  obtain ⟨hsrc, halloc, hranges, hreq⟩ :=
    erasure_free_top_level (initial_ctx alloc (requests + 1) src) root hfree
  have hflag : (visit_top_level (initial_ctx alloc (requests + 1) src) root).has_unsupported
      = true := by
    unfold visit_top_level
    refine flag_fold _ _ _ n hn (fun x => ?_) (fun c _ x hx => ?_)
    · have := hvisit { x with parent_statement := some n }
      try simp only []
      split
      · exact this
      · exact this
    · have := (grows_visit_node { x with parent_statement := some c } c).1.flag hx
      try simp only []
      split
      · exact this
      · exact this
  unfold ts_strip_with_ctx
  simp only [if_neg hlen, hp, if_pos hg0]
  have hb : build_output (visit_top_level (initial_ctx alloc (requests + 1) src) root) =
      some src := by
    unfold build_output
    rw [halloc, hreq, hsrc, hranges]
    show (if alloc.grants (requests + 1) = true then some (replay src []) else none) = some src
    rw [if_pos hg1]
    rfl
  rw [hb]
  simp only [hflag, if_true]

/-- C21. CommonJS interop is reported: for an `import_statement` with a
direct `import_require_clause` child, and for an `export_statement` with a
direct `=` child and no direct `type` child, the visit returns the state with
the Unsupported flag set and nothing else changed (no edit, no child visited)
and reports runtime JavaScript; and when such a statement is a top-level
statement of a non-empty source whose statements have no erasable syntax, and
the allocator grants the two requests made, the status is Unsupported and the
output is the input. -/
theorem commonjs_interop_reported (ctx : parse_ctx_t) (n : TSNode)
    (h : (n.type = "import_statement" ∧
          (find_child_type n "import_require_clause").isSome = true) ∨
        (n.type = "export_statement" ∧ (find_child_type n "=").isSome = true ∧
          (find_child_type n "type").isSome = false)) :
    visit_node ctx n = (mark_unsupported ctx n, VISITED_JS) ∧
    (mark_unsupported ctx n).has_unsupported = true ∧
    (mark_unsupported ctx n).ranges = ctx.ranges ∧
    ∀ (alloc : ts_strip_allocator_t) (requests : Nat) (parse : List Nat → Option TSNode)
      (src : List Nat) (root : TSNode),
      src ≠ [] → parse src = some root →
      alloc.grants requests = true → alloc.grants (requests + 1) = true →
      (∀ c ∈ root.children, erasure_free c = true) → n ∈ root.children →
      ts_strip_with_ctx alloc requests parse (some src) =
        (TS_STRIP_ERROR_UNSUPPORTED, some src) := by
  have hvisit : ∀ x, visit_node x n = (mark_unsupported x n, VISITED_JS) := by
    intro x
    rcases h with ⟨hty, hreq⟩ | ⟨hty, heq, htype⟩
    · have hk : classify n.type = node_kind.import_statement := by rw [hty]; decide
      rw [visit_node_import x n hk, if_pos hreq]
    · have hk : classify n.type = node_kind.export_statement := by rw [hty]; decide
      rw [visit_node_export x n hk, if_neg (by simp [htype]), if_pos heq]
  refine ⟨hvisit ctx, rfl, rfl, ?_⟩
  intro alloc requests parse src root hne hp hg0 hg1 hfree hn
  refine unsupported_top_level alloc requests parse src root n hne hp hg0 hg1 hfree hn
    (fun x => ?_)
  rw [hvisit x]
  rfl

/-- Instance of `commonjs_interop_reported`: the two sources of the suite,
`import lib = require("");` and `export = 1;`, are Unsupported and come out
unchanged. -/
theorem commonjs_interop_reported_witness :
    ts_strip_with_ctx default_alloc 0 (fun _ => some tree_import_require)
        (some src_import_require) = (TS_STRIP_ERROR_UNSUPPORTED, some src_import_require) ∧
    ts_strip_with_ctx default_alloc 0 (fun _ => some tree_export_assignment)
        (some src_export_assignment) =
      (TS_STRIP_ERROR_UNSUPPORTED, some src_export_assignment) :=
  ⟨(commonjs_interop_reported (initial_ctx default_alloc 1 src_import_require)
      node_import_require (Or.inl ⟨rfl, rfl⟩)).2.2.2
      default_alloc 0 (fun _ => some tree_import_require) src_import_require
      tree_import_require (by decide) rfl rfl rfl (by decide) (List.mem_singleton.mpr rfl),
   (commonjs_interop_reported (initial_ctx default_alloc 1 src_export_assignment)
      node_export_assignment (Or.inr ⟨rfl, rfl, rfl⟩)).2.2.2
      default_alloc 0 (fun _ => some tree_export_assignment) src_export_assignment
      tree_export_assignment (by decide) rfl rfl rfl (by decide) (List.mem_singleton.mpr rfl)⟩

/-- C22. An `ERROR` node reached by the traversal is reported: for every
state and every node of type `ERROR`, whatever its children are, the visit
returns the state with the Unsupported flag set and nothing else changed (no
edit, no child visited) and reports runtime JavaScript; and when the node is
a top-level statement of a non-empty source whose statements have no erasable
syntax, and the allocator grants the two requests made, the status is
Unsupported and the output is the input. -/
theorem error_node_reported (ctx : parse_ctx_t) (n : TSNode) (hty : n.type = "ERROR") :
    visit_node ctx n = (mark_unsupported ctx n, VISITED_JS) ∧
    (mark_unsupported ctx n).has_unsupported = true ∧
    (mark_unsupported ctx n).ranges = ctx.ranges ∧
    (mark_unsupported ctx n).seen_js = ctx.seen_js ∧
    ∀ (alloc : ts_strip_allocator_t) (requests : Nat) (parse : List Nat → Option TSNode)
      (src : List Nat) (root : TSNode),
      src ≠ [] → parse src = some root →
      alloc.grants requests = true → alloc.grants (requests + 1) = true →
      (∀ c ∈ root.children, erasure_free c = true) → n ∈ root.children →
      ts_strip_with_ctx alloc requests parse (some src) =
        (TS_STRIP_ERROR_UNSUPPORTED, some src) := by
  have hk : classify n.type = node_kind.error := by rw [hty]; decide
  have hvisit : ∀ x, visit_node x n = (mark_unsupported x n, VISITED_JS) := fun x =>
    visit_node_unsupported_kind x n (Or.inl hk)
  refine ⟨hvisit ctx, rfl, rfl, rfl, ?_⟩
  intro alloc requests parse src root hne hp hg0 hg1 hfree hn
  refine unsupported_top_level alloc requests parse src root n hne hp hg0 hg1 hfree hn
    (fun x => ?_)
  rw [hvisit x]
  rfl

/-- Instance of `error_node_reported`: the visit of the `ERROR` node of
`let x = ;` marks it and records nothing, and the source is Unsupported and
comes out unchanged. -/
theorem error_node_reported_witness :
    visit_node (initial_ctx default_alloc 1 src_parse_error) node_parse_error =
      (mark_unsupported (initial_ctx default_alloc 1 src_parse_error) node_parse_error,
        VISITED_JS) ∧
    ts_strip_with_ctx default_alloc 0 (fun _ => some tree_parse_error)
        (some src_parse_error) = (TS_STRIP_ERROR_UNSUPPORTED, some src_parse_error) :=
  ⟨(error_node_reported (initial_ctx default_alloc 1 src_parse_error) node_parse_error
      rfl).1,
   (error_node_reported (initial_ctx default_alloc 1 src_parse_error) node_parse_error
      rfl).2.2.2.2
      default_alloc 0 (fun _ => some tree_parse_error) src_parse_error tree_parse_error
      (by decide) rfl rfl rfl (by decide) (List.mem_singleton.mpr rfl)⟩

/-! ## Whole-statement erasure of type declarations and signatures -/

theorem push_no_growth (ctx : parse_ctx_t) (flag : range_flag) (s t : Nat)
    (h : ctx.ranges.size + 3 ≤ ctx.ranges.capacity) :
    (range_array_push ctx flag s t).1 =
      { ctx with ranges := ⟨ctx.ranges.data ++ [⟨flag, s, t⟩], ctx.ranges.capacity⟩ } := by
  unfold range_array_push
  rw [if_neg (by omega)]

/-- The output for one plain blank over everything but a last newline. -/
theorem replay_blank_then_newline (decl : List Nat) :
    replay (decl ++ [10]) [⟨FLAG_BLANK, 0, decl.length⟩] = decl.map get_space_char ++ [10] := by
  unfold replay
  simp [build_step, blank_bytes, copy_bytes, FLAG_BLANK, FLAG_REPLACE_WITH_SEMI]

theorem map_get_space_char_plain (decl : List Nat) (h : ∀ b ∈ decl, b ≠ 10 ∧ b ≠ 13) :
    decl.map get_space_char = List.replicate decl.length 32 := by
  induction decl with
  | nil => rfl
  | cons b bs ih =>
    have hb := h b (by simp)
    simp only [List.map_cons, List.length_cons, List.replicate_succ]
    rw [ih (fun c hc => h c (by simp [hc]))]
    congr 1
    unfold get_space_char
    simp [hb.1, hb.2]

/-- C24, as amended. Type aliases and interfaces are erased whole: visiting
a `type_alias_declaration` or `interface_declaration` is the whole-statement
erasure of the node: no child is visited, the Unsupported flag and `seen_js`
are left as they were, the result is `VISIT_BLANKED`, and when the edit can be
recorded exactly one edit over the whole node is added; and a source that is
one such declaration followed by a newline yields Success with an output in
which every byte of the declaration is a space, except that a line break
inside the declaration is kept, followed by that newline: when the
declaration has no line break the output is spaces and the newline. -/
theorem type_declaration_erased (ctx : parse_ctx_t) (n : TSNode)
    (hty : n.type = "type_alias_declaration" ∨ n.type = "interface_declaration") :
    visit_node ctx n = ((blank_stmt ctx n).1, VISIT_BLANKED) ∧
    (blank_stmt ctx n).1.has_unsupported = ctx.has_unsupported ∧
    (blank_stmt ctx n).1.seen_js = ctx.seen_js ∧
    (can_record ctx → (blank_stmt ctx n).1.ranges.data = ctx.ranges.data ++
      [⟨if ctx.seen_js = true ∧ ctx.in_function_body = 0 then FLAG_REPLACE_WITH_SEMI
        else FLAG_BLANK, n.start_byte, n.end_byte⟩]) ∧
    ∀ (alloc : ts_strip_allocator_t) (requests : Nat) (parse : List Nat → Option TSNode)
      (decl : List Nat) (root : TSNode),
      parse (decl ++ [10]) = some root → root.children = [n] →
      n.start_byte = 0 → n.end_byte = decl.length →
      alloc.grants requests = true → alloc.grants (requests + 1) = true →
      ts_strip_with_ctx alloc requests parse (some (decl ++ [10])) =
        (TS_STRIP_SUCCESS, some (decl.map get_space_char ++ [10])) ∧
      ((∀ b ∈ decl, b ≠ 10 ∧ b ≠ 13) →
        ts_strip_with_ctx alloc requests parse (some (decl ++ [10])) =
          (TS_STRIP_SUCCESS, some (List.replicate decl.length 32 ++ [10]))) := by
  have hk : classify n.type = node_kind.type_declaration := by
    rcases hty with h | h <;> rw [h] <;> decide
  have hvisit : ∀ x, visit_node x n = ((blank_stmt x n).1, VISIT_BLANKED) := by
    intro x
    rw [visit_node_eq]
    unfold visit_node_body
    rw [hk]
  refine ⟨hvisit ctx, (blank_stmt_flags ctx n).1, (blank_stmt_flags ctx n).2.2.2,
    fun hrec => blank_stmt_data ctx n hrec, ?_⟩
  intro alloc requests parse decl root hp hroot hstart hend hg0 hg1
  have hout : ts_strip_with_ctx alloc requests parse (some (decl ++ [10])) =
      (TS_STRIP_SUCCESS, some (decl.map get_space_char ++ [10])) := by
    unfold ts_strip_with_ctx
    have hlen : ¬ (decl ++ [10]).length = 0 := by simp
    simp only [if_neg hlen, hp, if_pos hg0]
    have hT : visit_top_level (initial_ctx alloc (requests + 1) (decl ++ [10])) root =
        { initial_ctx alloc (requests + 1) (decl ++ [10]) with
          parent_statement := some n,
          ranges := ⟨[⟨FLAG_BLANK, 0, decl.length⟩], initial_capacity⟩ } := by
      unfold visit_top_level
      rw [hroot]
      simp only [List.foldl_cons, List.foldl_nil, hvisit]
      rw [if_neg (by decide)]
      unfold blank_stmt
      rw [if_neg (by simp [initial_ctx])]
      unfold blank_range
      rw [push_no_growth _ _ _ _ (by simp [initial_ctx, range_array_t.size, initial_capacity])]
      rw [hstart, hend]
      rfl
    rw [hT]
    unfold build_output
    simp only [initial_ctx]
    rw [if_pos hg1, replay_blank_then_newline]
    simp
  refine ⟨hout, fun hplain => ?_⟩
  rw [hout, map_get_space_char_plain decl hplain]

/-- Instance of `type_declaration_erased`: `type Foo = number;` followed by
a newline becomes eighteen spaces and the newline. -/
theorem type_declaration_erased_witness :
    ts_strip_with_ctx default_alloc 0 (fun _ => some tree_type_alias) (some src_type_alias) =
      (TS_STRIP_SUCCESS, some (List.replicate 18 32 ++ [10])) :=
  ((type_declaration_erased (initial_ctx default_alloc 1 src_type_alias) node_type_alias
      (Or.inl rfl)).2.2.2.2
    default_alloc 0 (fun _ => some tree_type_alias) (ascii "type Foo = number;")
    tree_type_alias rfl rfl rfl rfl rfl rfl).2 (by decide)

/-- An interface written over three lines, followed by a newline: the
output is not spaces and that newline, the two line breaks inside the
declaration are kept. -/
theorem type_declaration_erased_counterexample :
    node_interface_lines.type = "interface_declaration" ∧
    tree_interface_lines.children = [node_interface_lines] ∧
    src_interface_lines = ascii "interface Foo \x7b\n  x: number;\n\x7d" ++ [10] ∧
    ts_strip_with_ctx default_alloc 0 (fun _ => some tree_interface_lines)
        (some src_interface_lines) =
      (TS_STRIP_SUCCESS, some (ascii "               \n            \n \n")) ∧
    ts_strip_with_ctx default_alloc 0 (fun _ => some tree_interface_lines)
        (some src_interface_lines) ≠
      (TS_STRIP_SUCCESS, some (List.replicate 31 32 ++ [10])) := by
  refine ⟨rfl, rfl, rfl, ?_, ?_⟩ <;> decide

/-- C26. Signatures and overloads are erased whole: for every
`function_declaration`, `function_signature`, `method_definition` or
`method_signature` with no `body`, the visit is the whole-statement erasure
of the node: no child is visited (the parameters are not examined), the
Unsupported flag is left as it was, the result is `VISIT_BLANKED`, and when
the edit can be recorded exactly one edit over the whole node is added. -/
theorem signature_erased (ctx : parse_ctx_t) (n : TSNode)
    (hty : n.type = "function_declaration" ∨ n.type = "function_signature" ∨
      n.type = "method_definition" ∨ n.type = "method_signature")
    (hbody : get_child_by_field n "body" = none) :
    visit_node ctx n = ((blank_stmt ctx n).1, VISIT_BLANKED) ∧
    (blank_stmt ctx n).1.has_unsupported = ctx.has_unsupported ∧
    (blank_stmt ctx n).1.seen_js = ctx.seen_js ∧
    (blank_stmt ctx n).1.in_function_body = ctx.in_function_body ∧
    (can_record ctx → (blank_stmt ctx n).1.ranges.data = ctx.ranges.data ++
      [⟨if ctx.seen_js = true ∧ ctx.in_function_body = 0 then FLAG_REPLACE_WITH_SEMI
        else FLAG_BLANK, n.start_byte, n.end_byte⟩]) := by
  have hk : classify n.type = node_kind.function_like := by
    rcases hty with h | h | h | h <;> rw [h] <;> decide
  refine ⟨?_, (blank_stmt_flags ctx n).1, (blank_stmt_flags ctx n).2.2.2,
    (blank_stmt_flags ctx n).2.2.1, fun hrec => blank_stmt_data ctx n hrec⟩
  rw [visit_node_function_like ctx n hk]
  unfold visit_function_like
  rw [hbody]

/-- Instance of `signature_erased`: the constructor overload
`constructor(private x)` is erased by one edit over its 22 bytes, and is not
marked Unsupported although its parameter has an accessibility modifier. -/
theorem signature_erased_witness :
    (visit_node (initial_ctx default_alloc 1 src_constructor_overload)
        node_constructor_overload).2 = VISIT_BLANKED ∧
    (visit_node (initial_ctx default_alloc 1 src_constructor_overload)
        node_constructor_overload).1.ranges.data = [⟨FLAG_BLANK, 10, 32⟩] ∧
    (visit_node (initial_ctx default_alloc 1 src_constructor_overload)
        node_constructor_overload).1.has_unsupported = false := by
  have h := signature_erased (initial_ctx default_alloc 1 src_constructor_overload)
    node_constructor_overload (Or.inr (Or.inr (Or.inr rfl))) rfl
  rw [h.1]
  exact ⟨rfl, by decide, by decide⟩

/-! ## The child loops of the visitor -/

theorem erase_or_visit_erased (erased : List String) (ctx : parse_ctx_t) (child : TSNode)
    (h : child.type ∈ erased) (hrec : can_record ctx) :
    (erase_or_visit erased ctx child).ranges.data =
      ctx.ranges.data ++ [⟨FLAG_BLANK, child.start_byte, child.end_byte⟩] ∧
    (erase_or_visit erased ctx child).has_unsupported = ctx.has_unsupported := by
  unfold erase_or_visit blank_range
  rw [if_pos h]
  exact ⟨push_data ctx _ _ _ hrec, (push_flags ctx _ _ _).1⟩

theorem erase_or_visit_kept (erased : List String) (ctx : parse_ctx_t) (child : TSNode)
    (h : child.type ∉ erased) : erase_or_visit erased ctx child = (visit_node ctx child).1 := by
  unfold erase_or_visit
  rw [if_neg h]

theorem foldl_ext_all {α β : Type} (f g : α → β → α) (l : List β) (a : α)
    (h : ∀ x b, f x b = g x b) : l.foldl f a = l.foldl g a := by
  have : f = g := funext (fun x => funext (fun b => h x b))
  rw [this]

/-- C28. Class fields: for every `public_field_definition` or
`property_signature`, the visit is the loop over the direct children in which
a child of type `type_annotation`, `!`, `?`, `accessibility_modifier` or
`readonly` is blanked over exactly its own range (one plain edit, when the
edit can be recorded, the Unsupported flag untouched) and every other child is
visited; the node records nothing else and reports runtime JavaScript. -/
theorem class_field_erasure (ctx : parse_ctx_t) (n : TSNode)
    (hty : n.type = "public_field_definition" ∨ n.type = "property_signature") :
    visit_node ctx n =
      (n.children.foldl
        (erase_or_visit ["type_annotation", "!", "?", "accessibility_modifier", "readonly"])
        ctx, VISITED_JS) ∧
    (∀ (x : parse_ctx_t) (child : TSNode),
      child.type ∈ ["type_annotation", "!", "?", "accessibility_modifier", "readonly"] →
      can_record x →
      (erase_or_visit ["type_annotation", "!", "?", "accessibility_modifier", "readonly"]
          x child).ranges.data =
        x.ranges.data ++ [⟨FLAG_BLANK, child.start_byte, child.end_byte⟩] ∧
      (erase_or_visit ["type_annotation", "!", "?", "accessibility_modifier", "readonly"]
          x child).has_unsupported = x.has_unsupported) ∧
    (∀ (x : parse_ctx_t) (child : TSNode),
      child.type ∉ ["type_annotation", "!", "?", "accessibility_modifier", "readonly"] →
      erase_or_visit ["type_annotation", "!", "?", "accessibility_modifier", "readonly"]
        x child = (visit_node x child).1) := by
  have hk : classify n.type = node_kind.field_definition := by
    rcases hty with h | h <;> rw [h] <;> decide
  refine ⟨?_, fun x c h hrec => erase_or_visit_erased _ x c h hrec,
    fun x c h => erase_or_visit_kept _ x c h⟩
  rw [visit_node_eq]
  unfold visit_node_body
  rw [hk]
  simp only []
  congr 1
  refine foldl_ext_all _ _ _ _ (fun x c => ?_)
  unfold erase_or_visit blank_node
  simp only [List.mem_cons, List.mem_singleton, List.not_mem_nil, or_false, Bool.or_eq_true,
    beq_iff_eq, or_assoc]

/-- Instance of `class_field_erasure`: in `private name: string` the
modifier and the annotation are blanked, bytes 16 to 23 and 28 to 36, and the
class of the examples comes out with the name and the semicolon kept. -/
theorem class_field_erasure_witness :
    (visit_node (initial_ctx default_alloc 1 src_class_field) node_class_field).1.ranges.data =
      [⟨FLAG_BLANK, 16, 23⟩, ⟨FLAG_BLANK, 28, 36⟩] ∧
    ts_strip_with_ctx default_alloc 0 (fun _ => some tree_class_field)
        (some src_class_field) =
      (TS_STRIP_SUCCESS, some (ascii "class Person \x7b\n         name        ;\n\x7d")) := by
  refine ⟨?_, by decide⟩
  rw [(class_field_erasure (initial_ctx default_alloc 1 src_class_field) node_class_field
    (Or.inl rfl)).1]
  decide

/-- C30. Generic call sites: for every `call_expression` or
`new_expression`, the visit is the loop over the direct children in which a
`type_arguments` child is blanked over exactly its own range (one plain edit,
when the edit can be recorded, the Unsupported flag untouched) and every other
child, the callee and the arguments among them, is visited; the node records
nothing else and reports runtime JavaScript. -/
theorem call_type_arguments_erasure (ctx : parse_ctx_t) (n : TSNode)
    (hty : n.type = "call_expression" ∨ n.type = "new_expression") :
    visit_node ctx n =
      (n.children.foldl (erase_or_visit ["type_arguments"]) ctx, VISITED_JS) ∧
    (∀ (x : parse_ctx_t) (child : TSNode), child.type = "type_arguments" → can_record x →
      (erase_or_visit ["type_arguments"] x child).ranges.data =
        x.ranges.data ++ [⟨FLAG_BLANK, child.start_byte, child.end_byte⟩] ∧
      (erase_or_visit ["type_arguments"] x child).has_unsupported = x.has_unsupported) ∧
    (∀ (x : parse_ctx_t) (child : TSNode), child.type ≠ "type_arguments" →
      erase_or_visit ["type_arguments"] x child = (visit_node x child).1) := by
  have hk : classify n.type = node_kind.call_expression := by
    rcases hty with h | h <;> rw [h] <;> decide
  refine ⟨?_, fun x c h hrec => erase_or_visit_erased _ x c (by simp [h]) hrec,
    fun x c h => erase_or_visit_kept _ x c (by simp [h])⟩
  rw [visit_node_eq]
  unfold visit_node_body
  rw [hk]
  simp only []
  congr 1
  refine foldl_ext_all _ _ _ _ (fun x c => ?_)
  unfold erase_or_visit blank_node is_type
  simp only [List.mem_singleton, beq_iff_eq]

/-- Instance of `call_type_arguments_erasure`: in `f<T>(x);` the type
arguments are blanked, bytes 1 to 4, and the callee and the argument list are
kept. -/
theorem call_type_arguments_erasure_witness :
    (visit_node (initial_ctx default_alloc 1 src_generic_args)
        node_call_type_args).1.ranges.data = [⟨FLAG_BLANK, 1, 4⟩] ∧
    ts_strip_with_ctx default_alloc 0 (fun _ => some tree_generic_args)
        (some src_generic_args) = (TS_STRIP_SUCCESS, some (ascii "f   (x);")) := by
  refine ⟨?_, by decide⟩
  rw [(call_type_arguments_erasure (initial_ctx default_alloc 1 src_generic_args)
    node_call_type_args (Or.inl rfl)).1]
  decide

/-- C29. Non-null assertions: for every `non_null_expression` whose end
offset is positive (and in the range of the parser's offsets), the visit is
the visit of the operand, child 0, followed by one plain blank over the single
byte before the end of the node, and it reports runtime JavaScript; when the
edit can be recorded, the edit list after the operand grows by exactly that
edit and the Unsupported flag is the one the operand left. -/
theorem non_null_erasure (ctx : parse_ctx_t) (n : TSNode)
    (hty : n.type = "non_null_expression")
    (hpos : 0 < n.end_byte) (hend : n.end_byte < 4294967296) :
    visit_node ctx n =
      ((blank_range
          (match n.children.head? with
            | some operand => (visit_node ctx operand).1
            | none => ctx)
          (n.end_byte - 1) n.end_byte).1, VISITED_JS) ∧
    (∀ x : parse_ctx_t, can_record x →
      (blank_range x (n.end_byte - 1) n.end_byte).1.ranges.data =
        x.ranges.data ++ [⟨FLAG_BLANK, n.end_byte - 1, n.end_byte⟩] ∧
      (blank_range x (n.end_byte - 1) n.end_byte).1.has_unsupported = x.has_unsupported) := by
  have hk : classify n.type = node_kind.non_null_expression := by rw [hty]; decide
  have hsub : (n.end_byte + 4294967295) % 4294967296 = n.end_byte - 1 := by omega
  refine ⟨?_, fun x hrec => ⟨push_data x _ _ _ hrec, (push_flags x _ _ _).1⟩⟩
  rw [visit_node_eq]
  unfold visit_node_body
  rw [hk]
  simp only [hsub]

/-- Instance of `non_null_erasure`, scenario D: in `const x = foo!;` the
visit of `foo!` records one blank over byte 13, and the result is Success
with `const x = foo ;`. -/
theorem non_null_erasure_witness :
    (visit_node (initial_ctx default_alloc 1 src_non_null) node_non_null).1.ranges.data =
      [⟨FLAG_BLANK, 13, 14⟩] ∧
    ts_strip_with_ctx default_alloc 0 (fun _ => some tree_non_null) (some src_non_null) =
      (TS_STRIP_SUCCESS, some (ascii "const x = foo ;\n")) := by
  refine ⟨?_, by decide⟩
  rw [(non_null_erasure (initial_ctx default_alloc 1 src_non_null) node_non_null rfl
    (by decide) (by decide)).1]
  decide

theorem visit_node_class (ctx : parse_ctx_t) (n : TSNode)
    (hk : classify n.type = node_kind.class_declaration) :
    visit_node ctx n = visit_class_declaration visit_node ctx n := by
  rw [visit_node_eq]
  unfold visit_node_body
  rw [hk]

/-- C27. Class headers: for every `class_declaration` or
`abstract_class_declaration`, the visit is the loop over the direct children
in which a `type_parameters` child is blanked over exactly its own range, a
`class_heritage` child is gone through clause by clause, an
`implements_clause` blanked over exactly its own range and every other clause
visited, and every other child, the class body among them, is visited; the
node records nothing else and reports runtime JavaScript. -/
theorem class_header_erasure (ctx : parse_ctx_t) (n : TSNode)
    (hty : n.type = "class_declaration" ∨ n.type = "abstract_class_declaration") :
    visit_node ctx n =
      (n.children.foldl
        (fun x child =>
          if child.type = "class_heritage" then
            child.children.foldl (erase_or_visit ["implements_clause"]) x
          else erase_or_visit ["type_parameters"] x child) ctx, VISITED_JS) ∧
    (∀ (x : parse_ctx_t) (child : TSNode), child.type = "type_parameters" → can_record x →
      (erase_or_visit ["type_parameters"] x child).ranges.data =
        x.ranges.data ++ [⟨FLAG_BLANK, child.start_byte, child.end_byte⟩] ∧
      (erase_or_visit ["type_parameters"] x child).has_unsupported = x.has_unsupported) ∧
    (∀ (x : parse_ctx_t) (clause : TSNode), clause.type = "implements_clause" → can_record x →
      (erase_or_visit ["implements_clause"] x clause).ranges.data =
        x.ranges.data ++ [⟨FLAG_BLANK, clause.start_byte, clause.end_byte⟩] ∧
      (erase_or_visit ["implements_clause"] x clause).has_unsupported = x.has_unsupported) ∧
    (∀ (x : parse_ctx_t) (child : TSNode), child.type ≠ "type_parameters" →
      erase_or_visit ["type_parameters"] x child = (visit_node x child).1) ∧
    (∀ (x : parse_ctx_t) (clause : TSNode), clause.type ≠ "implements_clause" →
      erase_or_visit ["implements_clause"] x clause = (visit_node x clause).1) := by
  have hk : classify n.type = node_kind.class_declaration := by
    rcases hty with h | h <;> rw [h] <;> decide
  refine ⟨?_, fun x c h hrec => erase_or_visit_erased _ x c (by simp [h]) hrec,
    fun x c h hrec => erase_or_visit_erased _ x c (by simp [h]) hrec,
    fun x c h => erase_or_visit_kept _ x c (by simp [h]),
    fun x c h => erase_or_visit_kept _ x c (by simp [h])⟩
  rw [visit_node_class ctx n hk]
  unfold visit_class_declaration
  congr 1
  refine foldl_ext_all _ _ _ _ (fun x c => ?_)
  by_cases h1 : c.type = "type_parameters"
  · have h2 : ¬ c.type = "class_heritage" := by rw [h1]; decide
    rw [if_pos (by simp [h1]), if_neg h2]
    unfold erase_or_visit blank_node
    rw [if_pos (by simp [h1])]
  · rw [if_neg (by simp [h1])]
    by_cases h2 : c.type = "class_heritage"
    · rw [if_pos (by simp [h2]), if_pos h2]
      unfold visit_heritage
      refine foldl_ext_all _ _ _ _ (fun y d => ?_)
      unfold erase_or_visit blank_node is_type
      simp only [List.mem_singleton, beq_iff_eq]
    · rw [if_neg (by simp [h2]), if_neg h2]
      unfold erase_or_visit
      rw [if_neg (by simp [h1])]

/-- Instance of `class_header_erasure`: in
`class A<T> extends B implements C` the type parameters and the implements
clause are blanked, bytes 7 to 10 and 21 to 33, and `extends B` is kept. -/
theorem class_header_erasure_witness :
    (visit_node (initial_ctx default_alloc 1 src_class_header) node_class_header).1.ranges.data =
      [⟨FLAG_BLANK, 7, 10⟩, ⟨FLAG_BLANK, 21, 33⟩] ∧
    ts_strip_with_ctx default_alloc 0 (fun _ => some tree_class_header)
        (some src_class_header) =
      (TS_STRIP_SUCCESS, some (ascii "class A    extends B              \x7b\x7d")) := by
  refine ⟨?_, by decide⟩
  rw [(class_header_erasure (initial_ctx default_alloc 1 src_class_header) node_class_header
    (Or.inl rfl)).1]
  decide

theorem visit_node_arrow (ctx : parse_ctx_t) (n : TSNode)
    (hk : classify n.type = node_kind.arrow_function) :
    visit_node ctx n = visit_arrow_function visit_node ctx n := by
  rw [visit_node_eq]
  unfold visit_node_body
  rw [hk]

theorem visit_signature_children_eq (ctx : parse_ctx_t) (n : TSNode) :
    visit_signature_children visit_node ctx n = n.children.foldl erase_signature_child ctx := by
  unfold visit_signature_children
  refine foldl_ext_all _ _ _ _ (fun x c => ?_)
  unfold erase_signature_child
  by_cases h1 : c.type = "type_annotation" ∨ c.type = "type_parameters"
  · have h2 : ¬ c.type = "formal_parameters" := by
      rcases h1 with h | h <;> rw [h] <;> decide
    rw [if_pos (by simpa using h1), if_neg h2]
    unfold erase_or_visit blank_node
    rw [if_pos (by simpa using h1)]
  · rw [if_neg (by simpa using h1)]
    by_cases h2 : c.type = "formal_parameters"
    · rw [if_pos (by simp [h2]), if_pos h2]
      unfold visit_formal_parameters
      refine foldl_ext_all _ _ _ _ (fun y p => ?_)
      unfold visit_parameter
      refine foldl_ext_all _ _ _ _ (fun z g => ?_)
      unfold erase_or_visit blank_node
      simp only [List.mem_cons, List.mem_singleton, List.not_mem_nil, or_false,
        Bool.or_eq_true, beq_iff_eq]
    · rw [if_neg (by simp [h2]), if_neg h2]
      unfold erase_or_visit
      rw [if_neg (by simpa using h1)]

/-- C25. Signature erasure in functions: for every `function_declaration`
or `method_definition` that has a body and no parameter property, the visit
is the loop over the direct children, run one level deeper in
`in_function_body` and with the depth restored after it, in which each child
is treated as `erase_signature_child` says: a `type_annotation` or
`type_parameters` child blanked whole, the parameters of a `formal_parameters`
child gone through with every `type_annotation` or `?` blanked whole and
every other child visited, and every other child visited; for every
`arrow_function` the visit is the same loop at the depth it is at. A blanked
node is one plain edit over exactly its range, when the edit can be recorded.
The node records nothing else and reports runtime JavaScript. -/
theorem signature_erasure (ctx : parse_ctx_t) (n : TSNode) :
    ((n.type = "function_declaration" ∨ n.type = "method_definition") →
      (get_child_by_field n "body").isSome = true →
      (∀ params, get_child_by_field n "parameters" = some params →
        has_param_props params = false) →
      visit_node ctx n =
        ({ n.children.foldl erase_signature_child
            { ctx with in_function_body := ctx.in_function_body + 1 } with
           in_function_body := ctx.in_function_body }, VISITED_JS)) ∧
    (n.type = "arrow_function" →
      visit_node ctx n = (n.children.foldl erase_signature_child ctx, VISITED_JS)) ∧
    (∀ (x : parse_ctx_t) (child : TSNode),
      child.type = "type_annotation" ∨ child.type = "type_parameters" → can_record x →
      (erase_signature_child x child).ranges.data =
        x.ranges.data ++ [⟨FLAG_BLANK, child.start_byte, child.end_byte⟩]) ∧
    (∀ (x : parse_ctx_t) (g : TSNode),
      g.type = "type_annotation" ∨ g.type = "?" → can_record x →
      (erase_or_visit ["type_annotation", "?"] x g).ranges.data =
        x.ranges.data ++ [⟨FLAG_BLANK, g.start_byte, g.end_byte⟩]) ∧
    (∀ (x : parse_ctx_t) (g : TSNode),
      ¬ (g.type = "type_annotation" ∨ g.type = "?") →
      erase_or_visit ["type_annotation", "?"] x g = (visit_node x g).1) ∧
    (∀ (x : parse_ctx_t) (child : TSNode),
      ¬ (child.type = "type_annotation" ∨ child.type = "type_parameters" ∨
        child.type = "formal_parameters") →
      erase_signature_child x child = (visit_node x child).1) := by
  refine ⟨fun hty hbody hprops => ?_, fun hty => ?_, fun x c h hrec => ?_,
    fun x g h hrec => (erase_or_visit_erased _ x g (by simpa using h) hrec).1,
    fun x g h => erase_or_visit_kept _ x g (by simpa using h), fun x c h => ?_⟩
  · have hk : classify n.type = node_kind.function_like := by
      rcases hty with h | h <;> rw [h] <;> decide
    rw [visit_node_function_like ctx n hk]
    unfold visit_function_like
    obtain ⟨body, hb⟩ := Option.isSome_iff_exists.mp hbody
    rw [hb]
    simp only []
    have hno : (match get_child_by_field n "parameters" with
        | some params => has_param_props params
        | none => false) = false := by
      cases hp : get_child_by_field n "parameters" with
      | none => rfl
      | some params => exact hprops params hp
    rw [if_neg (by simp [hno]), visit_signature_children_eq]
  · have hk : classify n.type = node_kind.arrow_function := by rw [hty]; decide
    rw [visit_node_arrow ctx n hk]
    unfold visit_arrow_function
    rw [visit_signature_children_eq]
  · have h2 : ¬ c.type = "formal_parameters" := by
      rcases h with h | h <;> rw [h] <;> decide
    unfold erase_signature_child
    rw [if_neg h2]
    exact (erase_or_visit_erased _ x c (by simpa using h) hrec).1
  · unfold erase_signature_child
    rw [if_neg (fun hf => h (Or.inr (Or.inr hf)))]
    exact erase_or_visit_kept _ x c (by
      simp only [List.mem_cons, List.mem_singleton, List.not_mem_nil, or_false]
      exact fun hf => h (hf.elim Or.inl (fun h3 => Or.inr (Or.inl h3))))

/-- Instance of `signature_erasure`: the two sources of the suite. In the
function with a multibyte return type the annotation is blanked, bytes 12 to
20; in the arrow function the return type written over three lines is
blanked, bytes 12 to 22, and its line breaks are kept. -/
theorem signature_erasure_witness :
    (visit_node (initial_ctx default_alloc 1 src_multibyte) node_multibyte).1.ranges.data =
      [⟨FLAG_BLANK, 12, 20⟩] ∧
    (visit_node (initial_ctx default_alloc 1 src_arrow_newline)
        node_arrow_newline).1.ranges.data = [⟨FLAG_BLANK, 12, 22⟩] ∧
    ts_strip_with_ctx default_alloc 0 (fun _ => some tree_multibyte) (some src_multibyte) =
      (TS_STRIP_SUCCESS, some (ascii "function f()         \x7b\x7d")) ∧
    ts_strip_with_ctx default_alloc 0 (fun _ => some tree_arrow_newline)
        (some src_arrow_newline) =
      (TS_STRIP_SUCCESS, some (ascii "[1].map((v)\n        \n =>[v]);")) := by
  refine ⟨?_, ?_, by decide, by decide⟩
  · rw [(signature_erasure (initial_ctx default_alloc 1 src_multibyte) node_multibyte).1
      (Or.inl rfl) rfl (fun params hp => by
        have : get_child_by_field node_multibyte "parameters" =
            some (.mk "formal_parameters" (some "parameters") 10 12
              [leaf "(" 10 11, leaf ")" 11 12]) := rfl
        rw [this] at hp
        rw [← Option.some.inj hp]
        decide)]
    decide
  · rw [(signature_erasure (initial_ctx default_alloc 1 src_arrow_newline)
      node_arrow_newline).2.1 rfl]
    decide

/-- An optional parameter with a type, `function f(a?: number)`: the `?`
and the annotation are blanked, each over its own range. -/
theorem optional_parameter_erased :
    (visit_node (initial_ctx default_alloc 1 src_optional_parameter)
        node_optional_parameter).1.ranges.data =
      [⟨FLAG_BLANK, 12, 13⟩, ⟨FLAG_BLANK, 13, 21⟩] := by
  decide

theorem blank_type_anno_eq (ctx : parse_ctx_t) (child : TSNode) :
    (blank_type_anno ctx child).1 =
      (blank_range ctx
        (if 0 < child.start_byte ∧ ctx.source[child.start_byte - 1]? = some 58 then
          child.start_byte - 1 else child.start_byte)
        child.end_byte).1 := by
  unfold blank_type_anno
  simp only []
  have hiff : (0 < child.start_byte ∧ ctx.source[child.start_byte - 1]? = some 58) ↔
      (decide (child.start_byte > 0) && ctx.source.getD (child.start_byte - 1) 0 == 58) = true := by
    simp only [Bool.and_eq_true, decide_eq_true_eq, beq_iff_eq, gt_iff_lt]
    constructor
    · rintro ⟨h1, h2⟩
      refine ⟨h1, ?_⟩
      rw [List.getD_eq_getElem?_getD, h2]
      rfl
    · rintro ⟨h1, h2⟩
      exact ⟨h1, getD_eq_some h2 (by decide)⟩
  by_cases h : 0 < child.start_byte ∧ ctx.source[child.start_byte - 1]? = some 58
  · rw [if_pos h, if_pos (hiff.mp h)]
  · rw [if_neg h, if_neg (fun hf => h (hiff.mpr hf))]

/-- C23. Variable declarators: for every `variable_declarator`, the visit
is the loop over the direct children in which each child is treated as
`erase_declarator_child` says: a `type_annotation` child blanked over its
range, extended one byte to the left when the byte just before it is `:`, a
`!` child blanked over its own range, and every other child visited. A
blanked child is one plain edit, when the edit can be recorded, and leaves
the Unsupported flag as it was. The node records nothing else and reports
runtime JavaScript. -/
theorem variable_declarator_erasure (ctx : parse_ctx_t) (n : TSNode)
    (hty : n.type = "variable_declarator") :
    visit_node ctx n = (n.children.foldl erase_declarator_child ctx, VISITED_JS) ∧
    (∀ (x : parse_ctx_t) (child : TSNode), child.type = "type_annotation" → can_record x →
      (erase_declarator_child x child).ranges.data =
        x.ranges.data ++
          [⟨FLAG_BLANK,
            if 0 < child.start_byte ∧ x.source[child.start_byte - 1]? = some 58 then
              child.start_byte - 1 else child.start_byte,
            child.end_byte⟩] ∧
      (erase_declarator_child x child).has_unsupported = x.has_unsupported) ∧
    (∀ (x : parse_ctx_t) (child : TSNode), child.type = "!" → can_record x →
      (erase_declarator_child x child).ranges.data =
        x.ranges.data ++ [⟨FLAG_BLANK, child.start_byte, child.end_byte⟩] ∧
      (erase_declarator_child x child).has_unsupported = x.has_unsupported) ∧
    (∀ (x : parse_ctx_t) (child : TSNode),
      child.type ≠ "type_annotation" → child.type ≠ "!" →
      erase_declarator_child x child = (visit_node x child).1) := by
  have hk : classify n.type = node_kind.variable_declarator := by rw [hty]; decide
  refine ⟨?_, fun x c h hrec => ?_, fun x c h hrec => ?_, fun x c h1 h2 => ?_⟩
  · rw [visit_node_eq]
    unfold visit_node_body
    rw [hk]
    simp only []
    congr 1
    refine foldl_ext_all _ _ _ _ (fun x c => ?_)
    unfold erase_declarator_child
    by_cases h1 : c.type = "type_annotation"
    · rw [if_pos (by simp [h1]), if_pos h1, blank_type_anno_eq]
    · rw [if_neg (by simp [h1]), if_neg h1]
      unfold erase_or_visit blank_node
      simp only [List.mem_singleton, beq_iff_eq]
  · unfold erase_declarator_child blank_range
    rw [if_pos h]
    exact ⟨push_data x _ _ _ hrec, (push_flags x _ _ _).1⟩
  · have h1 : ¬ c.type = "type_annotation" := by rw [h]; decide
    unfold erase_declarator_child
    rw [if_neg h1]
    exact erase_or_visit_erased _ x c (by simp [h]) hrec
  · unfold erase_declarator_child
    rw [if_neg h1]
    exact erase_or_visit_kept _ x c (by simp [h2])

/-- Instance of `variable_declarator_erasure`: in `let x: number = 1;` the
annotation is blanked, bytes 5 to 13, in `y! : string` the `!` and the
annotation are, and the two sources come out as
`let x         = 1;` and `let x     , y          , z     ;`. -/
theorem variable_declarator_erasure_witness :
    (visit_node (initial_ctx default_alloc 1 src_let_number) node_let_number).1.ranges.data =
      [⟨FLAG_BLANK, 5, 13⟩] ∧
    (visit_node (initial_ctx default_alloc 1 src_definite) node_definite).1.ranges.data =
      [⟨FLAG_BLANK, 13, 14⟩, ⟨FLAG_BLANK, 15, 23⟩] ∧
    ts_strip_with_ctx default_alloc 0 (fun _ => some tree_let_number) (some src_let_number) =
      (TS_STRIP_SUCCESS, some (ascii "let x         = 1;")) ∧
    ts_strip_with_ctx default_alloc 0 (fun _ => some tree_definite) (some src_definite) =
      (TS_STRIP_SUCCESS, some (ascii "let x     , y          , z     ;\n")) := by
  refine ⟨?_, ?_, by decide, by decide⟩
  · rw [(variable_declarator_erasure (initial_ctx default_alloc 1 src_let_number)
      node_let_number rfl).1]
    decide
  · rw [(variable_declarator_erasure (initial_ctx default_alloc 1 src_definite)
      node_definite rfl).1]
    decide

/-! ## Extension recognition -/

theorem tail_is_iff (str suffix : List Nat) : tail_is str suffix = true ↔ suffix <:+ str := by
  unfold tail_is
  rw [beq_iff_eq, List.suffix_iff_eq_drop]
  exact eq_comm

theorem suffix_length_le {a b : List Nat} (h : a <:+ b) : a.length ≤ b.length :=
  List.IsSuffix.length_le h

/-- C38, as amended. Extension recognition: `ends_with_ts` is 0 for a
null name; for a name it is 1 exactly when the name ends with `.ts`, `.mts`,
`.tsx` or `.mtsx`, and it is 0 for every other name, so for every name
shorter than three bytes; and the evaluator strips types exactly when the
strip-types flag is set in `eval_flags` or `ends_with_ts` is 1. -/
theorem ends_with_ts_spec :
    ends_with_ts none = 0 ∧
    (∀ s : List Nat, ends_with_ts (some s) = 1 ↔
      (ascii ".ts" <:+ s ∨ ascii ".mts" <:+ s ∨ ascii ".tsx" <:+ s ∨ ascii ".mtsx" <:+ s)) ∧
    (∀ name : Option (List Nat), ends_with_ts name = 1 ∨ ends_with_ts name = 0) ∧
    (∀ s : List Nat, s.length < 3 → ends_with_ts (some s) = 0) ∧
    (∀ (strip_types_flag eval_flags : Nat) (filename : Option (List Nat)),
      should_strip strip_types_flag eval_flags filename = true ↔
        (eval_flags &&& strip_types_flag ≠ 0 ∨ ends_with_ts filename = 1)) := by
  have h4 : ∀ s : List Nat, ends_with_ts (some s) = 1 ↔
      (ascii ".ts" <:+ s ∨ ascii ".mts" <:+ s ∨ ascii ".tsx" <:+ s ∨ ascii ".mtsx" <:+ s) := by
    intro s
    unfold ends_with_ts
    simp only []
    by_cases hlen : s.length < 3
    · rw [if_pos hlen]
      constructor
      · intro h; cases h
      · intro h
        have h3 : (ascii ".ts").length = 3 := rfl
        have h4 : (ascii ".mts").length = 4 := rfl
        have h5 : (ascii ".tsx").length = 4 := rfl
        have h6 : (ascii ".mtsx").length = 5 := rfl
        rcases h with h | h | h | h <;> have := suffix_length_le h <;> omega
    · rw [if_neg hlen]
      simp only [Bool.and_eq_true, decide_eq_true_eq, tail_is_iff]
      have l1 : ascii ".mts" <:+ s → s.length ≥ 4 := fun h => suffix_length_le h
      have l2 : ascii ".tsx" <:+ s → s.length ≥ 4 := fun h => suffix_length_le h
      have l3 : ascii ".mtsx" <:+ s → s.length ≥ 5 := fun h => suffix_length_le h
      have l0 : s.length ≥ 3 := by omega
      by_cases a : ascii ".ts" <:+ s
      · simp [a, l0]
      · by_cases b : ascii ".mts" <:+ s
        · simp [a, b, l1 b, l0]
        · by_cases c : ascii ".tsx" <:+ s
          · have := l2 c
            simp [a, b, c, this, l0]
          · by_cases d : ascii ".mtsx" <:+ s
            · have := l3 d
              simp [a, b, c, d, this, l0]
            · simp [a, b, c, d]
  have h01 : ∀ name : Option (List Nat), ends_with_ts name = 1 ∨ ends_with_ts name = 0 := by
    intro name
    cases name with
    | none => exact Or.inr rfl
    | some s =>
      unfold ends_with_ts
      simp only []
      split
      · exact Or.inr rfl
      · split
        · exact Or.inl rfl
        · split
          · exact Or.inl rfl
          · split
            · exact Or.inl rfl
            · split
              · exact Or.inl rfl
              · exact Or.inr rfl
  refine ⟨rfl, h4, h01, fun s hs => ?_, fun f e name => ?_⟩
  · unfold ends_with_ts
    simp only []
    rw [if_pos hs]
  · unfold should_strip
    simp only [Bool.or_eq_true, bne_iff_ne, ne_eq]
    rcases h01 name with h | h <;> simp [h]

/-- Instance of `ends_with_ts_spec`: the two-byte name `ab` is not
recognised, `lib.mtsx` is. -/
theorem ends_with_ts_spec_witness :
    ends_with_ts (some (ascii "ab")) = 0 ∧ ends_with_ts (some (ascii "lib.mtsx")) = 1 :=
  ⟨ends_with_ts_spec.2.2.2.1 (ascii "ab") (by decide),
   (ends_with_ts_spec.2.1 (ascii "lib.mtsx")).mpr
    (Or.inr (Or.inr (Or.inr ⟨ascii "lib", rfl⟩)))⟩

/-- The name `a.mts` is recognised, and it ends neither with `.ts` nor with
`.tsx`: its last three bytes are `mts`. Ending with `.ts` or `.tsx` is not
equivalent to ending with one of the four extensions. -/
theorem ends_with_ts_spec_counterexample :
    ends_with_ts (some (ascii "a.mts")) = 1 ∧
    ¬ (ascii ".ts" <:+ ascii "a.mts" ∨ ascii ".tsx" <:+ ascii "a.mts") := by
  refine ⟨by decide, ?_⟩
  rw [← tail_is_iff, ← tail_is_iff]
  decide

/-! ## The root of the tree, and arrow function bodies -/

/-- C35 (code defect). For a tree whose root is itself the `ERROR` node,
the loop of `ts_strip_with_ctx` visits the children of the root and never the
root: the Unsupported flag is not set and the status is Success, although a
visit of the root sets the flag. -/
theorem root_error_not_reported :
    tree_root_error.type = "ERROR" ∧
    (visit_node (initial_ctx default_alloc 1 src_root_error) tree_root_error).1.has_unsupported
      = true ∧
    (traversal default_alloc 0 src_root_error tree_root_error).has_unsupported = false ∧
    ts_strip_with_ctx default_alloc 0 (fun _ => some tree_root_error) (some src_root_error) =
      (TS_STRIP_SUCCESS, some src_root_error) := by
  refine ⟨rfl, ?_, ?_, ?_⟩ <;> decide

/-- C36 (code defect). An interface declaration at the start of the block
body of an arrow function, before a directive: `visit_arrow_function` does not
raise `in_function_body`, runtime JavaScript has been seen (the `const`
keyword, then the brace that opens the body), so the declaration is erased
with a semicolon edit and the output has a `;` before the directive. In the
body of a function declaration the same statement is erased with a plain
blank. -/
theorem arrow_body_gets_semicolon :
    (traversal default_alloc 0 src_arrow_directive tree_arrow_directive).ranges.data =
      [⟨FLAG_REPLACE_WITH_SEMI, 22, 36⟩] ∧
    ts_strip_with_ctx default_alloc 0 (fun _ => some tree_arrow_directive)
        (some src_arrow_directive) =
      (TS_STRIP_SUCCESS, some (ascii
        "const foo = () => \x7b\n  ;             \n  \"use strict\"\n  return 1;\n\x7d;")) ∧
    (traversal default_alloc 0 src_alias_in_function tree_alias_in_function).ranges.data =
      [⟨FLAG_BLANK, 15, 23⟩] := by
  refine ⟨?_, ?_, ?_⟩ <;> decide

/-! ## Method modifiers -/

theorem visit_node_other (ctx : parse_ctx_t) (n : TSNode)
    (hk : classify n.type = node_kind.other) :
    visit_node ctx n = ((visit_children visit_node ctx n).1, VISITED_JS) := by
  rw [visit_node_eq]
  unfold visit_node_body
  rw [hk]

/-- Visiting a node the chain of `visit_node` does not test, whose children
are tokens it does not test either, changes `seen_js` at most. -/
theorem visit_token_group (ctx : parse_ctx_t) (m : TSNode)
    (hk : classify m.type = node_kind.other)
    (hleaf : ∀ g ∈ m.children, g.children = [] ∧ classify g.type = node_kind.other) :
    ∃ seen, visit_node ctx m = ({ ctx with seen_js := seen }, VISITED_JS) := by
  rw [visit_node_other ctx m hk]
  unfold visit_children
  simp only []
  suffices h : ∀ (cs : List TSNode) (x : parse_ctx_t),
      (∀ g ∈ cs, g.children = [] ∧ classify g.type = node_kind.other) →
      ∃ seen, cs.foldl (fun ctx child =>
          if (visit_node ctx child).2 = VISITED_JS then
            { (visit_node ctx child).1 with seen_js := true }
          else (visit_node ctx child).1) x = { x with seen_js := seen } by
    obtain ⟨seen, hs⟩ := h m.children ctx hleaf
    exact ⟨seen, by rw [hs]⟩
  intro cs
  induction cs with
  | nil => exact fun x _ => ⟨x.seen_js, rfl⟩
  | cons g gs ih =>
    intro x hg
    have h1 := hg g (by simp)
    simp only [List.foldl_cons, visit_leaf_other x g h1.2 h1.1, if_true]
    obtain ⟨seen, hs⟩ := ih { x with seen_js := true } (fun c hc => hg c (by simp [hc]))
    exact ⟨seen, by rw [hs]⟩

/-- C40. Method modifiers are not erased: in a `method_definition` that
has a body and no parameter property, a node of type
`accessibility_modifier`, `override_modifier` or `?` (whose own children, if
any, are keyword tokens) met as a child is handed to `visit_node`, which records no edit
over it, makes no allocator request, leaves the Unsupported flag as it was,
and reports runtime JavaScript: the visit of the method is the loop of
`visit_function_like` over the children, and the step of that loop on the
modifier is this visit. -/
theorem method_modifiers_kept (ctx : parse_ctx_t) (n m : TSNode)
    (hty : n.type = "method_definition")
    (hbody : (get_child_by_field n "body").isSome = true)
    (hprops : ∀ params, get_child_by_field n "parameters" = some params →
      has_param_props params = false)
    (hm : m.type = "accessibility_modifier" ∨ m.type = "override_modifier" ∨ m.type = "?")
    (htokens : ∀ g ∈ m.children, g.children = [] ∧ classify g.type = node_kind.other) :
    visit_node ctx n =
      ({ n.children.foldl erase_signature_child
          { ctx with in_function_body := ctx.in_function_body + 1 } with
         in_function_body := ctx.in_function_body }, VISITED_JS) ∧
    ∀ x : parse_ctx_t,
      erase_signature_child x m = (visit_node x m).1 ∧
      (visit_node x m).2 = VISITED_JS ∧
      (visit_node x m).1.ranges = x.ranges ∧
      (visit_node x m).1.requests = x.requests ∧
      (visit_node x m).1.has_unsupported = x.has_unsupported := by
  have hkm : classify m.type = node_kind.other := by
    rcases hm with h | h | h <;> rw [h] <;> decide
  constructor
  · have hk : classify n.type = node_kind.function_like := by rw [hty]; decide
    rw [visit_node_function_like ctx n hk]
    unfold visit_function_like
    obtain ⟨body, hb⟩ := Option.isSome_iff_exists.mp hbody
    rw [hb]
    simp only []
    have hno : (match get_child_by_field n "parameters" with
        | some params => has_param_props params
        | none => false) = false := by
      cases hp : get_child_by_field n "parameters" with
      | none => rfl
      | some params => exact hprops params hp
    rw [if_neg (by simp [hno]), visit_signature_children_eq]
  · intro x
    obtain ⟨seen, hs⟩ := visit_token_group x m hkm htokens
    refine ⟨?_, by rw [hs], by rw [hs], by rw [hs], by rw [hs]⟩
    unfold erase_signature_child
    have h1 : ¬ m.type = "formal_parameters" := by
      rcases hm with h | h | h <;> rw [h] <;> decide
    rw [if_neg h1]
    exact erase_or_visit_kept _ x m (by
      rcases hm with h | h | h <;> rw [h] <;> decide)

/-- Instance of `method_modifiers_kept`: in
`class A \x7b private foo(): void \x7b\x7d \x7d` the visit of the modifier `private`
records nothing, the only edit of the method is the return type, bytes 23 to
29, and the result is Success with `private` still in the output. -/
theorem method_modifiers_kept_witness :
    (visit_node (initial_ctx default_alloc 1 src_private_method) node_private).1.ranges =
      (initial_ctx default_alloc 1 src_private_method).ranges ∧
    (visit_node (initial_ctx default_alloc 1 src_private_method)
        node_private_method).1.ranges.data = [⟨FLAG_BLANK, 23, 29⟩] ∧
    ts_strip_with_ctx default_alloc 0 (fun _ => some tree_private_method)
        (some src_private_method) =
      (TS_STRIP_SUCCESS, some (ascii "class A \x7b private foo()       \x7b\x7d \x7d")) := by
  have h := method_modifiers_kept (initial_ctx default_alloc 1 src_private_method)
    node_private_method node_private rfl rfl
    (fun params hp => by
      have : get_child_by_field node_private_method "parameters" =
          some (.mk "formal_parameters" (some "parameters") 21 23
            [leaf "(" 21 22, leaf ")" 22 23]) := rfl
      rw [this] at hp
      rw [← Option.some.inj hp]
      decide)
    (Or.inl rfl)
    (fun g hg => by
      have : g = leaf "private" 10 17 := List.mem_singleton.mp hg
      rw [this]
      exact ⟨rfl, by decide⟩)
  refine ⟨(h.2 _).2.2.1, ?_, by decide⟩
  rw [h.1]
  decide

/-! ## Replaying an edit list -/

/-- C33 fails as stated: for the ten-byte source `abcdefghij` and the edits
Blank 0 to 8, Blank 2 to 5, which are in bounds and in start order, the second
lying wholly inside the first, `build_output` clamps the start of the second
edit to 8 but then takes its end, 5, as the place to go on from: the bytes
`fgh` are written a second time and the output has 13 bytes, three more than
the input. For Blank 0 to 8 followed by a semicolon edit 5 to 8 the clamped
edit is empty and its `;` is written all the same: the output has 11 bytes. -/
theorem clamp_repeats_bytes :
    build_output (ctx_with_edits src_ten edits_nested) = some (ascii "        fghij") ∧
    (replay src_ten edits_nested).length = 13 ∧
    src_ten.length = 10 ∧
    build_output (ctx_with_edits src_ten edits_semi_inside) = some (ascii "        ;ij") ∧
    (replay src_ten edits_semi_inside).length = 11 := by
  refine ⟨?_, ?_, ?_, ?_, ?_⟩ <;> decide

theorem build_step_kin (src : List Nat) (all : List Edit) (out : List Nat) (prev : Nat)
    (e : Edit) (he : edit_fits src.length prev e) (hmem : e ∈ all)
    (h : List.Forall₂ (byte_kin all) out (indexed 0 (copy_bytes src 0 prev))) :
    List.Forall₂ (byte_kin all) (build_step src (out, prev) e).1
        (indexed 0 (copy_bytes src 0 e.stop)) ∧
      (build_step src (out, prev) e).2 = e.stop := by
  obtain ⟨hse, hpe, hel, hsemi⟩ := he
  refine ⟨?_, rfl⟩
  have hc1 : prev ≤ (if e.start < prev then prev else e.start) := by split <;> omega
  have hc2 : (if e.start < prev then prev else e.start) ≤ e.stop := by split <;> omega
  have hc3 : e.start ≤ (if e.start < prev then prev else e.start) := by split <;> omega
  by_cases hflag : e.flag = FLAG_REPLACE_WITH_SEMI
  · obtain ⟨hps, hlt⟩ := hsemi hflag
    have hc4 : (if e.start < prev then prev else e.start) < e.stop := by split <;> omega
    simp only [build_step, hflag, if_true]
    generalize (if e.start < prev then prev else e.start) = c at hc1 hc2 hc3 hc4
    rw [indexed_copy_split src 0 prev e.stop (by omega) hpe hel,
      indexed_copy_split src prev c e.stop hc1 hc2 hel,
      indexed_copy_split src c (c + 1) e.stop (by omega) (by omega) hel,
      copy_bytes_one src c (by omega), blank_bytes_eq src _ _ hel]
    simp only [List.append_assoc]
    refine List.rel_append h (List.rel_append ?_ (List.rel_append ?_ ?_))
    · have := forall2_map_indexed (byte_kin all) id prev (copy_bytes src prev c)
        (fun p _ => Or.inl rfl)
      simpa using this
    · simp only [indexed]
      refine List.Forall₂.cons ?_ List.Forall₂.nil
      exact Or.inr ⟨e, hmem, hc3, hc4, Or.inr ⟨hflag, rfl⟩⟩
    · refine forall2_map_indexed (byte_kin all) get_space_char _ _ ?_
      intro p hp
      obtain ⟨h1, h2, _⟩ := mem_indexed_copy hp
      exact Or.inr ⟨e, hmem, by omega, h2, Or.inl rfl⟩
  · simp only [build_step, hflag, if_false, List.append_assoc]
    generalize (if e.start < prev then prev else e.start) = c at hc1 hc2 hc3
    rw [indexed_copy_split src 0 prev e.stop (by omega) hpe hel,
      indexed_copy_split src prev c e.stop hc1 hc2 hel, blank_bytes_eq src _ _ hel]
    refine List.rel_append h (List.rel_append ?_ ?_)
    · have := forall2_map_indexed (byte_kin all) id prev (copy_bytes src prev c)
        (fun p _ => Or.inl rfl)
      simpa using this
    · refine forall2_map_indexed (byte_kin all) get_space_char _ _ ?_
      intro p hp
      obtain ⟨h1, h2, _⟩ := mem_indexed_copy hp
      exact Or.inr ⟨e, hmem, by omega, h2, Or.inl rfl⟩

theorem fold_kin (src : List Nat) (all : List Edit) (todo : List Edit) (out : List Nat)
    (prev : Nat) (hok : edits_fit src.length prev todo) (hprev : prev ≤ src.length)
    (hmem : ∀ e ∈ todo, e ∈ all)
    (h : List.Forall₂ (byte_kin all) out (indexed 0 (copy_bytes src 0 prev))) :
    List.Forall₂ (byte_kin all) (todo.foldl (build_step src) (out, prev)).1
        (indexed 0 (copy_bytes src 0 (todo.foldl (build_step src) (out, prev)).2)) ∧
      (todo.foldl (build_step src) (out, prev)).2 ≤ src.length := by
  induction todo generalizing out prev with
  | nil => exact ⟨h, hprev⟩
  | cons e es ih =>
    obtain ⟨he, hes⟩ := hok
    obtain ⟨h1, h2⟩ := build_step_kin src all out prev e he (hmem e (by simp)) h
    simp only [List.foldl_cons]
    have hst : build_step src (out, prev) e =
        ((build_step src (out, prev) e).1, e.stop) := by rw [← h2]
    rw [hst]
    exact ih _ _ hes he.2.2.1 (fun x hx => hmem x (by simp [hx])) h1

/-- Every byte of the replayed output relates to the source byte at the
same offset by `byte_kin`, for an edit list that is `edits_fit`. -/
theorem replay_kin (src : List Nat) (edits : List Edit)
    (hok : edits_fit src.length 0 edits) :
    List.Forall₂ (byte_kin edits) (replay src edits) (indexed 0 src) := by
  unfold replay
  split
  · have := forall2_map_indexed (byte_kin edits) id 0 src (fun p _ => Or.inl rfl)
    simpa using this
  · obtain ⟨h1, h2⟩ := fold_kin src edits edits [] 0 hok (Nat.zero_le _) (fun _ h => h)
      (by simp [copy_bytes, indexed])
    generalize edits.foldl (build_step src) ([], 0) = st at h1 h2
    have hsplit : indexed 0 src =
        indexed 0 (copy_bytes src 0 st.2) ++ indexed st.2 (copy_bytes src st.2 src.length) := by
      have := indexed_copy_split src 0 st.2 src.length (Nat.zero_le _) h2 (le_refl _)
      rwa [copy_bytes_all] at this
    show List.Forall₂ (byte_kin edits) (st.1 ++ copy_bytes src st.2 src.length) (indexed 0 src)
    rw [hsplit]
    refine List.rel_append h1 ?_
    have := forall2_map_indexed (byte_kin edits) id st.2 (copy_bytes src st.2 src.length)
      (fun p _ => Or.inl rfl)
    simpa using this

/-- C33, as amended. Clamping guards against overlap: for every source
shorter than 2^31 bytes and every edit list in which each edit is a range of
the source that ends at or after the end of the edit before it, and each
semicolon edit still has a byte once its start is clamped (`edits_fit`), also
when an edit starts before the end of the edit before it, the output of
`build_output` has exactly the length of the source, and the byte at each
offset of the output is the source byte at that offset, or that offset lies in
the range of an edit and the byte is the blank for the source byte or the `;`
of a semicolon edit: no source byte is written twice. -/
theorem clamp_keeps_length (ctx : parse_ctx_t) (_hlen : ctx.source.length < 2147483648)
    (hfit : edits_fit ctx.source.length 0 ctx.ranges.data) (out : List Nat)
    (h : build_output ctx = some out) :
    out.length = ctx.source.length ∧
    ∀ i b, out[i]? = some b → ∃ c, ctx.source[i]? = some c ∧
      (b = c ∨ ∃ e ∈ ctx.ranges.data, e.start ≤ i ∧ i < e.stop ∧
        (b = get_space_char c ∨ (e.flag = FLAG_REPLACE_WITH_SEMI ∧ b = 59))) := by
  have hout : out = replay ctx.source ctx.ranges.data := by
    unfold build_output at h
    split at h
    · exact (Option.some.inj h).symm
    · cases h
  have hrel := replay_kin ctx.source ctx.ranges.data hfit
  rw [← hout] at hrel
  refine ⟨by have := hrel.length_eq; rwa [indexed_length] at this, fun i b hb => ?_⟩
  obtain ⟨p, hp, hkin⟩ := forall2_get hrel i b hb
  rw [indexed_get] at hp
  cases hc : ctx.source[i]? with
  | none => simp [hc] at hp
  | some c =>
    simp only [hc, Option.map_some', Nat.zero_add, Option.some.injEq] at hp
    subst hp
    exact ⟨c, rfl, hkin⟩

/-- Instance of `clamp_keeps_length`: for `abcdefghij` and the edits Blank
0 to 5, semicolon 3 to 8, which overlap, the output is five blanks, the `;` at
offset 5, two blanks and `ij`. -/
theorem clamp_keeps_length_witness :
    (ascii "     ;  ij").length = (ctx_with_edits src_ten edits_overlap).source.length ∧
    ∀ i b, (ascii "     ;  ij")[i]? = some b →
      ∃ c, (ctx_with_edits src_ten edits_overlap).source[i]? = some c ∧
        (b = c ∨ ∃ e ∈ (ctx_with_edits src_ten edits_overlap).ranges.data,
          e.start ≤ i ∧ i < e.stop ∧
          (b = get_space_char c ∨ (e.flag = FLAG_REPLACE_WITH_SEMI ∧ b = 59))) :=
  clamp_keeps_length (ctx_with_edits src_ten edits_overlap) (by decide)
    ⟨⟨by decide, by decide, by decide, fun h => by cases h⟩,
      ⟨by decide, by decide, by decide, fun _ => ⟨by decide, by decide⟩⟩, trivial⟩
    (ascii "     ;  ij") (by decide)

theorem reference_byte_idem (edits : List Edit) (i c : Nat) :
    reference_byte edits i (reference_byte edits i c) = reference_byte edits i c := by
  unfold reference_byte
  split
  · rfl
  · split
    · by_cases h : c = 10 ∨ c = 13
      · rw [if_pos h, if_pos h]
      · rw [if_neg h]
        rfl
    · rfl

theorem indexed_map_idem (g : Nat → Nat → Nat) (hg : ∀ i c, g i (g i c) = g i c)
    (k : Nat) (l : List Nat) :
    (indexed k ((indexed k l).map (fun p => g p.1 p.2))).map (fun p => g p.1 p.2) =
      (indexed k l).map (fun p => g p.1 p.2) := by
  induction l generalizing k with
  | nil => rfl
  | cons c cs ih =>
    simp only [indexed, List.map_cons]
    rw [hg, ih]

theorem reference_output_length (src : List Nat) (edits : List Edit) :
    (reference_output src edits).length = src.length := by
  unfold reference_output
  rw [List.length_map, indexed_length]

/-- C39. Replaying edits is idempotent: for every source and every edit
list that is ordered, non-overlapping and in bounds, with non-empty semicolon
ranges, replaying the list over the output of replaying it gives that output
again; and so does `build_output`, when the output buffer is granted both
times. -/
theorem replay_idempotent (src : List Nat) (edits : List Edit)
    (hok : edits_disjoint src.length 0 edits) :
    replay (replay src edits) edits = replay src edits ∧
    ∀ ctx : parse_ctx_t, ctx.source = src → ctx.ranges.data = edits →
      ctx.allocator.grants ctx.requests = true →
      ∃ out, build_output ctx = some out ∧
        build_output { ctx with source := out } = some out := by
  have h1 := replay_eq_reference src edits hok
  have hlen : (replay src edits).length = src.length := by
    rw [h1, reference_output_length]
  have h2 := replay_eq_reference (replay src edits) edits (by rw [hlen]; exact hok)
  have hidem : replay (replay src edits) edits = replay src edits := by
    rw [h2, h1]
    unfold reference_output
    exact indexed_map_idem (reference_byte edits) (reference_byte_idem edits) 0 src
  refine ⟨hidem, fun ctx hs he hg => ⟨replay src edits, ?_, ?_⟩⟩
  · unfold build_output
    rw [if_pos hg, hs, he]
  · unfold build_output
    simp only []
    rw [if_pos hg, he, hidem]

/-- Instance of `replay_idempotent`: in `a;` followed by a type alias, the
alias replaced by `;` and blanks; replaying the edit over the output changes
nothing. -/
theorem replay_idempotent_witness :
    replay (replay src_alias_after_js [⟨FLAG_REPLACE_WITH_SEMI, 3, 14⟩])
        [⟨FLAG_REPLACE_WITH_SEMI, 3, 14⟩] =
      replay src_alias_after_js [⟨FLAG_REPLACE_WITH_SEMI, 3, 14⟩] :=
  (replay_idempotent src_alias_after_js [⟨FLAG_REPLACE_WITH_SEMI, 3, 14⟩]
    (by
      refine ⟨by decide, by decide, by decide, fun _ => by decide, trivial⟩)).1

/-! ## The traversal does not read the Unsupported flag -/

theorem sim_refl (a : parse_ctx_t) : Sim a a := ⟨a.has_unsupported, rfl⟩

theorem push_with_flag (g : Bool) (a : parse_ctx_t) (flag : range_flag) (s t : Nat) :
    range_array_push (with_flag g a) flag s t =
      (with_flag g (range_array_push a flag s t).1, (range_array_push a flag s t).2) := by
  by_cases h1 : a.ranges.size + 3 > a.ranges.capacity
  · by_cases h2 : a.allocator.grants a.requests = true
    · simp [range_array_push, with_flag, h1, h2]
    · simp [range_array_push, with_flag, h1, h2]
  · simp [range_array_push, with_flag, h1]

theorem sim_push {a b : parse_ctx_t} (h : Sim a b) (flag : range_flag) (s t : Nat) :
    Sim (range_array_push a flag s t).1 (range_array_push b flag s t).1 ∧
      (range_array_push a flag s t).2 = (range_array_push b flag s t).2 := by
  obtain ⟨g, rfl⟩ := h
  rw [push_with_flag]
  exact ⟨⟨g, rfl⟩, rfl⟩

theorem sim_mark {a b : parse_ctx_t} (h : Sim a b) (n : TSNode) :
    Sim (mark_unsupported a n) (mark_unsupported b n) := by
  obtain ⟨g, rfl⟩ := h
  exact ⟨true, rfl⟩

theorem sim_blank_node {a b : parse_ctx_t} (h : Sim a b) (n : TSNode) :
    Sim (blank_node a n).1 (blank_node b n).1 := (sim_push h _ _ _).1

theorem sim_blank_stmt {a b : parse_ctx_t} (h : Sim a b) (n : TSNode) :
    Sim (blank_stmt a n).1 (blank_stmt b n).1 := by
  have hb : blank_stmt b n =
      if a.seen_js && a.in_function_body == 0 then blank_semi b n.start_byte n.end_byte
      else blank_range b n.start_byte n.end_byte := by
    obtain ⟨g, rfl⟩ := h
    rfl
  rw [hb]
  unfold blank_stmt
  split
  · exact (sim_push h _ _ _).1
  · exact (sim_push h _ _ _).1

theorem sim_blank_type_anno {a b : parse_ctx_t} (h : Sim a b) (n : TSNode) :
    Sim (blank_type_anno a n).1 (blank_type_anno b n).1 := by
  have hb : blank_type_anno b n =
      blank_range b
        (if n.start_byte > 0 && a.source.getD (n.start_byte - 1) 0 == 58 then n.start_byte - 1
          else n.start_byte) n.end_byte := by
    obtain ⟨g, rfl⟩ := h
    rfl
  rw [hb]
  exact (sim_push h _ _ _).1

theorem sim_fold (step : parse_ctx_t → TSNode → parse_ctx_t) (cs : List TSNode)
    (h : ∀ c ∈ cs, ∀ a b, Sim a b → Sim (step a c) (step b c)) (a b : parse_ctx_t)
    (hab : Sim a b) : Sim (cs.foldl step a) (cs.foldl step b) := by
  induction cs generalizing a b with
  | nil => exact hab
  | cons c cs ih =>
    simp only [List.foldl_cons]
    exact ih (fun d hd => h d (by simp [hd])) _ _ (h c (by simp) a b hab)

theorem sim_seen {a b : parse_ctx_t} (h : Sim a b) (v : Bool) :
    Sim { a with seen_js := v } { b with seen_js := v } := by
  obtain ⟨g, rfl⟩ := h
  exact ⟨g, rfl⟩

theorem sim_depth {a b : parse_ctx_t} (h : Sim a b) (d : Int) :
    Sim { a with in_function_body := d } { b with in_function_body := d } := by
  obtain ⟨g, rfl⟩ := h
  exact ⟨g, rfl⟩

theorem sim_fields {a b : parse_ctx_t} (h : Sim a b) :
    b.seen_js = a.seen_js ∧ b.in_function_body = a.in_function_body ∧
      b.ranges = a.ranges ∧ b.requests = a.requests ∧ b.source = a.source ∧
      b.parent_statement = a.parent_statement := by
  obtain ⟨g, rfl⟩ := h
  exact ⟨rfl, rfl, rfl, rfl, rfl, rfl⟩

theorem sim_visit_children {V : Visitor} (hV : FlagBlind V) {a b : parse_ctx_t}
    (h : Sim a b) (n : TSNode) :
    Sim (visit_children V a n).1 (visit_children V b n).1 ∧
      (visit_children V a n).2 = (visit_children V b n).2 := by
  unfold visit_children
  try simp only []
  have hf := sim_fold (fun ctx child =>
      if (V ctx child).2 = VISITED_JS then { (V ctx child).1 with seen_js := true }
      else (V ctx child).1) n.children (fun c _ x y hxy => by
    have h1 := hV x y c hxy
    try simp only []
    rw [← h1.2]
    split
    · exact sim_seen h1.1 true
    · exact h1.1) a b h
  exact ⟨hf, by rw [(sim_fields hf).1]⟩

theorem sim_visit_formal_parameters {V : Visitor} (hV : FlagBlind V) {a b : parse_ctx_t}
    (h : Sim a b) (n : TSNode) :
    Sim (visit_formal_parameters V a n) (visit_formal_parameters V b n) := by
  unfold visit_formal_parameters
  refine sim_fold _ _ (fun c _ x y hxy => ?_) a b h
  unfold visit_parameter
  refine sim_fold _ _ (fun d _ x2 y2 h2 => ?_) x y hxy
  try simp only []
  split
  · exact sim_blank_node h2 d
  · exact (hV x2 y2 d h2).1

theorem sim_visit_signature_children {V : Visitor} (hV : FlagBlind V) {a b : parse_ctx_t}
    (h : Sim a b) (n : TSNode) :
    Sim (visit_signature_children V a n) (visit_signature_children V b n) := by
  unfold visit_signature_children
  refine sim_fold _ _ (fun c _ x y hxy => ?_) a b h
  try simp only []
  split
  · exact sim_blank_node hxy c
  · split
    · exact sim_visit_formal_parameters hV hxy c
    · exact (hV x y c hxy).1

theorem sim_visit_node_body_state {V : Visitor} (hV : FlagBlind V) (a b : parse_ctx_t)
    (n : TSNode) (h : Sim a b) : Sim (visit_node_body V a n).1 (visit_node_body V b n).1 := by
  have hmark : Sim (mark_unsupported a n) (mark_unsupported b n) := sim_mark h n
  have hstmt : Sim (blank_stmt a n).1 (blank_stmt b n).1 := sim_blank_stmt h n
  have hkids : Sim (visit_children V a n).1 (visit_children V b n).1 :=
    (sim_visit_children hV h n).1
  unfold visit_node_body
  cases hk : classify n.type <;> simp only []
  case error => exact hmark
  case ambient_declaration => split <;> assumption
  case type_declaration => exact hstmt
  case import_statement =>
    split
    · exact hmark
    · split <;> assumption
  case import_alias => exact h
  case export_statement =>
    split
    · exact hstmt
    · split <;> assumption
  case variable_declarator =>
    refine sim_fold _ _ (fun c _ x y hxy => ?_) a b h
    try simp only []
    split
    · exact sim_blank_type_anno hxy c
    · split
      · exact sim_blank_node hxy c
      · exact (hV x y c hxy).1
  case declaration_list => exact hkids
  case function_like =>
    unfold visit_function_like
    split
    · exact hstmt
    · split
      · exact hmark
      · rw [(sim_fields h).2.1]
        exact sim_depth (sim_visit_signature_children hV
          (sim_depth h (a.in_function_body + 1)) n) _
  case arrow_function =>
    unfold visit_arrow_function
    exact sim_visit_signature_children hV h n
  case binary_expression =>
    unfold visit_binary_expression
    split
    · rename_i inner _
      simp only []
      have h1 := (hV a b inner h).1
      have h2 := (sim_push h1 FLAG_BLANK inner.end_byte
        (ts_node_start_byte (find_actual_call (get_child_by_field n "right")))).1
      unfold visit_opt
      split
      · exact h2
      · rename_i m _
        exact (hV _ _ m h2).1
    · exact hkids
  case class_declaration =>
    unfold visit_class_declaration
    refine sim_fold _ _ (fun c _ x y hxy => ?_) a b h
    try simp only []
    split
    · exact sim_blank_node hxy c
    · split
      · unfold visit_heritage
        refine sim_fold _ _ (fun d _ x2 y2 h2 => ?_) x y hxy
        try simp only []
        split
        · exact sim_blank_node h2 d
        · exact (hV x2 y2 d h2).1
      · exact (hV x y c hxy).1
  case field_definition =>
    refine sim_fold _ _ (fun c _ x y hxy => ?_) a b h
    try simp only []
    split
    · exact sim_blank_node hxy c
    · exact (hV x y c hxy).1
  case enum_declaration => exact hmark
  case module => exact hmark
  case internal_module => split <;> assumption
  case as_expression =>
    split
    · rename_i expr _
      have h1 := (hV a b expr h).1
      have hs : as_needs_semi (V b expr).1 n.end_byte = as_needs_semi (V a expr).1 n.end_byte := by
        unfold as_needs_semi parse_ctx_t.source_len
        rw [(sim_fields h1).2.2.2.2.1, (sim_fields h1).2.2.2.2.2]
      rw [hs]
      split
      · exact (sim_push h1 _ _ _).1
      · exact (sim_push h1 _ _ _).1
    · exact h
  case type_assertion => exact hmark
  case non_null_expression =>
    split
    · rename_i expr _
      exact (sim_push (hV a b expr h).1 _ _ _).1
    · exact (sim_push h _ _ _).1
  case call_expression =>
    refine sim_fold _ _ (fun c _ x y hxy => ?_) a b h
    try simp only []
    split
    · exact sim_blank_node hxy c
    · exact (hV x y c hxy).1
  case type_node => exact sim_blank_node h n
  case other => exact hkids

/-- The result of the body of `visit_node` depends on the type and the
children of the node only, not on the traversal state. -/
theorem visit_node_body_result (V : Visitor) (a b : parse_ctx_t) (n : TSNode) :
    (visit_node_body V a n).2 = (visit_node_body V b n).2 := by
  unfold visit_node_body
  cases hk : classify n.type <;> simp only []
  case ambient_declaration => split <;> rfl
  case import_statement =>
    split
    · rfl
    · split <;> rfl
  case export_statement =>
    split
    · rfl
    · split <;> rfl
  case function_like =>
    unfold visit_function_like
    split
    · rfl
    · split <;> rfl
  case arrow_function => rfl
  case binary_expression =>
    unfold visit_binary_expression
    split <;> rfl
  case class_declaration => rfl
  case internal_module => split <;> rfl
  case as_expression =>
    split
    · split <;> split <;> rfl
    · rfl

theorem sim_visit_node_body {V : Visitor} (hV : FlagBlind V) :
    FlagBlind (visit_node_body V) :=
  fun a b n h => ⟨sim_visit_node_body_state hV a b n h, visit_node_body_result V a b n⟩

theorem sim_visit_node_fuel (fuel : Nat) : FlagBlind (visit_node_fuel fuel) := by
  induction fuel with
  | zero => exact fun a b _ h => ⟨h, rfl⟩
  | succ f ih => exact sim_visit_node_body ih

/-- The visitor does not read the Unsupported flag. -/
theorem sim_visit_node : FlagBlind visit_node :=
  fun a b n h => sim_visit_node_fuel (n.height + 1) a b n h

theorem sim_visit_top_level {a b : parse_ctx_t} (h : Sim a b) (root : TSNode) :
    Sim (visit_top_level a root) (visit_top_level b root) := by
  unfold visit_top_level
  refine sim_fold _ _ (fun c _ x y hxy => ?_) a b h
  have hp : Sim { x with parent_statement := some c } { y with parent_statement := some c } := by
    obtain ⟨g, rfl⟩ := hxy
    exact ⟨g, rfl⟩
  have h1 := sim_visit_node _ _ c hp
  try simp only []
  rw [← h1.2]
  split
  · exact sim_seen h1.1 true
  · exact h1.1

theorem visit_top_level_source (ctx : parse_ctx_t) (root : TSNode) :
    (visit_top_level ctx root).source = ctx.source ∧
      (visit_top_level ctx root).allocator = ctx.allocator := by
  have key : (fun x : parse_ctx_t => (x.source, x.allocator)) (visit_top_level ctx root) =
      (fun x : parse_ctx_t => (x.source, x.allocator)) ctx := by
    unfold visit_top_level
    refine fold_unchanged (fun x : parse_ctx_t => (x.source, x.allocator)) _ _ _
      (fun c _ x => ?_)
    have h1 := same_frame_visit_node { x with parent_statement := some c } c
    have h3 : (fun y : parse_ctx_t => (y.source, y.allocator))
        (visit_node { x with parent_statement := some c } c).1 = (x.source, x.allocator) := by
      simp only [h1.1, h1.2.2]
    try simp only []
    split
    · exact h3
    · exact h3
  simp only [Prod.mk.injEq] at key
  exact key

/-- C31. Unsupported never short-circuits erasure: the visit of a node,
and the loop over the top-level statements, started with the Unsupported flag
replaced by any value, record the same edits, return the same result and leave
the same `seen_js` as started from the state itself, so what is erased after a
statement has set the flag is what would be erased had it not been set; the
loop goes through all the top-level statements either way, a flag that is set
stays set, the output built is the same, and when the flag is set at the end
of the traversal of a non-empty source and the allocator grants the two
requests, the status is Unsupported and the output is the source with every
recorded edit replayed. -/
theorem unsupported_never_short_circuits (ctx : parse_ctx_t) (n root : TSNode) (flag : Bool) :
    (visit_node (with_flag flag ctx) n).1.ranges = (visit_node ctx n).1.ranges ∧
    (visit_node (with_flag flag ctx) n).2 = (visit_node ctx n).2 ∧
    (visit_node (with_flag flag ctx) n).1.seen_js = (visit_node ctx n).1.seen_js ∧
    (visit_top_level (with_flag flag ctx) root).ranges = (visit_top_level ctx root).ranges ∧
    (visit_top_level (with_flag true ctx) root).has_unsupported = true ∧
    build_output (visit_top_level (with_flag flag ctx) root) =
      build_output (visit_top_level ctx root) ∧
    ∀ (alloc : ts_strip_allocator_t) (requests : Nat) (parse : List Nat → Option TSNode)
      (src : List Nat),
      src ≠ [] → parse src = some root → alloc.grants requests = true →
      alloc.grants (traversal alloc requests src root).requests = true →
      (traversal alloc requests src root).has_unsupported = true →
      ts_strip_with_ctx alloc requests parse (some src) =
        (TS_STRIP_ERROR_UNSUPPORTED,
          some (replay src (visit_top_level
            (with_flag flag (initial_ctx alloc (requests + 1) src)) root).ranges.data)) := by
  have hn := sim_visit_node ctx (with_flag flag ctx) n ⟨flag, rfl⟩
  have ht : ∀ x, Sim (visit_top_level x root) (visit_top_level (with_flag flag x) root) :=
    fun x => sim_visit_top_level ⟨flag, rfl⟩ root
  refine ⟨(sim_fields hn.1).2.2.1, hn.2.symm, (sim_fields hn.1).1, (sim_fields (ht ctx)).2.2.1,
    (grows_visit_top_level (with_flag true ctx) root).flag rfl, ?_, ?_⟩
  · obtain ⟨g, hg⟩ := ht ctx
    rw [hg]
    rfl
  · intro alloc requests parse src hne hp hg0 hg1 hflag
    have hlen : ¬ src.length = 0 := fun h => hne (List.length_eq_zero.mp h)
    rw [(sim_fields (ht (initial_ctx alloc (requests + 1) src))).2.2.1]
    unfold traversal at hg1 hflag
    have hsrc := visit_top_level_source (initial_ctx alloc (requests + 1) src) root
    unfold ts_strip_with_ctx
    simp only [if_neg hlen, hp, if_pos hg0]
    have hb : build_output (visit_top_level (initial_ctx alloc (requests + 1) src) root) =
        some (replay src (visit_top_level (initial_ctx alloc (requests + 1) src) root).ranges.data)
        := by
      unfold build_output
      rw [hsrc.2, hsrc.1]
      show (if alloc.grants _ = true then some (replay src _) else none) = _
      rw [if_pos hg1]
    rw [hb]
    simp only [hflag, if_true]

/-- Instance of `unsupported_never_short_circuits`: an enum declaration
followed by a type alias; the alias, the sibling of the unsupported enum, is
erased (with a `;`, runtime code having been seen), and the status is
Unsupported. -/
theorem unsupported_never_short_circuits_witness :
    ts_strip_with_ctx default_alloc 0 (fun _ => some tree_enum_then_alias)
        (some src_enum_then_alias) =
      (TS_STRIP_ERROR_UNSUPPORTED, some (ascii "enum E\x7b\x7d\n;       \n")) := by
  have h := (unsupported_never_short_circuits (initial_ctx default_alloc 1 src_enum_then_alias)
    tree_enum_then_alias tree_enum_then_alias false).2.2.2.2.2.2
    default_alloc 0 (fun _ => some tree_enum_then_alias) src_enum_then_alias
    (by decide) rfl rfl rfl (by decide)
  rw [h]
  decide

/-! ## The function-body depth -/

theorem foldl_congr_depth (f g : parse_ctx_t → TSNode → parse_ctx_t) (cs : List TSNode)
    (d : Int) (a : parse_ctx_t) (ha : a.in_function_body = d)
    (h : ∀ c ∈ cs, ∀ x, x.in_function_body = d →
      f x c = g x c ∧ (g x c).in_function_body = d) :
    cs.foldl f a = cs.foldl g a := by
  induction cs generalizing a with
  | nil => rfl
  | cons c cs ih =>
    simp only [List.foldl_cons]
    have h1 := h c (by simp) a ha
    rw [h1.1]
    exact ih _ h1.2 (fun e he => h e (by simp [he]))

theorem guard_visit_children {V1 V2 : Visitor} (h12 : AgreeAbove V1 V2) (hbal : GrowsSpec V2)
    (ctx : parse_ctx_t) (n : TSNode) (h0 : 0 ≤ ctx.in_function_body) :
    visit_children V1 ctx n = visit_children V2 ctx n := by
  unfold visit_children
  have hf := foldl_congr_depth
    (fun ctx child =>
      if (V1 ctx child).2 = VISITED_JS then { (V1 ctx child).1 with seen_js := true }
      else (V1 ctx child).1)
    (fun ctx child =>
      if (V2 ctx child).2 = VISITED_JS then { (V2 ctx child).1 with seen_js := true }
      else (V2 ctx child).1)
    n.children ctx.in_function_body ctx rfl (fun c _ x hx => by
      constructor
      · simp only []
        rw [h12 x c (by omega)]
      · simp only []
        split
        · exact (hbal x c).2.trans hx
        · exact (hbal x c).2.trans hx)
  simp only [] at hf ⊢
  rw [hf]

theorem guard_visit_formal_parameters {V1 V2 : Visitor} (h12 : AgreeAbove V1 V2)
    (hbal : GrowsSpec V2) (ctx : parse_ctx_t) (n : TSNode) (h0 : 0 ≤ ctx.in_function_body) :
    visit_formal_parameters V1 ctx n = visit_formal_parameters V2 ctx n := by
  unfold visit_formal_parameters
  refine foldl_congr_depth _ _ _ ctx.in_function_body ctx rfl (fun c _ x hx => ⟨?_, ?_⟩)
  · unfold visit_parameter
    refine foldl_congr_depth _ _ _ ctx.in_function_body x hx (fun g _ y hy => ⟨?_, ?_⟩)
    · try simp only []
      rw [h12 y g (by omega)]
    · try simp only []
      split
      · exact (grows_blank_node y g).2.trans hy
      · exact (hbal y g).2.trans hy
  · have := (grows_visit_formal_parameters hbal x (.mk "" none 0 0 [c])).2
    unfold visit_formal_parameters at this
    simp only [TSNode.children, List.foldl_cons, List.foldl_nil] at this
    exact this.trans hx

theorem guard_visit_signature_children {V1 V2 : Visitor} (h12 : AgreeAbove V1 V2)
    (hbal : GrowsSpec V2) (ctx : parse_ctx_t) (n : TSNode) (h0 : 0 ≤ ctx.in_function_body) :
    visit_signature_children V1 ctx n = visit_signature_children V2 ctx n := by
  unfold visit_signature_children
  refine foldl_congr_depth _ _ _ ctx.in_function_body ctx rfl (fun c _ x hx => ⟨?_, ?_⟩)
  · try simp only []
    rw [h12 x c (by omega), guard_visit_formal_parameters h12 hbal x c (by omega)]
  · try simp only []
    split
    · exact (grows_blank_node x c).2.trans hx
    · split
      · exact (grows_visit_formal_parameters hbal x c).2.trans hx
      · exact (hbal x c).2.trans hx

theorem guard_visit_node_body {V1 V2 : Visitor} (h12 : AgreeAbove V1 V2)
    (hbal : GrowsSpec V2) : AgreeAbove (visit_node_body V1) (visit_node_body V2) := by
  intro ctx n h0
  have hkids := guard_visit_children h12 hbal ctx n h0
  unfold visit_node_body
  cases hk : classify n.type <;> try simp only []
  case export_statement => rw [hkids]
  case variable_declarator =>
    congr 1
    refine foldl_congr_depth _ _ _ ctx.in_function_body ctx rfl (fun c _ x hx => ⟨?_, ?_⟩)
    · try simp only []
      rw [h12 x c (by omega)]
    · try simp only []
      split
      · exact (grows_blank_type_anno x c).2.trans hx
      · split
        · exact (grows_blank_node x c).2.trans hx
        · exact (hbal x c).2.trans hx
  case declaration_list => rw [hkids]
  case function_like =>
    unfold visit_function_like
    split
    · rfl
    · split
      · rfl
      · try simp only []
        rw [guard_visit_signature_children h12 hbal
          { ctx with in_function_body := ctx.in_function_body + 1 } n
          (by show 0 ≤ ctx.in_function_body + 1; omega)]
  case arrow_function =>
    unfold visit_arrow_function
    rw [guard_visit_signature_children h12 hbal ctx n h0]
  case binary_expression =>
    unfold visit_binary_expression
    split
    · rename_i inner _
      simp only []
      rw [h12 ctx inner h0]
      have hd : (blank_range (V2 ctx inner).1 inner.end_byte
          (ts_node_start_byte (find_actual_call (get_child_by_field n "right")))).1.in_function_body
          = ctx.in_function_body :=
        ((push_flags _ _ _ _).2.2.1).trans (hbal ctx inner).2
      unfold visit_opt
      split
      · rfl
      · rename_i m _
        rw [h12 _ m (by omega)]
    · rw [hkids]
  case class_declaration =>
    unfold visit_class_declaration
    congr 1
    refine foldl_congr_depth _ _ _ ctx.in_function_body ctx rfl (fun c _ x hx => ⟨?_, ?_⟩)
    · try simp only []
      have hh : visit_heritage V1 x c = visit_heritage V2 x c := by
        unfold visit_heritage
        refine foldl_congr_depth _ _ _ ctx.in_function_body x hx (fun g _ y hy => ⟨?_, ?_⟩)
        · try simp only []
          rw [h12 y g (by omega)]
        · try simp only []
          split
          · exact (grows_blank_node y g).2.trans hy
          · exact (hbal y g).2.trans hy
      rw [h12 x c (by omega), hh]
    · try simp only []
      split
      · exact (grows_blank_node x c).2.trans hx
      · split
        · unfold visit_heritage
          refine ((grows_fold _ c.children x (fun g _ y => ?_)).2).trans hx
          try simp only []
          split
          · exact grows_blank_node y g
          · exact hbal y g
        · exact (hbal x c).2.trans hx
  case field_definition =>
    congr 1
    refine foldl_congr_depth _ _ _ ctx.in_function_body ctx rfl (fun c _ x hx => ⟨?_, ?_⟩)
    · try simp only []
      rw [h12 x c (by omega)]
    · try simp only []
      split
      · exact (grows_blank_node x c).2.trans hx
      · exact (hbal x c).2.trans hx
  case as_expression =>
    split
    · rename_i expr _
      rw [h12 ctx expr h0]
    · rfl
  case non_null_expression =>
    split
    · rename_i expr _
      rw [h12 ctx expr h0]
    · rfl
  case call_expression =>
    congr 1
    refine foldl_congr_depth _ _ _ ctx.in_function_body ctx rfl (fun c _ x hx => ⟨?_, ?_⟩)
    · try simp only []
      rw [h12 x c (by omega)]
    · try simp only []
      split
      · exact (grows_blank_node x c).2.trans hx
      · exact (hbal x c).2.trans hx
  case other => rw [hkids]

theorem guard_visit_node_fuel (W : Visitor) (fuel : Nat) :
    AgreeAbove (visit_node_guarded W fuel) (visit_node_fuel fuel) := by
  induction fuel with
  | zero => exact fun _ _ _ => rfl
  | succ f ih =>
    intro ctx n h0
    show guarded W (visit_node_body (visit_node_guarded W f)) ctx n =
      visit_node_body (visit_node_fuel f) ctx n
    unfold guarded
    rw [if_pos h0]
    exact guard_visit_node_body ih (grows_visit_node_fuel f) ctx n h0

theorem visit_top_level_depth (ctx : parse_ctx_t) (root : TSNode) :
    (visit_top_level ctx root).in_function_body = ctx.in_function_body := by
  unfold visit_top_level
  refine (grows_fold _ root.children ctx (fun c _ x => ?_)).2
  have := grows_visit_node { x with parent_statement := some c } c
  have g1 : Grows x { x with parent_statement := some c } := Grows.of_eq rfl rfl rfl
  try simp only []
  split
  · have g3 : Grows (visit_node { x with parent_statement := some c } c).1
        { (visit_node { x with parent_statement := some c } c).1 with seen_js := true } :=
      Grows.of_eq rfl rfl rfl
    exact ⟨g1.trans (this.1.trans g3), this.2⟩
  · exact ⟨g1.trans this.1, this.2⟩

/-- C37. Depth is balanced: for every node and every starting state,
`visit_node` returns with `in_function_body` equal to its value on entry, and
so does `visit_function_like` on each of its returns (no body, parameter
properties, or after the loop); the loop over any list of top-level
statements, which starts at 0, ends at the depth it started with, so every
top-level statement is entered at depth 0; and in a visit entered at a
non-negative depth no visit is entered at a negative depth, at any level of
the recursion: whatever visitor `W` is put in the place of the visits entered
at a negative depth, the result is the same. -/
theorem depth_balanced (ctx : parse_ctx_t) (n : TSNode) :
    (visit_node ctx n).1.in_function_body = ctx.in_function_body ∧
    (visit_function_like visit_node ctx n).1.in_function_body = ctx.in_function_body ∧
    (∀ (alloc : ts_strip_allocator_t) (requests : Nat) (src : List Nat),
      (initial_ctx alloc requests src).in_function_body = 0) ∧
    (∀ root : TSNode, (visit_top_level ctx root).in_function_body = ctx.in_function_body) ∧
    (∀ W : Visitor, 0 ≤ ctx.in_function_body →
      visit_node_guarded W (n.height + 1) ctx n = visit_node ctx n) := by
  refine ⟨(grows_visit_node ctx n).2, ?_, fun _ _ _ => rfl,
    fun root => visit_top_level_depth ctx root,
    fun W h0 => guard_visit_node_fuel W (n.height + 1) ctx n h0⟩
  unfold visit_function_like
  split
  · exact (blank_stmt_flags ctx n).2.2.1
  · split
    · rfl
    · rfl

/-- Instance of `depth_balanced`: the visit of the function declaration
`function f(): "..." \x7b\x7d` from the initial state, where every visit
entered at a negative depth would set the Unsupported flag, is the visit
itself, and it ends at depth 0. -/
theorem depth_balanced_witness :
    visit_node_guarded (fun ctx _ => (with_flag true ctx, VISIT_BLANKED))
        (node_multibyte.height + 1) (initial_ctx default_alloc 1 src_multibyte) node_multibyte =
      visit_node (initial_ctx default_alloc 1 src_multibyte) node_multibyte ∧
    (visit_node (initial_ctx default_alloc 1 src_multibyte) node_multibyte).1.in_function_body
      = 0 :=
  ⟨(depth_balanced (initial_ctx default_alloc 1 src_multibyte) node_multibyte).2.2.2.2
      (fun ctx _ => (with_flag true ctx, VISIT_BLANKED)) (by decide),
   (depth_balanced (initial_ctx default_alloc 1 src_multibyte) node_multibyte).1⟩

/-! ## Order of the recorded edits -/

/-- C32. Edit order invariant: for every well-formed tree of a source
shorter than 2^31 bytes (every offset is then a value the `int`s of the edit
array hold), the edits the traversal has recorded are in
non-decreasing start order, each of them a non-empty range of the source;
and edits are only ever appended: `range_array_push` leaves the list as it
was or adds the new edit at its end, and the list after the visit of any
node, or after the loop over any top-level statements, is the list before it
followed by the edits added. -/
theorem edit_order_invariant (alloc : ts_strip_allocator_t) (requests : Nat)
    (src : List Nat) (root : TSNode) (hlen : src.length < 2147483648)
    (hwf : well_formed_root src.length root = true) :
    (traversal alloc requests src root).ranges.data.Pairwise (fun a b => a.start ≤ b.start) ∧
    (∀ e ∈ (traversal alloc requests src root).ranges.data,
      e.start < e.stop ∧ e.stop ≤ src.length) ∧
    (∀ (ctx : parse_ctx_t) (flag : range_flag) (s t : Nat),
      (range_array_push ctx flag s t).1.ranges.data = ctx.ranges.data ∨
        (range_array_push ctx flag s t).1.ranges.data = ctx.ranges.data ++ [⟨flag, s, t⟩]) ∧
    (∀ (ctx : parse_ctx_t) (n : TSNode),
      ∃ added, (visit_node ctx n).1.ranges.data = ctx.ranges.data ++ added) ∧
    (∀ (ctx : parse_ctx_t) (r : TSNode),
      ∃ added, (visit_top_level ctx r).ranges.data = ctx.ranges.data ++ added) := by
  have hinv := traversal_inv hlen alloc requests root
    (well_formed_root_tree_ok src.length root hwf)
  exact ⟨hinv.sorted rfl, fun e he => ⟨hinv.nonempty rfl e he, hinv.stops e he⟩,
    fun ctx flag s t => push_data_cases ctx flag s t,
    fun ctx n => (grows_visit_node ctx n).1.edits,
    fun ctx r => (grows_visit_top_level ctx r).edits⟩

/-- Instance of `edit_order_invariant`: the four edits of
`let x: any, y! : string, z: any;` are recorded in the order of their
starts, 5, 13, 15, 26. -/
theorem edit_order_invariant_witness :
    (traversal default_alloc 0 src_definite tree_definite).ranges.data.map Edit.start =
      [5, 13, 15, 26] ∧
    (traversal default_alloc 0 src_definite tree_definite).ranges.data.Pairwise
      (fun a b => a.start ≤ b.start) :=
  ⟨by decide,
   (edit_order_invariant default_alloc 0 src_definite tree_definite (by decide)
    (by decide)).1⟩

/-! ## Namespaces in the whole traversal -/

/-- C12. A namespace is never partially erased.  For every
`internal_module` node: its visit, in any state, marks Unsupported and
records nothing when the node has runtime evidence, and is the
whole-statement erasure of the node when it has none; the children are not
visited.  And for every such node the visitor reaches in the traversal of a
tree a parser can deliver (source shorter than 2^31 bytes; the node begins
with its keyword and ends with the `}` of its body, so that neither its first
nor its last byte is a `:`): with evidence the node is logged as unsupported
and every edit of the whole traversal ends at or before the start of the node
or starts at or after its end; without evidence, when the allocator grants
every request, the edits of the whole traversal are those that end at or
before the start of the node, then the one edit over exactly the range of the
node, then those that start at or after its end.  No edit, whenever it is
recorded, covers a proper part of the namespace. -/
theorem namespace_never_partially_erased (alloc : ts_strip_allocator_t) (requests : Nat)
    (src : List Nat) (hlen : src.length < 2147483648) (root : TSNode)
    (hwf : tree_ok_root false src.length root = true)
    (c n : TSNode) (hc : c ∈ root.children) (hn : n ∈ visited c)
    (hty : n.type = "internal_module")
    (hfirst : src[n.start_byte]? ≠ some 58) (hlast : src[n.end_byte - 1]? ≠ some 58) :
    (∀ ctx : parse_ctx_t,
      visit_node ctx n =
        if has_runtime_values (some n) then (mark_unsupported ctx n, VISITED_JS)
        else ((blank_stmt ctx n).1, VISIT_BLANKED)) ∧
    (has_runtime_values (some n) = true →
      (traversal alloc requests src root).has_unsupported = true ∧
      (n.start_byte, n.end_byte) ∈ (traversal alloc requests src root).marked ∧
      ∀ e ∈ (traversal alloc requests src root).ranges.data,
        e.stop ≤ n.start_byte ∨ n.end_byte ≤ e.start) ∧
    (has_runtime_values (some n) = false → (∀ k, alloc.grants k = true) →
      ∃ flag before after,
        (traversal alloc requests src root).ranges.data =
          before ++ ⟨flag, n.start_byte, n.end_byte⟩ :: after ∧
        (∀ e ∈ before, e.stop ≤ n.start_byte) ∧ (∀ e ∈ after, n.end_byte ≤ e.start)) := by
  have hk : classify n.type = node_kind.internal_module := by rw [hty]; decide
  have hinv := traversal_inv hlen alloc requests root hwf
  refine ⟨fun ctx => visit_node_internal_module ctx n hk, fun hev => ?_, fun hev hgrant => ?_⟩
  · have hmark : (n.start_byte, n.end_byte) ∈ (traversal alloc requests src root).marked := by
      refine reached_top_level
        (fun m x => classify m.type = node_kind.internal_module →
          has_runtime_values (some m) = true → (m.start_byte, m.end_byte) ∈ x.marked)
        (fun m a b hab h h1 h2 => ?_) ?_ _ root c n hc hn hk hev
      · obtain ⟨added, hadd⟩ := hab.1.marks
        rw [hadd]
        exact List.mem_append_left _ (h h1 h2)
      · intro V _ _ x m h1 h2
        unfold visit_node_body
        rw [h1]
        simp only [h2, if_true, mark_unsupported, List.mem_append, List.mem_singleton, or_true]
    refine ⟨hinv.flagged.mpr (List.ne_nil_of_mem hmark), hmark, fun e he => ?_⟩
    rcases hinv.apart e he _ hmark with h | h | ⟨h1, h2⟩
    · exact Or.inl h
    · exact Or.inr h
    · by_cases h3 : n.end_byte ≤ e.start
      · exact Or.inr h3
      · exfalso
        have h4 : e.start = n.end_byte - 1 := by
          simp only [] at h1
          omega
        rw [h4] at h2
        exact hlast h2
  · have hedit : ∃ flag, (⟨flag, n.start_byte, n.end_byte⟩ : Edit) ∈
        (traversal alloc requests src root).ranges.data := by
      have halloc : (visit_top_level (initial_ctx alloc (requests + 1) src) root).allocator
          = alloc :=
        (visit_top_level_source (initial_ctx alloc (requests + 1) src) root).2
      refine reached_top_level
        (fun m x => classify m.type = node_kind.internal_module →
          has_runtime_values (some m) = false → (∀ k, x.allocator.grants k = true) →
          ∃ flag, (⟨flag, m.start_byte, m.end_byte⟩ : Edit) ∈ x.ranges.data)
        (fun m a b hab h h1 h2 h3 => ?_) ?_ _ root c n hc hn hk hev
        (by rw [halloc]; exact hgrant)
      · obtain ⟨added, hadd⟩ := hab.1.edits
        obtain ⟨flag, hflag⟩ := h h1 h2 (by rw [← hab.2.2]; exact h3)
        exact ⟨flag, by rw [hadd]; exact List.mem_append_left _ hflag⟩
      · intro V _ _ x m h1 h2 h3
        unfold visit_node_body at h3 ⊢
        rw [h1] at h3 ⊢
        simp only [h2, Bool.false_eq_true, if_false] at h3 ⊢
        have hx : ∀ k, x.allocator.grants k = true := by
          rw [← (same_frame_blank_stmt x m).2.2]
          exact h3
        refine ⟨if x.seen_js = true ∧ x.in_function_body = 0 then FLAG_REPLACE_WITH_SEMI
          else FLAG_BLANK, ?_⟩
        rw [blank_stmt_data x m (Or.inr (hx _))]
        exact List.mem_append_right _ (List.mem_singleton.mpr rfl)
    obtain ⟨flag, hflag⟩ := hedit
    obtain ⟨before, after, hsplit⟩ := List.append_of_mem hflag
    refine ⟨flag, before, after, hsplit, fun e he => ?_, fun e he => ?_⟩
    · have hsp := hinv.spaced
      rw [hsplit, List.pairwise_append] at hsp
      rcases hsp.2.2 e he _ (List.mem_cons_self _ _) with h | ⟨_, h⟩
      · exact h
      · exact absurd h hfirst
    · have hsp := hinv.spaced
      rw [hsplit, List.pairwise_append, List.pairwise_cons] at hsp
      rcases hsp.2.1.1 e he with h | ⟨h1, h2⟩
      · exact h
      · by_cases h3 : n.end_byte ≤ e.start
        · exact h3
        · exfalso
          have h4 : e.start = n.end_byte - 1 := by
            simp only [] at h1
            omega
          rw [h4] at h2
          exact hlast h2

/-- Instance of `namespace_never_partially_erased`: the namespace of
`namespace N { type T = 1 }`, followed by `let x: T;`, is logged as
unsupported, and the edit of the type annotation of the declaration that
follows it starts after its end. -/
theorem namespace_never_partially_erased_witness :
    (traversal default_alloc 0 src_namespace_then_let tree_namespace_then_let).has_unsupported
      = true ∧
    (node_type_namespace.start_byte, node_type_namespace.end_byte) ∈
      (traversal default_alloc 0 src_namespace_then_let tree_namespace_then_let).marked ∧
    ∀ e ∈ (traversal default_alloc 0 src_namespace_then_let tree_namespace_then_let).ranges.data,
      e.stop ≤ node_type_namespace.start_byte ∨ node_type_namespace.end_byte ≤ e.start :=
  (namespace_never_partially_erased default_alloc 0 src_namespace_then_let (by decide)
    tree_namespace_then_let (by decide) node_type_namespace node_type_namespace
    (mem_of_index _ 0 _ rfl) (mem_of_index _ 0 _ rfl) rfl (by decide) (by decide)).2.1
    (by decide)

/-! ## Line breaks are kept -/

theorem lines_ok_list_iff (src : List Nat) (se : Nat) (cs : List TSNode) :
    lines_ok_list src se cs = true ↔ ∀ c ∈ cs, lines_ok src se c = true := by
  induction cs with
  | nil => simp [lines_ok_list]
  | cons c cs ih => simp [lines_ok_list, ih]

theorem lines_ok_iff (src : List Nat) (se : Nat) (n : TSNode) :
    lines_ok src se n = true ↔
      line_ok src se n = true ∧ ∀ c ∈ n.children, lines_ok src se c = true := by
  cases n with
  | mk ty f s e cs =>
    simp only [lines_ok, Bool.and_eq_true, lines_ok_list_iff, TSNode.children]

theorem getD_ne_newline {src : List Nat} {i : Nat} (h : (src.getD i 0 != 10) = true) :
    src[i]? ≠ some 10 := by
  intro h2
  rw [List.getD_eq_getElem?_getD, h2] at h
  simp at h

/-- A statement the visitor may erase whole does not begin with a `\n`. -/
theorem lines_ok_start {src : List Nat} {se : Nat} {n : TSNode}
    (h : lines_ok src se n = true) (hk : statement_kind (classify n.type) = true) :
    src[n.start_byte]? ≠ some 10 := by
  have h1 := ((lines_ok_iff src se n).mp h).1
  unfold line_ok at h1
  simp only [Bool.and_eq_true, Bool.or_eq_true, hk, Bool.not_true, Bool.false_eq_true,
    false_or] at h1
  exact getD_ne_newline h1.1

theorem Calm.pushed {src : List Nat} {se : Nat} {ctx : parse_ctx_t} (h : Calm src se ctx)
    (flag : range_flag) (s t : Nat)
    (hs : flag = FLAG_REPLACE_WITH_SEMI → src[s]? ≠ some 10) :
    Calm src se (range_array_push ctx flag s t).1 := by
  have hf := same_frame_push ctx flag s t
  refine ⟨by rw [hf.1]; exact h.source_eq, by rw [hf.2.1]; exact h.stmt, ?_⟩
  rcases push_data_cases ctx flag s t with hd | hd
  · rw [hd]
    exact h.semis
  · rw [hd]
    intro e he
    simp only [List.mem_append, List.mem_singleton] at he
    rcases he with he | rfl
    · exact h.semis e he
    · exact hs

theorem Calm.blank {src : List Nat} {se : Nat} {ctx : parse_ctx_t} (h : Calm src se ctx)
    (s t : Nat) : Calm src se (blank_range ctx s t).1 :=
  h.pushed FLAG_BLANK s t (fun hf => by cases hf)

theorem Calm.blank_stmt {src : List Nat} {se : Nat} {ctx : parse_ctx_t}
    (h : Calm src se ctx) {n : TSNode} (hn : lines_ok src se n = true)
    (hk : statement_kind (classify n.type) = true) : Calm src se (blank_stmt ctx n).1 := by
  unfold TsStrip.blank_stmt
  split
  · exact h.pushed _ _ _ (fun _ => lines_ok_start hn hk)
  · exact h.blank _ _

end TsStrip
